import Mathlib

/-!
# Restaurant menu: dish model, dietary accommodations, record decoder

A shallow embedding of the C++ sources `Appetizer.cpp`, `MainCourse.cpp`,
`Dessert.cpp` and `Kitchen.cpp`.

* C++ objects are Lean structures; a member function that mutates `*this`
  is a function from the old object to the new one.
* `int` values are integers; arithmetic on them is wrapped to 32 bits
  (`wrapInt`).
* `std::vector<T>` is `List T`, `std::string` is `String`.
* A thrown exception is `Except.error`.
-/

set_option autoImplicit false

namespace Menu

/-! ## Machine integers -/

/-- Smallest value of a 32-bit `int`. -/
def INT_MIN : Int := -2147483648

/-- Largest value of a 32-bit `int`. -/
def INT_MAX : Int := 2147483647

/-- Result of an `int` computation whose mathematical value is `x`: the value
is reduced modulo `2^32` into the range `INT_MIN .. INT_MAX`. (Signed overflow
is undefined in C++; the model takes the two's-complement result.) -/
def wrapInt (x : Int) : Int := (x + 2147483648) % 4294967296 - 2147483648

/-- A `double`, kept as its 64-bit pattern. The dish code only stores and
copies prices, it does no arithmetic on them. -/
structure Double where
  bits : Nat
deriving DecidableEq, Repr

/-! ## Data model -/

/-- Modelled from the spec: `Dish.hpp` is not among the sources; the cuisine
enumeration is the one listed in the data model and used by `Kitchen.cpp`. -/
inductive CuisineType where
  | ITALIAN | MEXICAN | CHINESE | INDIAN | AMERICAN | FRENCH | OTHER
deriving DecidableEq, Repr

/-- Modelled from the spec: `Dish::DietaryRequest` is declared in the missing
`Dish.hpp`; the six toggles in the order `main.cpp` initialises them. -/
structure DietaryRequest where
  vegetarian : Bool
  vegan : Bool
  gluten_free : Bool
  nut_free : Bool
  low_sodium : Bool
  low_sugar : Bool
deriving DecidableEq, Repr

/-- Modelled from the spec: the base class `Dish` (`Dish.hpp`, `Dish.cpp`) is
not among the sources. Its five data members are those passed to the base
constructor by every variant; `getIngredients` and `setIngredients` read and
overwrite `ingredients_`. -/
structure Dish where
  name_ : String
  ingredients_ : List String
  prep_time_ : Int
  price_ : Double
  cuisine_type_ : CuisineType
deriving DecidableEq, Repr

/-- Enumeration `Appetizer::ServingStyle`. -/
inductive ServingStyle where
  | PLATED | FAMILY_STYLE | BUFFET
deriving DecidableEq, Repr

/-- Class `Appetizer`: a `Dish` with the three members set by its
parameterized constructor. -/
structure Appetizer extends Dish where
  serving_style_ : ServingStyle
  spiciness_level_ : Int
  vegetarian_ : Bool
deriving DecidableEq, Repr

/-- Enumeration `MainCourse::CookingMethod`. -/
inductive CookingMethod where
  | GRILLED | BAKED | BOILED | FRIED | STEAMED | RAW
deriving DecidableEq, Repr

/-- Enumeration `MainCourse::Category`. -/
inductive Category where
  | GRAIN | PASTA | LEGUME | BREAD | SALAD | SOUP | STARCHES | VEGETABLE
deriving DecidableEq, Repr

/-- Struct `MainCourse::SideDish`. -/
structure SideDish where
  name : String
  category : Category
deriving DecidableEq, Repr

/-- Class `MainCourse`. -/
structure MainCourse extends Dish where
  cooking_method_ : CookingMethod
  protein_type_ : String
  side_dishes_ : List SideDish
  gluten_free_ : Bool
deriving DecidableEq, Repr

/-- Enumeration `Dessert::FlavorProfile`. -/
inductive FlavorProfile where
  | SWEET | BITTER | SOUR | SALTY | UMAMI
deriving DecidableEq, Repr

/-- Class `Dessert`. -/
structure Dessert extends Dish where
  flavor_profile_ : FlavorProfile
  sweetness_level_ : Int
  contains_nuts_ : Bool
deriving DecidableEq, Repr

/-- The object behind a `Dish*`: `Dish` is abstract, so it is an object of one
of the three concrete classes of the repository. -/
inductive DishObject where
  | appetizer (a : Appetizer)
  | mainCourse (m : MainCourse)
  | dessert (d : Dessert)
deriving DecidableEq, Repr

/-- The `Dish` base sub-object of a dish object. -/
def DishObject.base : DishObject → Dish
  | .appetizer a => a.toDish
  | .mainCourse m => m.toDish
  | .dessert d => d.toDish

/-! ## Dietary accommodations -/

/-- Local vector `non_veg_ingredients` of `Appetizer.cpp` and `MainCourse.cpp`. -/
def non_veg_ingredients : List String :=
  ["Meat", "Chicken", "Fish", "Beef", "Pork", "Lamb", "Shrimp", "Bacon"]

/-- Local vector `gluten_ingredients` of `Appetizer.cpp`. -/
def gluten_ingredients : List String :=
  ["Wheat", "Flour", "Bread", "Pasta", "Barley", "Rye", "Oats", "Crust"]

/-- Local vector `dairy_eggs` of `MainCourse.cpp` (`dairy_egg` in `Dessert.cpp`). -/
def dairy_eggs : List String :=
  ["Milk", "Eggs", "Cheese", "Butter", "Cream", "Yogurt"]

/-- Static vector `nuts` of `Dessert.cpp`. -/
def nuts : List String :=
  ["Almonds", "Walnuts", "Pecans", "Hazelnuts", "Peanuts", "Cashews", "Pistachios"]

/-- Local vector `gluten_categories` of `MainCourse.cpp`. -/
def gluten_categories : List Category :=
  [Category.GRAIN, Category.PASTA, Category.BREAD, Category.STARCHES]

/-- The erase-remove idiom `v.erase(std::remove(v.begin(), v.end(), value), v.end())`:
the elements different from `value` stay, in order. -/
def eraseRemove (value : String) (v : List String) : List String :=
  v.filter (fun x => decide (x ≠ value))

/-- The range-for loop of the vegetarian branch (`Appetizer.cpp` 165-176,
`MainCourse.cpp` 213-224), started with the given `replacement_count`: an
ingredient found in `non_veg_ingredients` is overwritten with "Beans" when the
counter is 0, with "Mushrooms" when it is 1, and with the empty string
otherwise, and the counter goes up by one; other ingredients are left alone.
The counter is a natural number: it only grows, by one per match. -/
def replaceNonVeg : Nat → List String → List String
  | _, [] => []
  | replacement_count, ingredient :: rest =>
    if ingredient ∈ non_veg_ingredients then
      (if replacement_count = 0 then "Beans"
       else if replacement_count = 1 then "Mushrooms"
       else "") :: replaceNonVeg (replacement_count + 1) rest
    else ingredient :: replaceNonVeg replacement_count rest

/-- The range-for loop that overwrites with the empty string every ingredient
found in `listed` (`Appetizer.cpp` 188-192, `MainCourse.cpp` 233-237). -/
def blankListed (listed : List String) (ingredients : List String) : List String :=
  ingredients.map (fun ingredient => if ingredient ∈ listed then "" else ingredient)

/-- The loop `for (const auto& item : listed)` of `Dessert.cpp` (162-167 and
178-183): for each listed item in turn, `std::remove` it from the ingredients
and erase the tail. -/
def removeEach (listed : List String) (ingredients : List String) : List String :=
  listed.foldl (fun ingredients item => eraseRemove item ingredients) ingredients

/-- Member function `Appetizer::dietaryAccommodations`. -/
def Appetizer.dietaryAccommodations (request : DietaryRequest) (self : Appetizer) :
    Appetizer :=
  let ingredients := self.ingredients_
  -- Handle vegetarian request
  let vegetarian_ := if request.vegetarian then true else self.vegetarian_
  let ingredients :=
    if request.vegetarian then eraseRemove "" (replaceNonVeg 0 ingredients) else ingredients
  -- Handle low sodium request
  let spiciness_level_ :=
    if request.low_sodium then max (wrapInt (self.spiciness_level_ - 2)) 0
    else self.spiciness_level_
  -- Handle gluten-free request
  let ingredients :=
    if request.gluten_free then eraseRemove "" (blankListed gluten_ingredients ingredients)
    else ingredients
  { self with
    ingredients_ := ingredients
    spiciness_level_ := spiciness_level_
    vegetarian_ := vegetarian_ }

/-- Member function `MainCourse::dietaryAccommodations`. -/
def MainCourse.dietaryAccommodations (request : DietaryRequest) (self : MainCourse) :
    MainCourse :=
  let ingredients := self.ingredients_
  -- Handle vegetarian request
  let protein_type_ := if request.vegetarian then "Tofu" else self.protein_type_
  let ingredients :=
    if request.vegetarian then eraseRemove "" (replaceNonVeg 0 ingredients) else ingredients
  -- Handle vegan request
  let protein_type_ := if request.vegan then "Tofu" else protein_type_
  let ingredients :=
    if request.vegan then eraseRemove "" (blankListed dairy_eggs ingredients) else ingredients
  -- Handle gluten-free request
  let gluten_free_ := if request.gluten_free then true else self.gluten_free_
  let side_dishes_ :=
    if request.gluten_free then
      self.side_dishes_.filter (fun dish => !decide (dish.category ∈ gluten_categories))
    else self.side_dishes_
  { self with
    ingredients_ := ingredients
    protein_type_ := protein_type_
    side_dishes_ := side_dishes_
    gluten_free_ := gluten_free_ }

/-- Member function `Dessert::dietaryAccommodations`. -/
def Dessert.dietaryAccommodations (request : DietaryRequest) (self : Dessert) : Dessert :=
  let ingredients := self.ingredients_
  -- Handle nut-free request
  let contains_nuts_ := if request.nut_free then false else self.contains_nuts_
  let ingredients := if request.nut_free then removeEach nuts ingredients else ingredients
  -- Handle low sugar request
  let sweetness_level_ :=
    if request.low_sugar then max 0 (wrapInt (self.sweetness_level_ - 3))
    else self.sweetness_level_
  -- Handle vegan request
  let ingredients := if request.vegan then removeEach dairy_eggs ingredients else ingredients
  { self with
    ingredients_ := ingredients
    sweetness_level_ := sweetness_level_
    contains_nuts_ := contains_nuts_ }

/-- The virtual call `dish->dietaryAccommodations(request)`: dispatch on the
dynamic type. -/
def DishObject.dietaryAccommodations (request : DietaryRequest) : DishObject → DishObject
  | .appetizer a => .appetizer (a.dietaryAccommodations request)
  | .mainCourse m => .mainCourse (m.dietaryAccommodations request)
  | .dessert d => .dessert (d.dietaryAccommodations request)

/-- The meat substitution as the specification words it, for a scan that has
already met `seen` non-vegetarian ingredients: the first non-vegetarian
ingredient is replaced in its position by "Beans", the second by "Mushrooms",
every later one is deleted, and every other ingredient is kept. -/
def substituteMeat : Nat → List String → List String
  | _, [] => []
  | seen, x :: rest =>
    if x ∈ non_veg_ingredients then
      match seen with
      | 0 => "Beans" :: substituteMeat 1 rest
      | 1 => "Mushrooms" :: substituteMeat 2 rest
      | n + 2 => substituteMeat (n + 3) rest
    else x :: substituteMeat seen rest

/-! ## Record decoder (`Kitchen::Kitchen(const std::string&)`) -/

/-- Exceptions thrown by the numeric conversions `std::stoi` and `std::stod`. -/
inductive StdException where
  | invalid_argument | out_of_range
deriving DecidableEq, Repr

/-- An input string stream: the characters not yet extracted, and whether the
stream is still `good()` (neither `eofbit` nor `failbit` is set). -/
structure IStream where
  buf : List Char
  good : Bool
deriving DecidableEq, Repr

/-- The declaration `std::stringstream ss(text)`. -/
def IStream.ofString (text : String) : IStream := ⟨text.data, true⟩

/-- The characters before the first `delim`, and what follows that delimiter
when there is one. -/
def splitAtDelim (delim : Char) : List Char → List Char × Option (List Char)
  | [] => ([], none)
  | c :: cs =>
    if c = delim then ([], some cs)
    else (c :: (splitAtDelim delim cs).1, (splitAtDelim delim cs).2)

/-- The call `std::getline(ss, str, delim)`. It returns the stream, the string
and the value of the stream in a boolean context (true unless `failbit` is set).
On a stream that is not good the sentry fails: `failbit` is set and `str` is
left as it was. Otherwise `str` is erased and filled with the characters up to
the delimiter, which is extracted and dropped; when the end of the input is
reached first, `eofbit` is set, and `failbit` too if nothing was extracted. -/
def getline (ss : IStream) (str : String) (delim : Char) : IStream × String × Bool :=
  if ss.good then
    match splitAtDelim delim ss.buf with
    | (tok, some rest) => (⟨rest, true⟩, String.mk tok, true)
    | (tok, none) => (⟨[], false⟩, String.mk tok, !tok.isEmpty)
  else (ss, str, false)

/-- The loop `while (std::getline(ss, str, delim)) { ... push_back ... }`: the
successive values of `str`, one per iteration. Each successful call extracts a
character or ends the input, so `ss.buf.length + 1` iterations always suffice
(`getlineAll_fuel`). -/
def getlineAll (delim : Char) : Nat → IStream → String → List String
  | 0, _, _ => []
  | fuel + 1, ss, str =>
    if (getline ss str delim).2.2 then
      (getline ss str delim).2.1
        :: getlineAll delim fuel (getline ss str delim).1 (getline ss str delim).2.1
    else []

/-- The C function `isspace` in the default locale. -/
def isspace (c : Char) : Bool :=
  c = ' ' || c = '\t' || c = '\n' || c = Char.ofNat 11 || c = Char.ofNat 12 || c = '\r'

/-- Value of a run of decimal digits. -/
def digitsValue (ds : List Char) : Nat :=
  ds.foldl (fun v c => 10 * v + (c.toNat - 48)) 0

/-- The library function `std::stoi(str)` (base 10), as the C++ standard
specifies it through `strtol`: leading white space is skipped, an optional sign
and the longest run of decimal digits are read, and what follows is ignored.
It throws `std::invalid_argument` when there is no digit to convert and
`std::out_of_range` when the value does not fit an `int`. -/
def stoi (str : String) : Except StdException Int :=
  let s := str.data.dropWhile isspace
  let negative := s.head? = some '-'
  let s := if s.head? = some '-' ∨ s.head? = some '+' then s.tail else s
  let digits := s.takeWhile Char.isDigit
  if digits.isEmpty then Except.error StdException.invalid_argument
  else
    let value : Int := if negative then -(digitsValue digits : Int) else (digitsValue digits : Int)
    if value < INT_MIN ∨ INT_MAX < value then Except.error StdException.out_of_range
    else Except.ok value

/-- The if-chain that determines `cuisine_type` (`Kitchen.cpp` 64-71). -/
def parseCuisineType (cuisine_type_str : String) : CuisineType :=
  if cuisine_type_str = "ITALIAN" then CuisineType.ITALIAN
  else if cuisine_type_str = "MEXICAN" then CuisineType.MEXICAN
  else if cuisine_type_str = "CHINESE" then CuisineType.CHINESE
  else if cuisine_type_str = "INDIAN" then CuisineType.INDIAN
  else if cuisine_type_str = "AMERICAN" then CuisineType.AMERICAN
  else if cuisine_type_str = "FRENCH" then CuisineType.FRENCH
  else CuisineType.OTHER

/-- The if-chain that determines `serving_style` (`Kitchen.cpp` 81-90). -/
def parseServingStyle (serving_style_str : String) : ServingStyle :=
  if serving_style_str = "PLATED" then ServingStyle.PLATED
  else if serving_style_str = "FAMILY_STYLE" then ServingStyle.FAMILY_STYLE
  else if serving_style_str = "BUFFET" then ServingStyle.BUFFET
  else ServingStyle.PLATED

/-- The if-chain that determines `cooking_method` (`Kitchen.cpp` 105-120). -/
def parseCookingMethod (cooking_method_str : String) : CookingMethod :=
  if cooking_method_str = "GRILLED" then CookingMethod.GRILLED
  else if cooking_method_str = "BAKED" then CookingMethod.BAKED
  else if cooking_method_str = "BOILED" then CookingMethod.BOILED
  else if cooking_method_str = "FRIED" then CookingMethod.FRIED
  else if cooking_method_str = "STEAMED" then CookingMethod.STEAMED
  else if cooking_method_str = "RAW" then CookingMethod.RAW
  else CookingMethod.GRILLED

/-- The if-chain that determines a side dish's `category` (`Kitchen.cpp` 131-150). -/
def parseCategory (category_str : String) : Category :=
  if category_str = "GRAIN" then Category.GRAIN
  else if category_str = "PASTA" then Category.PASTA
  else if category_str = "LEGUME" then Category.LEGUME
  else if category_str = "BREAD" then Category.BREAD
  else if category_str = "SALAD" then Category.SALAD
  else if category_str = "SOUP" then Category.SOUP
  else if category_str = "STARCHES" then Category.STARCHES
  else if category_str = "VEGETABLE" then Category.VEGETABLE
  else Category.GRAIN

/-- The if-chain that determines `flavor_profile` (`Kitchen.cpp` 164-177). -/
def parseFlavorProfile (flavor_profile_str : String) : FlavorProfile :=
  if flavor_profile_str = "SWEET" then FlavorProfile.SWEET
  else if flavor_profile_str = "BITTER" then FlavorProfile.BITTER
  else if flavor_profile_str = "SOUR" then FlavorProfile.SOUR
  else if flavor_profile_str = "SALTY" then FlavorProfile.SALTY
  else if flavor_profile_str = "UMAMI" then FlavorProfile.UMAMI
  else FlavorProfile.SWEET

/-- The ingredient loop (`Kitchen.cpp` 55-61). -/
def parseIngredients (ingredients_str : String) : List String :=
  getlineAll ';' (ingredients_str.data.length + 1) (IStream.ofString ingredients_str) ""

/-- The body of the side-dish loop (`Kitchen.cpp` 127-151): one entry is split
at ':' into a name and a category token. -/
def parseSideDish (side_dish_str : String) : SideDish :=
  let side_ss := IStream.ofString side_dish_str
  let r1 := getline side_ss "" ':'
  let side_name := r1.2.1
  let r2 := getline r1.1 "" ':'
  let category_str := r2.2.1
  { name := side_name, category := parseCategory category_str }

/-- The side-dish loop (`Kitchen.cpp` 123-152). -/
def parseSideDishes (side_dishes_str : String) : List SideDish :=
  (getlineAll '|' (side_dishes_str.data.length + 1) (IStream.ofString side_dishes_str) "").map
    parseSideDish

/-- The body of the constructor's line loop up to the `new` expression
(`Kitchen.cpp` 39-182): the object constructed from one line, `none` when no
branch constructs one, or the exception thrown by a numeric conversion.
`std::stod` produces a floating-point value and is a parameter. -/
def decodeLine (stod : String → Except StdException Double) (line : String) :
    Except StdException (Option DishObject) :=
  let ss := IStream.ofString line
  -- Extract all parts of the CSV row
  let r1 := getline ss "" ','
  let dish_type := r1.2.1
  let r2 := getline r1.1 "" ','
  let name := r2.2.1
  let r3 := getline r2.1 "" ','
  let ingredients_str := r3.2.1
  let r4 := getline r3.1 "" ','
  let prep_time_str := r4.2.1
  let r5 := getline r4.1 "" ','
  let price_str := r5.2.1
  let r6 := getline r5.1 "" ','
  let cuisine_type_str := r6.2.1
  let r7 := getline r6.1 "" '\n'
  let additional_attributes := r7.2.1
  -- Convert numeric fields
  match stoi prep_time_str with
  | Except.error e => Except.error e
  | Except.ok prep_time =>
  match stod price_str with
  | Except.error e => Except.error e
  | Except.ok price =>
    let ingredients := parseIngredients ingredients_str
    let cuisine_type := parseCuisineType cuisine_type_str
    let base : Dish := ⟨name, ingredients, prep_time, price, cuisine_type⟩
    if dish_type = "APPETIZER" then
      let a1 := getline (IStream.ofString additional_attributes) "" ';'
      let serving_style_str := a1.2.1
      let a2 := getline a1.1 "" ';'
      let spiciness_str := a2.2.1
      let a3 := getline a2.1 "" ';'
      let vegetarian_str := a3.2.1
      let serving_style := parseServingStyle serving_style_str
      match stoi spiciness_str with
      | Except.error e => Except.error e
      | Except.ok spiciness_level =>
        Except.ok (some (DishObject.appetizer
          ⟨base, serving_style, spiciness_level, decide (vegetarian_str = "true")⟩))
    else if dish_type = "MAINCOURSE" then
      let a1 := getline (IStream.ofString additional_attributes) "" ';'
      let cooking_method_str := a1.2.1
      let a2 := getline a1.1 "" ';'
      let protein_type := a2.2.1
      let a3 := getline a2.1 "" ';'
      let side_dishes_str := a3.2.1
      let a4 := getline a3.1 "" ';'
      let gluten_free_str := a4.2.1
      let cooking_method := parseCookingMethod cooking_method_str
      Except.ok (some (DishObject.mainCourse
        ⟨base, cooking_method, protein_type, parseSideDishes side_dishes_str,
          decide (gluten_free_str = "true")⟩))
    else if dish_type = "DESSERT" then
      let a1 := getline (IStream.ofString additional_attributes) "" ';'
      let flavor_profile_str := a1.2.1
      let a2 := getline a1.1 "" ';'
      let sweetness_level_str := a2.2.1
      let a3 := getline a2.1 "" ';'
      let contains_nuts_str := a3.2.1
      let flavor_profile := parseFlavorProfile flavor_profile_str
      match stoi sweetness_level_str with
      | Except.error e => Except.error e
      | Except.ok sweetness_level =>
        Except.ok (some (DishObject.dessert
          ⟨base, flavor_profile, sweetness_level, decide (contains_nuts_str = "true")⟩))
    else Except.ok none

/-- One iteration of the constructor's line loop: the line is decoded and the
object it yields, if any, is handed to `add`, whose result is discarded.
Modelled from the spec: `ArrayBag.hpp` is not among the sources; the bag and
its `add` are parameters. -/
def Kitchen.readLine {Bag : Type} (add : Bag → DishObject → Bag × Bool)
    (stod : String → Except StdException Double) (bag : Bag) (line : String) :
    Except StdException Bag :=
  match decodeLine stod line with
  | Except.error e => Except.error e
  | Except.ok none => Except.ok bag
  | Except.ok (some dish) => Except.ok (add bag dish).1

/-! ### The record layout, in the specification's words -/

/-- Field number `k` (counted from 0) of a delimited text: the characters
between the k-th delimiter and the next one, or the end of the text; empty when
the text has fewer fields. -/
def nthField (delim : Char) : Nat → List Char → List Char
  | 0, cs => cs.takeWhile (fun c => decide (c ≠ delim))
  | k + 1, cs => nthField delim k (cs.dropWhile (fun c => decide (c ≠ delim))).tail

/-- What follows the k-th delimiter of a text; empty when the text has fewer
than `k` delimiters. -/
def afterFields (delim : Char) : Nat → List Char → List Char
  | 0, cs => cs
  | k + 1, cs => afterFields delim k (cs.dropWhile (fun c => decide (c ≠ delim))).tail

/-- Positional field `k` of a record line: its k-th comma-separated field
(0 dish type, 1 name, 2 ingredients, 3 preparation time, 4 price, 5 cuisine). -/
def recordField (k : Nat) (line : String) : String :=
  String.mk (nthField ',' k line.data)

/-- The variant sub-record of a record line: what follows the sixth comma, up
to the end of the line. -/
def variantFields (line : String) : String :=
  String.mk (nthField '\n' 0 (afterFields ',' 6 line.data))

/-- Token `k` (counted from 0) of the variant sub-record, split at ';'. -/
def variantToken (k : Nat) (line : String) : String :=
  String.mk (nthField ';' k (variantFields line).data)

/-! ### Enumeration labels of the record format -/

/-- The label of a cuisine in the record format: the upper-case name the data
model lists. -/
def CuisineType.label : CuisineType → String
  | CuisineType.ITALIAN => "ITALIAN"
  | CuisineType.MEXICAN => "MEXICAN"
  | CuisineType.CHINESE => "CHINESE"
  | CuisineType.INDIAN => "INDIAN"
  | CuisineType.AMERICAN => "AMERICAN"
  | CuisineType.FRENCH => "FRENCH"
  | CuisineType.OTHER => "OTHER"

/-- The label of a serving style in the record format. -/
def ServingStyle.label : ServingStyle → String
  | ServingStyle.PLATED => "PLATED"
  | ServingStyle.FAMILY_STYLE => "FAMILY_STYLE"
  | ServingStyle.BUFFET => "BUFFET"

/-- The label of a cooking method in the record format. -/
def CookingMethod.label : CookingMethod → String
  | CookingMethod.GRILLED => "GRILLED"
  | CookingMethod.BAKED => "BAKED"
  | CookingMethod.BOILED => "BOILED"
  | CookingMethod.FRIED => "FRIED"
  | CookingMethod.STEAMED => "STEAMED"
  | CookingMethod.RAW => "RAW"

/-- The label of a flavor profile in the record format. -/
def FlavorProfile.label : FlavorProfile → String
  | FlavorProfile.SWEET => "SWEET"
  | FlavorProfile.BITTER => "BITTER"
  | FlavorProfile.SOUR => "SOUR"
  | FlavorProfile.SALTY => "SALTY"
  | FlavorProfile.UMAMI => "UMAMI"

/-! ## The menu store (`Kitchen`, a subclass of `ArrayBag<Dish*>`) -/

/-- A `Dish*`: the address of a dish object. -/
abbrev DishPtr := Nat

/-- The dish objects in memory: the object each address points to. The store
operations of this section read the objects and never change them. -/
abbrev Memory := DishPtr → DishObject

/-- Modelled from the spec: `ArrayBag.hpp` is not among the sources. The spec
treats the collection as an unordered multiset with add, remove and iteration,
where `add` may refuse an entry and `remove` takes out one matching instance.
`Kitchen.cpp` reads the members as `items_[0] .. items_[getCurrentSize() - 1]`;
the model keeps them that way, in an array of slots `items_` of which the first
`item_count_` hold the members. A slot past `item_count_` keeps whatever was
last written to it. -/
structure ArrayBag where
  items_ : Nat → DishPtr
  item_count_ : Nat

/-- Modelled from the spec: `ArrayBag::getCurrentSize`, the number of members. -/
def ArrayBag.getCurrentSize (self : ArrayBag) : Nat := self.item_count_

/-- The members of the bag, in slot order. -/
def ArrayBag.members (self : ArrayBag) : List DishPtr :=
  (List.range self.item_count_).map self.items_

/-- Modelled from the spec: the search loop of `ArrayBag::getIndexOf`, over
`remaining` slots starting at `search_index`: the first slot that holds
`target`. -/
def ArrayBag.searchFrom (items : Nat → DishPtr) (target : DishPtr) : Nat → Nat → Option Nat
  | 0, _ => none
  | remaining + 1, search_index =>
    if items search_index = target then some search_index
    else ArrayBag.searchFrom items target remaining (search_index + 1)

/-- Modelled from the spec: `ArrayBag::getIndexOf`, the first member slot that
holds `target` (pointers are compared), `none` when no member slot does. -/
def ArrayBag.getIndexOf (self : ArrayBag) (target : DishPtr) : Option Nat :=
  ArrayBag.searchFrom self.items_ target self.item_count_ 0

/-- Modelled from the spec: `ArrayBag::add`. The spec leaves to the collection
when an entry is refused (it "rejects duplicates/is full"): that test is the
parameter `accepts`. An accepted entry is written to the next free slot. -/
def ArrayBag.add (accepts : ArrayBag → DishPtr → Bool) (self : ArrayBag)
    (new_entry : DishPtr) : ArrayBag × Bool :=
  if accepts self new_entry then
    ({ items_ := Function.update self.items_ self.item_count_ new_entry
       item_count_ := self.item_count_ + 1 }, true)
  else (self, false)

/-- Modelled from the spec: `ArrayBag::remove`, which takes out one matching
instance. The bag is unordered: the last member is moved into the slot of the
removed one and the count goes down by one. -/
def ArrayBag.remove (self : ArrayBag) (an_entry : DishPtr) : ArrayBag × Bool :=
  match self.getIndexOf an_entry with
  | some found_index =>
    ({ items_ := Function.update self.items_ found_index (self.items_ (self.item_count_ - 1))
       item_count_ := self.item_count_ - 1 }, true)
  | none => (self, false)

/-- Class `Kitchen`: an `ArrayBag<Dish*>` with the two aggregates. -/
structure Kitchen extends ArrayBag where
  total_prep_time_ : Int
  count_elaborate_ : Int

/-- The default constructor `Kitchen::Kitchen()`: no member, both aggregates 0.
The array itself is not initialised; `items` is its indeterminate content. -/
def Kitchen.default (items : Nat → DishPtr) : Kitchen :=
  { items_ := items, item_count_ := 0, total_prep_time_ := 0, count_elaborate_ := 0 }

/-- Modelled from the spec: `Dish::getPrepTime` (in the missing `Dish.cpp`)
returns `prep_time_`. -/
def getPrepTime (mem : Memory) (dish : DishPtr) : Int := (mem dish).base.prep_time_

/-- The test both `newOrder` and `serveDish` apply to a dish:
`getIngredients().size() >= 5 && getPrepTime() >= 60`. -/
def isElaborate (mem : Memory) (dish : DishPtr) : Bool :=
  decide (5 ≤ (mem dish).base.ingredients_.length) && decide (60 ≤ getPrepTime mem dish)

/-- Modelled from the spec: `Dish::getCuisineType` (in the missing `Dish.cpp`)
returns the cuisine as a string, the label `Kitchen.cpp` compares it with. -/
def getCuisineType (mem : Memory) (dish : DishPtr) : String :=
  (mem dish).base.cuisine_type_.label

/-- Member function `Kitchen::newOrder`. -/
def Kitchen.newOrder (accepts : ArrayBag → DishPtr → Bool) (mem : Memory) (self : Kitchen)
    (new_dish : DishPtr) : Kitchen × Bool :=
  if (self.toArrayBag.add accepts new_dish).2 then
    ({ toArrayBag := (self.toArrayBag.add accepts new_dish).1
       total_prep_time_ := wrapInt (self.total_prep_time_ + getPrepTime mem new_dish)
       count_elaborate_ :=
         if isElaborate mem new_dish then wrapInt (self.count_elaborate_ + 1)
         else self.count_elaborate_ }, true)
  else ({ self with toArrayBag := (self.toArrayBag.add accepts new_dish).1 }, false)

/-- Member function `Kitchen::serveDish`. -/
def Kitchen.serveDish (mem : Memory) (self : Kitchen) (dish_to_remove : DishPtr) :
    Kitchen × Bool :=
  if self.getCurrentSize = 0 then (self, false)
  else if (self.toArrayBag.remove dish_to_remove).2 then
    ({ toArrayBag := (self.toArrayBag.remove dish_to_remove).1
       total_prep_time_ := wrapInt (self.total_prep_time_ - getPrepTime mem dish_to_remove)
       count_elaborate_ :=
         if isElaborate mem dish_to_remove then wrapInt (self.count_elaborate_ - 1)
         else self.count_elaborate_ }, true)
  else ({ self with toArrayBag := (self.toArrayBag.remove dish_to_remove).1 }, false)

/-- Member function `Kitchen::getPrepTimeSum`. -/
def Kitchen.getPrepTimeSum (self : Kitchen) : Int :=
  if self.getCurrentSize = 0 then 0 else self.total_prep_time_

/-- Member function `Kitchen::elaborateDishCount`. -/
def Kitchen.elaborateDishCount (self : Kitchen) : Int :=
  if self.getCurrentSize = 0 ∨ self.count_elaborate_ = 0 then 0 else self.count_elaborate_

/-- Member function `Kitchen::tallyCuisineTypes`: the loop over the member
slots, counting those whose dish has the given cuisine string. -/
def Kitchen.tallyCuisineTypes (mem : Memory) (self : Kitchen) (cuisine_type : String) : Nat :=
  ((List.range self.getCurrentSize).filter
    (fun i => decide (getCuisineType mem (self.items_ i) = cuisine_type))).length

/-- The loop of `Kitchen::releaseDishesBelowPrepTime` with `remaining`
iterations to go, at index `i`: the bound `num` was read before the loop, so
the loop runs `num` times whatever `serveDish` does to the size. The counter
never exceeds `num`. -/
def Kitchen.releaseBelowLoop (mem : Memory) (prep_time : Int) :
    Nat → Nat → Kitchen → Nat → Kitchen × Nat
  | 0, _, self, count => (self, count)
  | remaining + 1, i, self, count =>
    if getPrepTime mem (self.items_ i) < prep_time then
      Kitchen.releaseBelowLoop mem prep_time remaining (i + 1)
        (self.serveDish mem (self.items_ i)).1 (count + 1)
    else Kitchen.releaseBelowLoop mem prep_time remaining (i + 1) self count

/-- Member function `Kitchen::releaseDishesBelowPrepTime`. -/
def Kitchen.releaseDishesBelowPrepTime (mem : Memory) (self : Kitchen) (prep_time : Int) :
    Kitchen × Nat :=
  Kitchen.releaseBelowLoop mem prep_time self.getCurrentSize 0 self 0

/-- The loop of `Kitchen::releaseDishesOfCuisineType` at index `i`: its
condition `i < getCurrentSize()` reads the size afresh in every iteration.
`fuel` bounds the number of iterations; the loop stops by its own condition
whenever `getCurrentSize() <= i + fuel` (`releaseCuisineLoop_fuel`). -/
def Kitchen.releaseCuisineLoop (mem : Memory) (cuisine_type : String) :
    Nat → Nat → Kitchen → Nat → Kitchen × Nat
  | 0, _, self, count => (self, count)
  | fuel + 1, i, self, count =>
    if i < self.getCurrentSize then
      if getCuisineType mem (self.items_ i) = cuisine_type then
        Kitchen.releaseCuisineLoop mem cuisine_type fuel (i + 1)
          (self.serveDish mem (self.items_ i)).1 (count + 1)
      else Kitchen.releaseCuisineLoop mem cuisine_type fuel (i + 1) self count
    else (self, count)

/-- Member function `Kitchen::releaseDishesOfCuisineType`. -/
def Kitchen.releaseDishesOfCuisineType (mem : Memory) (self : Kitchen)
    (cuisine_type : String) : Kitchen × Nat :=
  Kitchen.releaseCuisineLoop mem cuisine_type self.getCurrentSize 0 self 0

/-- A call of one of the two member functions that change the membership. -/
inductive StoreCall where
  | newOrder (dish : DishPtr)
  | serveDish (dish : DishPtr)

/-- The store after a call (its boolean result is dropped). -/
def Kitchen.call (accepts : ArrayBag → DishPtr → Bool) (mem : Memory) (self : Kitchen) :
    StoreCall → Kitchen
  | StoreCall.newOrder dish => (self.newOrder accepts mem dish).1
  | StoreCall.serveDish dish => (self.serveDish mem dish).1

/-- Sum of the preparation times of a list of dishes. -/
def prepTimeTotal (mem : Memory) (dishes : List DishPtr) : Int :=
  (dishes.map (getPrepTime mem)).sum

/-- Number of elaborate dishes in a list of dishes. -/
def elaborateTotal (mem : Memory) (dishes : List DishPtr) : Nat :=
  dishes.countP (isElaborate mem)

/-- The aggregates are consistent with the members: each holds, as an `int`,
the value the members give. -/
def Kitchen.Consistent (mem : Memory) (self : Kitchen) : Prop :=
  self.total_prep_time_ = wrapInt (prepTimeTotal mem self.members) ∧
  self.count_elaborate_ = wrapInt (elaborateTotal mem self.members)

/-- The value fits an `int`. -/
def InIntRange (x : Int) : Prop := INT_MIN ≤ x ∧ x ≤ INT_MAX

/-- An Appetizer object with the given preparation time, ingredients and
cuisine, for the examples. -/
def exampleDish (prep_time : Int) (ingredients : List String) (cuisine : CuisineType) :
    DishObject :=
  DishObject.appetizer
    ⟨⟨"Dish", ingredients, prep_time, ⟨0⟩, cuisine⟩, ServingStyle.PLATED, 0, false⟩

/-- A memory that holds the listed objects at the addresses 0, 1, 2, ... -/
def exampleMemory (dishes : List DishObject) : Memory :=
  fun p => dishes.getD p (exampleDish 0 [] CuisineType.OTHER)

/-- The store obtained from the default-constructed one by `newOrder` calls for
the listed dishes, in order. -/
def Kitchen.ofOrders (accepts : ArrayBag → DishPtr → Bool) (mem : Memory)
    (items : Nat → DishPtr) (orders : List DishPtr) : Kitchen :=
  orders.foldl (fun k d => (k.newOrder accepts mem d).1) (Kitchen.default items)

/-! ### Loading the store from a file -/

/-- The state of the loading constructor while it runs: the dish objects in
memory, the address the next `new` returns, and the store under
construction. -/
structure LoadState where
  mem : Memory
  next : DishPtr
  kitchen : Kitchen

/-- The statements `Dish* dish = new ...; add(dish);` of the constructor: the
decoded object is placed at a fresh address and the address is handed to
`ArrayBag::add`. The aggregates are not touched. -/
def Kitchen.addNew (accepts : ArrayBag → DishPtr → Bool) (st : LoadState)
    (dish : DishObject) : LoadState × Bool :=
  ({ mem := Function.update st.mem st.next dish
     next := st.next + 1
     kitchen := { st.kitchen with toArrayBag := (st.kitchen.toArrayBag.add accepts st.next).1 } },
   (st.kitchen.toArrayBag.add accepts st.next).2)

/-- The loop `while (std::getline(file, line)) { ... }` over the lines read. -/
def Kitchen.readLines (accepts : ArrayBag → DishPtr → Bool)
    (stod : String → Except StdException Double) :
    List String → LoadState → Except StdException LoadState
  | [], st => Except.ok st
  | line :: rest, st =>
    match Kitchen.readLine (Kitchen.addNew accepts) stod st line with
    | Except.error e => Except.error e
    | Except.ok st1 => Kitchen.readLines accepts stod rest st1

/-- The constructor `Kitchen::Kitchen(const std::string& filename)` on a file
with the given content (a file that cannot be opened behaves like an empty
one: every `getline` fails). It has no member initialiser: the `ArrayBag` base
is default-constructed, and `total_prep_time_` and `count_elaborate_` start
with the indeterminate values `total0` and `count0`. The first line is read and
dropped, every further line goes through the loop body. -/
def Kitchen.fromFile (accepts : ArrayBag → DishPtr → Bool)
    (stod : String → Except StdException Double) (mem : Memory) (next : DishPtr)
    (items : Nat → DishPtr) (total0 count0 : Int) (content : String) :
    Except StdException LoadState :=
  let file := IStream.ofString content
  let header := getline file "" '\n'
  let lines := getlineAll '\n' (content.data.length + 1) header.1 header.2.1
  Kitchen.readLines accepts stod lines
    { mem := mem, next := next,
      kitchen := { items_ := items, item_count_ := 0,
                   total_prep_time_ := total0, count_elaborate_ := count0 } }

/-! ### Fields of the record format, written out -/

/-- The label of a side-dish category in the record format: the upper-case
name the data model lists. -/
def Category.label : Category → String
  | Category.GRAIN => "GRAIN"
  | Category.PASTA => "PASTA"
  | Category.LEGUME => "LEGUME"
  | Category.BREAD => "BREAD"
  | Category.SALAD => "SALAD"
  | Category.SOUP => "SOUP"
  | Category.STARCHES => "STARCHES"
  | Category.VEGETABLE => "VEGETABLE"

/-- Texts joined by a delimiter: the delimiter stands between consecutive
texts, not after the last one. -/
def joinWith (delim : Char) : List (List Char) → List Char
  | [] => []
  | [t] => t
  | t :: u :: rest => t ++ delim :: joinWith delim (u :: rest)

/-- An ingredients field of the record format: the names joined by ';'. -/
def ingredientsField (names : List String) : String :=
  String.mk (joinWith ';' (names.map String.data))

/-- A side-dish entry of the record format: `name:CATEGORY`. -/
def sideDishEntry (side : SideDish) : List Char :=
  side.name.data ++ ':' :: side.category.label.data

/-- A side-dish field of the record format: the entries joined by '|'. -/
def sideDishesField (sides : List SideDish) : String :=
  String.mk (joinWith '|' (sides.map sideDishEntry))

/-! ### Bulk dietary adjustment -/

/-- Member function `Kitchen::dietaryAdjustment`: for each member slot in turn,
`items_[i]->dietaryAccommodations(request)` rewrites the object the slot points
to. The store itself is not written; the result is the memory after the
loop. -/
def Kitchen.dietaryAdjustment (request : DietaryRequest) (self : Kitchen) (mem : Memory) :
    Memory :=
  (List.range self.getCurrentSize).foldl
    (fun mem i =>
      Function.update mem (self.items_ i) ((mem (self.items_ i)).dietaryAccommodations request))
    mem

/-- A call of one of the three member functions that change the store or its
dishes. -/
inductive MenuCall where
  | newOrder (dish : DishPtr)
  | serveDish (dish : DishPtr)
  | dietaryAdjustment (request : DietaryRequest)

/-- The memory and the store after a call (a boolean result is dropped). -/
def Kitchen.callInMemory (accepts : ArrayBag → DishPtr → Bool) (state : Memory × Kitchen) :
    MenuCall → Memory × Kitchen
  | MenuCall.newOrder dish => (state.1, (state.2.newOrder accepts state.1 dish).1)
  | MenuCall.serveDish dish => (state.1, (state.2.serveDish state.1 dish).1)
  | MenuCall.dietaryAdjustment request => (state.2.dietaryAdjustment request state.1, state.2)

/-- The reads of `items_` made by the loop of
`Kitchen::releaseDishesBelowPrepTime`, in order: for each iteration the index
`i`, the pointer found in `items_[i]`, and the size of the store at that
moment. The recursion is that of `releaseBelowLoop`. -/
def Kitchen.releaseBelowReads (mem : Memory) (prep_time : Int) :
    Nat → Nat → Kitchen → List (Nat × DishPtr × Nat)
  | 0, _, _ => []
  | remaining + 1, i, self =>
    (i, self.items_ i, self.getCurrentSize) ::
      (if getPrepTime mem (self.items_ i) < prep_time then
        Kitchen.releaseBelowReads mem prep_time remaining (i + 1)
          (self.serveDish mem (self.items_ i)).1
      else Kitchen.releaseBelowReads mem prep_time remaining (i + 1) self)

/-! ### Combining requests -/

/-- The request whose set toggles are those of `r1` together with those of
`r2`. -/
def DietaryRequest.merge (r1 r2 : DietaryRequest) : DietaryRequest :=
  { vegetarian := r1.vegetarian || r2.vegetarian
    vegan := r1.vegan || r2.vegan
    gluten_free := r1.gluten_free || r2.gluten_free
    nut_free := r1.nut_free || r2.nut_free
    low_sodium := r1.low_sodium || r2.low_sodium
    low_sugar := r1.low_sugar || r2.low_sugar }

/-- Two requests have no toggle set in common. -/
def DietaryRequest.NoCommonToggle (r1 r2 : DietaryRequest) : Prop :=
  (r1.vegetarian && r2.vegetarian) = false ∧
  (r1.vegan && r2.vegan) = false ∧
  (r1.gluten_free && r2.gluten_free) = false ∧
  (r1.nut_free && r2.nut_free) = false ∧
  (r1.low_sodium && r2.low_sodium) = false ∧
  (r1.low_sugar && r2.low_sugar) = false

/-! ### Numeric tokens, in the specification's words -/

theorem eraseRemove_nil (value : String) : eraseRemove value [] = [] := rfl

theorem eraseRemove_cons_self (value : String) (v : List String) :
    eraseRemove value (value :: v) = eraseRemove value v := by
  simp [eraseRemove]

theorem eraseRemove_cons_ne {value x : String} (h : x ≠ value) (v : List String) :
    eraseRemove value (x :: v) = x :: eraseRemove value v := by
  simp [eraseRemove, h]

/-- Sweeping the placeholders after the vegetarian loop gives the substitution
of the specification, provided the list held no empty string beforehand. -/
theorem eraseRemove_replaceNonVeg (xs : List String) (h : "" ∉ xs) (c : Nat) :
    eraseRemove "" (replaceNonVeg c xs) = substituteMeat c xs := by
  induction xs generalizing c with
  | nil => rfl
  | cons x rest ih =>
    have hx : x ≠ "" := fun e => h (by simp [e])
    have hrest : "" ∉ rest := fun e => h (by simp [e])
    by_cases hm : x ∈ non_veg_ingredients
    · match c with
      | 0 =>
        have e : eraseRemove "" ("Beans" :: replaceNonVeg 1 rest)
            = "Beans" :: eraseRemove "" (replaceNonVeg 1 rest) :=
          eraseRemove_cons_ne (by decide) _
        simpa [replaceNonVeg, substituteMeat, hm, ih hrest] using e
      | 1 =>
        have e : eraseRemove "" ("Mushrooms" :: replaceNonVeg 2 rest)
            = "Mushrooms" :: eraseRemove "" (replaceNonVeg 2 rest) :=
          eraseRemove_cons_ne (by decide) _
        simpa [replaceNonVeg, substituteMeat, hm, ih hrest] using e
      | n + 2 =>
        simp only [replaceNonVeg, substituteMeat, if_pos hm]
        rw [if_neg (by omega), if_neg (by omega), eraseRemove_cons_self, ih hrest]
    · simp only [replaceNonVeg, substituteMeat, if_neg hm]
      rw [eraseRemove_cons_ne hx, ih hrest]

theorem eraseRemove_blankListed (listed xs : List String) :
    eraseRemove "" (blankListed listed xs)
      = xs.filter (fun x => decide (x ∉ listed ∧ x ≠ "")) := by
  induction xs with
  | nil => rfl
  | cons x rest ih =>
    have ih2 : List.filter (fun x => decide (x ≠ "")) (blankListed listed rest)
        = rest.filter (fun x => decide (x ∉ listed ∧ x ≠ "")) := ih
    by_cases hm : x ∈ listed
    · simp [eraseRemove, blankListed, hm] at ih2 ⊢
      exact ih2
    · by_cases hx : x = ""
      · simp [eraseRemove, blankListed, hm, hx] at ih2 ⊢
        exact ih2
      · simp [eraseRemove, blankListed, hm, hx] at ih2 ⊢
        exact ih2

theorem removeEach_eq_filter (listed xs : List String) :
    removeEach listed xs = xs.filter (fun x => decide (x ∉ listed)) := by
  induction listed generalizing xs with
  | nil => simp [removeEach]
  | cons l rest ih =>
    have step : removeEach (l :: rest) xs = removeEach rest (eraseRemove l xs) := rfl
    rw [step, ih, eraseRemove, List.filter_filter]
    apply List.filter_congr
    intro x _
    by_cases h1 : x = l <;> by_cases h2 : x ∈ rest <;> simp [h1, h2]

/-- What the vegetarian pass leaves holds neither a non-vegetarian ingredient
nor an empty string. -/
theorem mem_eraseRemove_replaceNonVeg (c : Nat) (xs : List String) (y : String)
    (hy : y ∈ eraseRemove "" (replaceNonVeg c xs)) :
    y ∉ non_veg_ingredients ∧ y ≠ "" := by
  induction xs generalizing c with
  | nil => simp [replaceNonVeg, eraseRemove] at hy
  | cons x rest ih =>
    by_cases hm : x ∈ non_veg_ingredients
    · have hstep : replaceNonVeg c (x :: rest)
          = (if c = 0 then "Beans" else if c = 1 then "Mushrooms" else "")
              :: replaceNonVeg (c + 1) rest := by
        simp only [replaceNonVeg, if_pos hm]
      rw [hstep] at hy
      by_cases h0 : c = 0
      · rw [if_pos h0, eraseRemove_cons_ne (by decide)] at hy
        rcases List.mem_cons.mp hy with h | h
        · subst h; decide
        · exact ih (c + 1) h
      · rw [if_neg h0] at hy
        by_cases h1 : c = 1
        · rw [if_pos h1, eraseRemove_cons_ne (by decide)] at hy
          rcases List.mem_cons.mp hy with h | h
          · subst h; decide
          · exact ih (c + 1) h
        · rw [if_neg h1, eraseRemove_cons_self] at hy
          exact ih (c + 1) hy
    · have hstep : replaceNonVeg c (x :: rest) = x :: replaceNonVeg c rest := by
        simp only [replaceNonVeg, if_neg hm]
      rw [hstep] at hy
      by_cases hx : x = ""
      · rw [hx, eraseRemove_cons_self] at hy
        exact ih c hy
      · rw [eraseRemove_cons_ne hx] at hy
        rcases List.mem_cons.mp hy with h | h
        · subst h; exact ⟨hm, hx⟩
        · exact ih c h

/-- The vegetarian pass changes nothing in a list that holds neither a
non-vegetarian ingredient nor an empty string. -/
theorem eraseRemove_replaceNonVeg_of_clean (c : Nat) (xs : List String)
    (h : ∀ y ∈ xs, y ∉ non_veg_ingredients ∧ y ≠ "") :
    eraseRemove "" (replaceNonVeg c xs) = xs := by
  induction xs with
  | nil => rfl
  | cons x rest ih =>
    have hx := h x (by simp)
    have hrest : ∀ y ∈ rest, y ∉ non_veg_ingredients ∧ y ≠ "" :=
      fun y hy => h y (by simp [hy])
    simp only [replaceNonVeg, if_neg hx.1]
    rw [eraseRemove_cons_ne hx.2, ih hrest]

theorem eraseRemove_replaceNonVeg_twice (xs : List String) :
    eraseRemove "" (replaceNonVeg 0 (eraseRemove "" (replaceNonVeg 0 xs)))
      = eraseRemove "" (replaceNonVeg 0 xs) :=
  eraseRemove_replaceNonVeg_of_clean 0 _ (fun y hy => mem_eraseRemove_replaceNonVeg 0 xs y hy)

/-- The vegetarian pass also changes nothing after a later pass that only
deleted entries. -/
theorem eraseRemove_replaceNonVeg_filter (p : String → Bool) (xs : List String) :
    eraseRemove "" (replaceNonVeg 0 ((eraseRemove "" (replaceNonVeg 0 xs)).filter p))
      = (eraseRemove "" (replaceNonVeg 0 xs)).filter p :=
  eraseRemove_replaceNonVeg_of_clean 0 _
    (fun y hy => mem_eraseRemove_replaceNonVeg 0 xs y (List.mem_filter.mp hy).1)

theorem wrapInt_of_inRange (x : Int) (h1 : INT_MIN ≤ x) (h2 : x ≤ INT_MAX) :
    wrapInt x = x := by
  unfold INT_MIN at h1
  unfold INT_MAX at h2
  unfold wrapInt
  omega

/-! ### Dietary accommodations of the three variants -/

/-- C1: for an Appetizer whose ingredient list holds no empty string and a
request with vegetarian set and gluten_free unset, dietaryAccommodations sets
the vegetarian flag and leaves the original list with the first non-vegetarian
ingredient replaced by "Beans", the second by "Mushrooms", the later ones
deleted and every other ingredient kept in order. -/
theorem appetizer_vegetarian_substitution (a : Appetizer) (request : DietaryRequest)
    (hempty : "" ∉ a.ingredients_) (hveg : request.vegetarian = true)
    (hgf : request.gluten_free = false) :
    (a.dietaryAccommodations request).vegetarian_ = true ∧
    (a.dietaryAccommodations request).ingredients_ = substituteMeat 0 a.ingredients_ := by
  simp only [Appetizer.dietaryAccommodations, hveg, hgf, if_true]
  exact ⟨trivial, eraseRemove_replaceNonVeg a.ingredients_ hempty 0⟩

theorem appetizer_vegetarian_substitution_witness :
    ((Appetizer.mk ⟨"Skewers", ["Rice", "Pork", "Lamb", "Bacon", "Salt"], 25, ⟨0⟩,
        CuisineType.OTHER⟩ ServingStyle.BUFFET 4 false).dietaryAccommodations
      ⟨true, true, false, true, true, false⟩).ingredients_
      = ["Rice", "Beans", "Mushrooms", "Salt"] :=
  (appetizer_vegetarian_substitution
    (Appetizer.mk ⟨"Skewers", ["Rice", "Pork", "Lamb", "Bacon", "Salt"], 25, ⟨0⟩,
      CuisineType.OTHER⟩ ServingStyle.BUFFET 4 false)
    ⟨true, true, false, true, true, false⟩ (by decide) rfl rfl).2.trans (by decide)

/-- C2, as stated, fails: from Chicken, Milk, Beef, Fish the vegetarian
request leaves Beans, Milk, Mushrooms (each replacement stays in the position
of the ingredient it replaces), which is not the list Beans, Mushrooms, Milk. -/
theorem appetizer_vegetarian_example_order :
    ((Appetizer.mk ⟨"Platter", ["Chicken", "Milk", "Beef", "Fish"], 10, ⟨0⟩,
        CuisineType.AMERICAN⟩ ServingStyle.PLATED 0 false).dietaryAccommodations
      ⟨true, false, false, false, false, false⟩).ingredients_
      = ["Beans", "Milk", "Mushrooms"] ∧
    ((Appetizer.mk ⟨"Platter", ["Chicken", "Milk", "Beef", "Fish"], 10, ⟨0⟩,
        CuisineType.AMERICAN⟩ ServingStyle.PLATED 0 false).dietaryAccommodations
      ⟨true, false, false, false, false, false⟩).ingredients_
      ≠ ["Beans", "Mushrooms", "Milk"] := by
  constructor <;> decide

/-- C2 (amended): a request with only vegetarian set, applied to an Appetizer
whose ingredients are Chicken, Milk, Beef, Fish, leaves exactly Beans, Milk,
Mushrooms and the vegetarian flag true. -/
theorem appetizer_vegetarian_example (a : Appetizer) :
    (Appetizer.dietaryAccommodations ⟨true, false, false, false, false, false⟩
        { a with ingredients_ := ["Chicken", "Milk", "Beef", "Fish"] }).ingredients_
      = ["Beans", "Milk", "Mushrooms"] ∧
    (Appetizer.dietaryAccommodations ⟨true, false, false, false, false, false⟩
        { a with ingredients_ := ["Chicken", "Milk", "Beef", "Fish"] }).vegetarian_ = true := by
  constructor
  · show eraseRemove "" (replaceNonVeg 0 ["Chicken", "Milk", "Beef", "Fish"])
      = ["Beans", "Milk", "Mushrooms"]
    decide
  · rfl

/-- C3: for a Dessert and a request with nut_free set and vegan unset,
dietaryAccommodations clears the contains-nuts flag and leaves exactly the
original ingredients that are not one of the seven nuts, in their original
order; from Almonds, Sugar, Peanuts it leaves Sugar. -/
theorem dessert_nut_free_removal (d : Dessert) (request : DietaryRequest)
    (hnut : request.nut_free = true) (hvegan : request.vegan = false) :
    (d.dietaryAccommodations request).contains_nuts_ = false ∧
    (d.dietaryAccommodations request).ingredients_
      = d.ingredients_.filter (fun x => decide (x ∉ nuts)) ∧
    (d.ingredients_ = ["Almonds", "Sugar", "Peanuts"] →
      (d.dietaryAccommodations request).ingredients_ = ["Sugar"]) := by
  have key : (d.dietaryAccommodations request).ingredients_
      = d.ingredients_.filter (fun x => decide (x ∉ nuts)) := by
    simp only [Dessert.dietaryAccommodations, hnut, hvegan, if_true]
    exact removeEach_eq_filter nuts d.ingredients_
  refine ⟨?_, key, ?_⟩
  · simp only [Dessert.dietaryAccommodations, hnut, if_true]
  · intro h
    rw [key, h]
    decide

theorem dessert_nut_free_removal_witness :
    ((Dessert.mk ⟨"Brittle", ["Almonds", "Sugar", "Peanuts"], 15, ⟨0⟩, CuisineType.FRENCH⟩
        FlavorProfile.SWEET 7 true).dietaryAccommodations
      ⟨false, false, false, true, false, true⟩).contains_nuts_ = false ∧
    ((Dessert.mk ⟨"Brittle", ["Almonds", "Sugar", "Peanuts"], 15, ⟨0⟩, CuisineType.FRENCH⟩
        FlavorProfile.SWEET 7 true).dietaryAccommodations
      ⟨false, false, false, true, false, true⟩).ingredients_ = ["Sugar"] :=
  have h := dessert_nut_free_removal
    (Dessert.mk ⟨"Brittle", ["Almonds", "Sugar", "Peanuts"], 15, ⟨0⟩, CuisineType.FRENCH⟩
      FlavorProfile.SWEET 7 true)
    ⟨false, false, false, true, false, true⟩ rfl rfl
  ⟨h.1, h.2.2 rfl⟩

/-- C4: for a MainCourse and a request with gluten_free set,
dietaryAccommodations sets the gluten-free flag and leaves exactly the
original side dishes whose category is not GRAIN, PASTA, BREAD or STARCHES, in
their original order; from (Rice, GRAIN), (Salad, SALAD) only (Salad, SALAD)
remains. -/
theorem mainCourse_gluten_free_sides (m : MainCourse) (request : DietaryRequest)
    (hgf : request.gluten_free = true) :
    (m.dietaryAccommodations request).gluten_free_ = true ∧
    (m.dietaryAccommodations request).side_dishes_
      = m.side_dishes_.filter (fun side =>
          decide (side.category ≠ Category.GRAIN ∧ side.category ≠ Category.PASTA ∧
            side.category ≠ Category.BREAD ∧ side.category ≠ Category.STARCHES)) ∧
    (m.side_dishes_ = [⟨"Rice", Category.GRAIN⟩, ⟨"Salad", Category.SALAD⟩] →
      (m.dietaryAccommodations request).side_dishes_ = [⟨"Salad", Category.SALAD⟩]) := by
  have key : (m.dietaryAccommodations request).side_dishes_
      = m.side_dishes_.filter (fun side =>
          decide (side.category ≠ Category.GRAIN ∧ side.category ≠ Category.PASTA ∧
            side.category ≠ Category.BREAD ∧ side.category ≠ Category.STARCHES)) := by
    simp only [MainCourse.dietaryAccommodations, hgf, if_true]
    apply List.filter_congr
    intro side _
    cases side.category <;> decide
  refine ⟨?_, key, ?_⟩
  · simp only [MainCourse.dietaryAccommodations, hgf, if_true]
  · intro h
    rw [key, h]
    decide

theorem mainCourse_gluten_free_sides_witness :
    ((MainCourse.mk ⟨"Stir Fry", ["Beef", "Pepper"], 40, ⟨0⟩, CuisineType.CHINESE⟩
        CookingMethod.FRIED "Beef" [⟨"Rice", Category.GRAIN⟩, ⟨"Salad", Category.SALAD⟩]
        false).dietaryAccommodations
      ⟨false, false, true, false, false, false⟩).gluten_free_ = true ∧
    ((MainCourse.mk ⟨"Stir Fry", ["Beef", "Pepper"], 40, ⟨0⟩, CuisineType.CHINESE⟩
        CookingMethod.FRIED "Beef" [⟨"Rice", Category.GRAIN⟩, ⟨"Salad", Category.SALAD⟩]
        false).dietaryAccommodations
      ⟨false, false, true, false, false, false⟩).side_dishes_
      = [⟨"Salad", Category.SALAD⟩] :=
  have h := mainCourse_gluten_free_sides
    (MainCourse.mk ⟨"Stir Fry", ["Beef", "Pepper"], 40, ⟨0⟩, CuisineType.CHINESE⟩
      CookingMethod.FRIED "Beef" [⟨"Rice", Category.GRAIN⟩, ⟨"Salad", Category.SALAD⟩] false)
    ⟨false, false, true, false, false, false⟩ rfl
  ⟨h.1, h.2.2 rfl⟩

/-- C5, as stated, fails: with low_sodium set every application lowers the
spiciness level again. An Appetizer of spiciness 5 has level 3 after one
application and level 1 after two. -/
theorem dietaryAccommodations_second_application_changes :
    ((DishObject.appetizer (Appetizer.mk ⟨"Wings", ["Chicken"], 20, ⟨0⟩,
        CuisineType.AMERICAN⟩ ServingStyle.PLATED 5 false)).dietaryAccommodations
      ⟨false, false, false, false, true, false⟩)
      = DishObject.appetizer (Appetizer.mk ⟨"Wings", ["Chicken"], 20, ⟨0⟩,
        CuisineType.AMERICAN⟩ ServingStyle.PLATED 3 false) ∧
    (((DishObject.appetizer (Appetizer.mk ⟨"Wings", ["Chicken"], 20, ⟨0⟩,
        CuisineType.AMERICAN⟩ ServingStyle.PLATED 5 false)).dietaryAccommodations
      ⟨false, false, false, false, true, false⟩).dietaryAccommodations
      ⟨false, false, false, false, true, false⟩)
      = DishObject.appetizer (Appetizer.mk ⟨"Wings", ["Chicken"], 20, ⟨0⟩,
        CuisineType.AMERICAN⟩ ServingStyle.PLATED 1 false) ∧
    (((DishObject.appetizer (Appetizer.mk ⟨"Wings", ["Chicken"], 20, ⟨0⟩,
        CuisineType.AMERICAN⟩ ServingStyle.PLATED 5 false)).dietaryAccommodations
      ⟨false, false, false, false, true, false⟩).dietaryAccommodations
      ⟨false, false, false, false, true, false⟩)
      ≠ ((DishObject.appetizer (Appetizer.mk ⟨"Wings", ["Chicken"], 20, ⟨0⟩,
        CuisineType.AMERICAN⟩ ServingStyle.PLATED 5 false)).dietaryAccommodations
      ⟨false, false, false, false, true, false⟩) := by
  refine ⟨by decide, by decide, by decide⟩

theorem appetizer_ingredients_twice (request : DietaryRequest) (a : Appetizer) :
    ((a.dietaryAccommodations request).dietaryAccommodations request).ingredients_
      = (a.dietaryAccommodations request).ingredients_ := by
  cases hv : request.vegetarian <;> cases hg : request.gluten_free <;>
    simp only [Appetizer.dietaryAccommodations, hv, hg, if_true, if_false, Bool.false_eq_true]
  · rw [eraseRemove_blankListed, eraseRemove_blankListed, List.filter_filter]
    simp
  · exact eraseRemove_replaceNonVeg_twice _
  · simp only [eraseRemove_blankListed]
    rw [eraseRemove_replaceNonVeg_filter, List.filter_filter]
    simp

theorem mainCourse_ingredients_twice (request : DietaryRequest) (m : MainCourse) :
    ((m.dietaryAccommodations request).dietaryAccommodations request).ingredients_
      = (m.dietaryAccommodations request).ingredients_ := by
  cases hv : request.vegetarian <;> cases hg : request.vegan <;>
    simp only [MainCourse.dietaryAccommodations, hv, hg, if_true, if_false, Bool.false_eq_true]
  · rw [eraseRemove_blankListed, eraseRemove_blankListed, List.filter_filter]
    simp
  · exact eraseRemove_replaceNonVeg_twice _
  · simp only [eraseRemove_blankListed]
    rw [eraseRemove_replaceNonVeg_filter, List.filter_filter]
    simp

theorem dessert_ingredients_twice (request : DietaryRequest) (d : Dessert) :
    ((d.dietaryAccommodations request).dietaryAccommodations request).ingredients_
      = (d.dietaryAccommodations request).ingredients_ := by
  cases hn : request.nut_free <;> cases hg : request.vegan <;>
    simp only [Dessert.dietaryAccommodations, hn, hg, if_true, if_false, Bool.false_eq_true,
      removeEach_eq_filter, List.filter_filter]
  all_goals
    apply List.filter_congr
    intro x _
    by_cases h1 : x ∈ nuts <;> by_cases h2 : x ∈ dairy_eggs <;> simp [h1, h2]

theorem dish_eq_of_fields {a b : Dish} (h1 : a.name_ = b.name_)
    (h2 : a.ingredients_ = b.ingredients_) (h3 : a.prep_time_ = b.prep_time_)
    (h4 : a.price_ = b.price_) (h5 : a.cuisine_type_ = b.cuisine_type_) : a = b := by
  cases a; cases b; simp_all

theorem appetizer_eq_of_fields {a b : Appetizer} (h1 : a.toDish = b.toDish)
    (h2 : a.serving_style_ = b.serving_style_) (h3 : a.spiciness_level_ = b.spiciness_level_)
    (h4 : a.vegetarian_ = b.vegetarian_) : a = b := by
  cases a; cases b; simp_all

theorem mainCourse_eq_of_fields {a b : MainCourse} (h1 : a.toDish = b.toDish)
    (h2 : a.cooking_method_ = b.cooking_method_) (h3 : a.protein_type_ = b.protein_type_)
    (h4 : a.side_dishes_ = b.side_dishes_) (h5 : a.gluten_free_ = b.gluten_free_) : a = b := by
  cases a; cases b; simp_all

theorem dessert_eq_of_fields {a b : Dessert} (h1 : a.toDish = b.toDish)
    (h2 : a.flavor_profile_ = b.flavor_profile_) (h3 : a.sweetness_level_ = b.sweetness_level_)
    (h4 : a.contains_nuts_ = b.contains_nuts_) : a = b := by
  cases a; cases b; simp_all

/-- A second application to an Appetizer repeats only the low-sodium step. -/
theorem appetizer_twice (request : DietaryRequest) (a : Appetizer) :
    (a.dietaryAccommodations request).dietaryAccommodations request
      = { a.dietaryAccommodations request with
          spiciness_level_ :=
            if request.low_sodium then
              max (wrapInt ((a.dietaryAccommodations request).spiciness_level_ - 2)) 0
            else (a.dietaryAccommodations request).spiciness_level_ } := by
  apply appetizer_eq_of_fields
  · exact dish_eq_of_fields rfl (appetizer_ingredients_twice request a) rfl rfl rfl
  · rfl
  · rfl
  · cases hv : request.vegetarian <;> simp [Appetizer.dietaryAccommodations, hv]

/-- A second application to a MainCourse changes nothing. -/
theorem mainCourse_twice (request : DietaryRequest) (m : MainCourse) :
    (m.dietaryAccommodations request).dietaryAccommodations request
      = m.dietaryAccommodations request := by
  apply mainCourse_eq_of_fields
  · exact dish_eq_of_fields rfl (mainCourse_ingredients_twice request m) rfl rfl rfl
  · rfl
  · cases hv : request.vegetarian <;> cases hg : request.vegan <;>
      simp [MainCourse.dietaryAccommodations, hv, hg]
  · cases hg : request.gluten_free <;> simp [MainCourse.dietaryAccommodations, hg]
  · cases hg : request.gluten_free <;> simp [MainCourse.dietaryAccommodations, hg]

/-- A second application to a Dessert repeats only the low-sugar step. -/
theorem dessert_twice (request : DietaryRequest) (d : Dessert) :
    (d.dietaryAccommodations request).dietaryAccommodations request
      = { d.dietaryAccommodations request with
          sweetness_level_ :=
            if request.low_sugar then
              max 0 (wrapInt ((d.dietaryAccommodations request).sweetness_level_ - 3))
            else (d.dietaryAccommodations request).sweetness_level_ } := by
  apply dessert_eq_of_fields
  · exact dish_eq_of_fields rfl (dessert_ingredients_twice request d) rfl rfl rfl
  · rfl
  · rfl
  · cases hv : request.nut_free <;> simp [Dessert.dietaryAccommodations, hv]

/-- C5 (amended): applying dietaryAccommodations twice with the same request
leaves a dish in the state one application leaves it in, except that an
Appetizer's spiciness level under low_sodium, and a Dessert's sweetness level
under low_sugar, is lowered a second time (by 2, by 3, not below 0). So the
second application changes nothing for a MainCourse, and nothing for any dish
when the request sets neither low_sodium nor low_sugar. -/
theorem dietaryAccommodations_twice (request : DietaryRequest) :
    (∀ m : MainCourse,
      (m.dietaryAccommodations request).dietaryAccommodations request
        = m.dietaryAccommodations request) ∧
    (∀ a : Appetizer,
      (a.dietaryAccommodations request).dietaryAccommodations request
        = { a.dietaryAccommodations request with
            spiciness_level_ :=
              if request.low_sodium then
                max (wrapInt ((a.dietaryAccommodations request).spiciness_level_ - 2)) 0
              else (a.dietaryAccommodations request).spiciness_level_ }) ∧
    (∀ d : Dessert,
      (d.dietaryAccommodations request).dietaryAccommodations request
        = { d.dietaryAccommodations request with
            sweetness_level_ :=
              if request.low_sugar then
                max 0 (wrapInt ((d.dietaryAccommodations request).sweetness_level_ - 3))
              else (d.dietaryAccommodations request).sweetness_level_ }) ∧
    (request.low_sodium = false → request.low_sugar = false →
      ∀ dish : DishObject,
        (dish.dietaryAccommodations request).dietaryAccommodations request
          = dish.dietaryAccommodations request) := by
  refine ⟨mainCourse_twice request, appetizer_twice request, dessert_twice request, ?_⟩
  intro hs hg dish
  cases dish with
  | appetizer a =>
    show DishObject.appetizer _ = DishObject.appetizer _
    rw [appetizer_twice, if_neg (by simp [hs])]
  | mainCourse m =>
    show DishObject.mainCourse _ = DishObject.mainCourse _
    rw [mainCourse_twice]
  | dessert d =>
    show DishObject.dessert _ = DishObject.dessert _
    rw [dessert_twice, if_neg (by simp [hg])]

theorem dietaryAccommodations_twice_witness :
    ((DishObject.appetizer (Appetizer.mk ⟨"Bruschetta", ["Bread", "Bacon", "Pork", "Beef"],
        15, ⟨0⟩, CuisineType.ITALIAN⟩ ServingStyle.PLATED 5 false)).dietaryAccommodations
      ⟨true, true, true, true, false, false⟩).dietaryAccommodations
      ⟨true, true, true, true, false, false⟩
      = DishObject.appetizer (Appetizer.mk ⟨"Bruschetta", ["Beans", "Mushrooms"],
        15, ⟨0⟩, CuisineType.ITALIAN⟩ ServingStyle.PLATED 5 true) :=
  ((dietaryAccommodations_twice ⟨true, true, true, true, false, false⟩).2.2.2 rfl rfl
    (DishObject.appetizer (Appetizer.mk ⟨"Bruschetta", ["Bread", "Bacon", "Pork", "Beef"],
      15, ⟨0⟩, CuisineType.ITALIAN⟩ ServingStyle.PLATED 5 false))).trans (by decide)

theorem appetizer_spiciness_step (request : DietaryRequest) (a : Appetizer)
    (h : request.low_sodium = true) :
    (a.dietaryAccommodations request).spiciness_level_
      = max (wrapInt (a.spiciness_level_ - 2)) 0 := by
  simp [Appetizer.dietaryAccommodations, h]

theorem dessert_sweetness_step (request : DietaryRequest) (d : Dessert)
    (h : request.low_sugar = true) :
    (d.dietaryAccommodations request).sweetness_level_
      = max 0 (wrapInt (d.sweetness_level_ - 3)) := by
  simp [Dessert.dietaryAccommodations, h]

theorem appetizer_spiciness_iterate (request : DietaryRequest)
    (h : request.low_sodium = true) (a : Appetizer) (h0 : 0 ≤ a.spiciness_level_)
    (h1 : a.spiciness_level_ ≤ INT_MAX) (n : Nat) :
    ((Appetizer.dietaryAccommodations request)^[n] a).spiciness_level_
      = max (a.spiciness_level_ - 2 * (n : Int)) 0 := by
  induction n with
  | zero => simp [h0]
  | succ k ih =>
    rw [Function.iterate_succ_apply', appetizer_spiciness_step request _ h, ih]
    have hb : max (a.spiciness_level_ - 2 * (k : Int)) 0 ≤ INT_MAX := by
      unfold INT_MAX at h1 ⊢
      omega
    rw [wrapInt_of_inRange _ (by unfold INT_MIN; omega) (by unfold INT_MAX at hb ⊢; omega)]
    push_cast
    omega

theorem dessert_sweetness_iterate (request : DietaryRequest)
    (h : request.low_sugar = true) (d : Dessert) (h0 : 0 ≤ d.sweetness_level_)
    (h1 : d.sweetness_level_ ≤ INT_MAX) (n : Nat) :
    ((Dessert.dietaryAccommodations request)^[n] d).sweetness_level_
      = max (d.sweetness_level_ - 3 * (n : Int)) 0 := by
  induction n with
  | zero => simp [h0]
  | succ k ih =>
    rw [Function.iterate_succ_apply', dessert_sweetness_step request _ h, ih]
    have hb : max (d.sweetness_level_ - 3 * (k : Int)) 0 ≤ INT_MAX := by
      unfold INT_MAX at h1 ⊢
      omega
    rw [wrapInt_of_inRange _ (by unfold INT_MIN; omega) (by unfold INT_MAX at hb ⊢; omega)]
    push_cast
    omega

/-- C6: starting from a non-negative int level, n successive applications of
a request with low_sodium set leave an Appetizer with spiciness
max(s - 2n, 0), and n successive applications of a request with low_sugar set
leave a Dessert with sweetness max(w - 3n, 0); neither level is negative. -/
theorem levels_after_repeated_reduction (request : DietaryRequest) (n : Nat) :
    (∀ a : Appetizer, request.low_sodium = true →
      0 ≤ a.spiciness_level_ → a.spiciness_level_ ≤ INT_MAX →
      ((Appetizer.dietaryAccommodations request)^[n] a).spiciness_level_
        = max (a.spiciness_level_ - 2 * (n : Int)) 0 ∧
      0 ≤ ((Appetizer.dietaryAccommodations request)^[n] a).spiciness_level_) ∧
    (∀ d : Dessert, request.low_sugar = true →
      0 ≤ d.sweetness_level_ → d.sweetness_level_ ≤ INT_MAX →
      ((Dessert.dietaryAccommodations request)^[n] d).sweetness_level_
        = max (d.sweetness_level_ - 3 * (n : Int)) 0 ∧
      0 ≤ ((Dessert.dietaryAccommodations request)^[n] d).sweetness_level_) := by
  constructor
  · intro a h h0 h1
    have e := appetizer_spiciness_iterate request h a h0 h1 n
    exact ⟨e, by rw [e]; exact le_max_right _ _⟩
  · intro d h h0 h1
    have e := dessert_sweetness_iterate request h d h0 h1 n
    exact ⟨e, by rw [e]; exact le_max_right _ _⟩

theorem levels_after_repeated_reduction_witness :
    ((Appetizer.dietaryAccommodations ⟨false, false, false, false, true, true⟩)^[3]
        (Appetizer.mk ⟨"Salsa", ["Tomato"], 5, ⟨0⟩, CuisineType.MEXICAN⟩
          ServingStyle.FAMILY_STYLE 5 true)).spiciness_level_ = 0 ∧
    ((Dessert.dietaryAccommodations ⟨false, false, false, false, true, true⟩)^[3]
        (Dessert.mk ⟨"Flan", ["Eggs", "Sugar"], 45, ⟨0⟩, CuisineType.MEXICAN⟩
          FlavorProfile.SWEET 10 false)).sweetness_level_ = 1 :=
  ⟨((levels_after_repeated_reduction ⟨false, false, false, false, true, true⟩ 3).1
      (Appetizer.mk ⟨"Salsa", ["Tomato"], 5, ⟨0⟩, CuisineType.MEXICAN⟩
        ServingStyle.FAMILY_STYLE 5 true) rfl (by decide) (by decide)).1.trans (by decide),
   ((levels_after_repeated_reduction ⟨false, false, false, false, true, true⟩ 3).2
      (Dessert.mk ⟨"Flan", ["Eggs", "Sugar"], 45, ⟨0⟩, CuisineType.MEXICAN⟩
        FlavorProfile.SWEET 10 false) rfl (by decide) (by decide)).1.trans (by decide)⟩

/-! ### Streams and fields -/

theorem splitAtDelim_fst (delim : Char) (cs : List Char) :
    (splitAtDelim delim cs).1 = cs.takeWhile (fun c => decide (c ≠ delim)) := by
  induction cs with
  | nil => rfl
  | cons c rest ih =>
    by_cases h : c = delim
    · simp [splitAtDelim, h]
    · simp [splitAtDelim, h, ih]

theorem splitAtDelim_snd_none (delim : Char) (cs : List Char)
    (h : (splitAtDelim delim cs).2 = none) :
    (cs.dropWhile (fun c => decide (c ≠ delim))).tail = [] := by
  induction cs with
  | nil => rfl
  | cons c rest ih =>
    by_cases hc : c = delim
    · simp [splitAtDelim, hc] at h
    · simp only [splitAtDelim, if_neg hc] at h
      simpa [List.dropWhile, hc] using ih h

theorem splitAtDelim_snd_some (delim : Char) (cs rest : List Char)
    (h : (splitAtDelim delim cs).2 = some rest) :
    (cs.dropWhile (fun c => decide (c ≠ delim))).tail = rest ∧ rest.length < cs.length := by
  induction cs with
  | nil => simp [splitAtDelim] at h
  | cons c tl ih =>
    by_cases hc : c = delim
    · simp only [splitAtDelim, if_pos hc, Option.some.injEq] at h
      subst h
      simp [List.dropWhile, hc]
    · simp only [splitAtDelim, if_neg hc] at h
      have := ih h
      refine ⟨by simpa [List.dropWhile, hc] using this.1, ?_⟩
      have := this.2
      simp only [List.length_cons]
      omega

theorem getline_not_good (ss : IStream) (str : String) (delim : Char)
    (h : ss.good = false) : getline ss str delim = (ss, str, false) := by
  simp [getline, h]

/-- A successful `getline` shortens the input that a later call can read. -/
theorem getline_progress (ss : IStream) (str : String) (delim : Char)
    (h : (getline ss str delim).2.2 = true) :
    (if (getline ss str delim).1.good then (getline ss str delim).1.buf.length + 1 else 0)
      < (if ss.good then ss.buf.length + 1 else 0) := by
  cases hg : ss.good with
  | false => rw [getline_not_good ss str delim hg] at h; simp at h
  | true =>
    rcases hs : splitAtDelim delim ss.buf with ⟨tok, _ | rest⟩
    · simp [getline, hg, hs]
    · have := (splitAtDelim_snd_some delim ss.buf rest (by rw [hs])).2
      simp [getline, hg, hs]
      omega

/-- The fuel of `getlineAll` is enough once it exceeds the length of the
unread input: more fuel does not change the result. -/
theorem getlineAll_fuel (delim : Char) (n m : Nat) (ss : IStream) (str : String)
    (hn : (if ss.good then ss.buf.length + 1 else 0) ≤ n)
    (hm : (if ss.good then ss.buf.length + 1 else 0) ≤ m) :
    getlineAll delim n ss str = getlineAll delim m ss str := by
  induction n generalizing m ss str with
  | zero =>
    have hg : ss.good = false := by
      cases h : ss.good with
      | false => rfl
      | true => simp [h] at hn
    cases m with
    | zero => rfl
    | succ k => simp [getlineAll, getline_not_good ss str delim hg]
  | succ j ih =>
    cases m with
    | zero =>
      have hg : ss.good = false := by
        cases h : ss.good with
        | false => rfl
        | true => simp [h] at hm
      simp [getlineAll, getline_not_good ss str delim hg]
    | succ k =>
      simp only [getlineAll]
      by_cases hok : (getline ss str delim).2.2 = true
      · have hp := getline_progress ss str delim hok
        rw [if_pos hok, if_pos hok, ih k _ _ (by omega) (by omega)]
      · rw [if_neg hok, if_neg hok]

theorem nthField_afterFields (delim : Char) (k : Nat) (cs : List Char) :
    nthField delim 0 (afterFields delim k cs) = nthField delim k cs := by
  induction k generalizing cs with
  | zero => rfl
  | succ j ih => exact ih _

theorem afterFields_succ (delim : Char) (k : Nat) (cs : List Char) :
    afterFields delim 1 (afterFields delim k cs) = afterFields delim (k + 1) cs := by
  induction k generalizing cs with
  | zero => rfl
  | succ j ih => exact ih _

/-- What `getline` reads from a stream positioned after the k-th delimiter of a
text `cs`: field `k` of the text, leaving the stream after the next delimiter.
The stream is one on which `getline` has not failed: it is good, or at the end
of its input. -/
theorem getline_field (delim : Char) (cs : List Char) (k : Nat) (ss : IStream)
    (hbuf : ss.buf = afterFields delim k cs) (hend : ss.good = false → ss.buf = []) :
    (getline ss "" delim).2.1 = String.mk (nthField delim k cs) ∧
    (getline ss "" delim).1.buf = afterFields delim (k + 1) cs ∧
    ((getline ss "" delim).1.good = false → (getline ss "" delim).1.buf = []) := by
  rw [← nthField_afterFields, ← afterFields_succ, ← hbuf]
  cases hg : ss.good with
  | false =>
    rw [getline_not_good ss "" delim hg]
    have hb := hend hg
    refine ⟨?_, ?_, fun _ => hb⟩
    · show "" = String.mk (nthField delim 0 ss.buf)
      rw [hb]; rfl
    · show ss.buf = afterFields delim 1 ss.buf
      rw [hb]; rfl
  | true =>
    have h1 := splitAtDelim_fst delim ss.buf
    rcases hs : splitAtDelim delim ss.buf with ⟨tok, _ | rest⟩
    · have h2 := splitAtDelim_snd_none delim ss.buf (by rw [hs])
      have e : getline ss "" delim = (⟨[], false⟩, String.mk tok, !tok.isEmpty) := by
        simp [getline, hg, hs]
      rw [hs] at h1
      rw [e]
      exact ⟨congrArg String.mk h1, h2.symm, fun _ => rfl⟩
    · have h2 := (splitAtDelim_snd_some delim ss.buf rest (by rw [hs])).1
      have e : getline ss "" delim = (⟨rest, true⟩, String.mk tok, true) := by
        simp [getline, hg, hs]
      rw [hs] at h1
      rw [e]
      exact ⟨congrArg String.mk h1, h2.symm, fun h => by simp at h⟩

/-- The tokens read by four successive `getline` calls on a fresh stream over
`text` are its fields 0 to 3. -/
theorem getline_tokens (delim : Char) (text : String) :
    (getline (IStream.ofString text) "" delim).2.1 = String.mk (nthField delim 0 text.data) ∧
    (getline (getline (IStream.ofString text) "" delim).1 "" delim).2.1
      = String.mk (nthField delim 1 text.data) ∧
    (getline (getline (getline (IStream.ofString text) "" delim).1 "" delim).1 "" delim).2.1
      = String.mk (nthField delim 2 text.data) ∧
    (getline (getline (getline (getline (IStream.ofString text) "" delim).1 "" delim).1
        "" delim).1 "" delim).2.1
      = String.mk (nthField delim 3 text.data) := by
  have h1 := getline_field delim text.data 0 (IStream.ofString text) rfl
    (fun h => by simp [IStream.ofString] at h)
  have h2 := getline_field delim text.data 1 _ h1.2.1 h1.2.2
  have h3 := getline_field delim text.data 2 _ h2.2.1 h2.2.2
  have h4 := getline_field delim text.data 3 _ h3.2.1 h3.2.2
  exact ⟨h1.1, h2.1, h3.1, h4.1⟩

/-- The seven strings the constructor extracts from a line are its six
comma-separated fields and its variant sub-record. -/
theorem getline_record (line : String) :
    (getline (IStream.ofString line) "" ',').2.1 = recordField 0 line ∧
    (getline (getline (IStream.ofString line) "" ',').1 "" ',').2.1 = recordField 1 line ∧
    (getline (getline (getline (IStream.ofString line) "" ',').1 "" ',').1 "" ',').2.1
      = recordField 2 line ∧
    (getline (getline (getline (getline (IStream.ofString line) "" ',').1 "" ',').1
        "" ',').1 "" ',').2.1 = recordField 3 line ∧
    (getline (getline (getline (getline (getline (IStream.ofString line) "" ',').1 "" ',').1
        "" ',').1 "" ',').1 "" ',').2.1 = recordField 4 line ∧
    (getline (getline (getline (getline (getline (getline (IStream.ofString line) "" ',').1
        "" ',').1 "" ',').1 "" ',').1 "" ',').1 "" ',').2.1 = recordField 5 line ∧
    (getline (getline (getline (getline (getline (getline (getline (IStream.ofString line)
        "" ',').1 "" ',').1 "" ',').1 "" ',').1 "" ',').1 "" ',').1 "" '\n').2.1
      = variantFields line := by
  have h1 := getline_field ',' line.data 0 (IStream.ofString line) rfl
    (fun h => by simp [IStream.ofString] at h)
  have h2 := getline_field ',' line.data 1 _ h1.2.1 h1.2.2
  have h3 := getline_field ',' line.data 2 _ h2.2.1 h2.2.2
  have h4 := getline_field ',' line.data 3 _ h3.2.1 h3.2.2
  have h5 := getline_field ',' line.data 4 _ h4.2.1 h4.2.2
  have h6 := getline_field ',' line.data 5 _ h5.2.1 h5.2.2
  have h7 := getline_field '\n' (afterFields ',' 6 line.data) 0 _ h6.2.1 h6.2.2
  exact ⟨h1.1, h2.1, h3.1, h4.1, h5.1, h6.1, h7.1⟩

/-- The decoder in terms of the record layout: the numeric conversions are
applied to field 3, field 4 and variant token 1, in that order, and the object
is built from the fields and tokens of the line. -/
theorem decodeLine_eq (stod : String → Except StdException Double) (line : String) :
    decodeLine stod line =
      match stoi (recordField 3 line) with
      | Except.error e => Except.error e
      | Except.ok prep_time =>
      match stod (recordField 4 line) with
      | Except.error e => Except.error e
      | Except.ok price =>
        if recordField 0 line = "APPETIZER" then
          match stoi (variantToken 1 line) with
          | Except.error e => Except.error e
          | Except.ok spiciness_level =>
            Except.ok (some (DishObject.appetizer
              ⟨⟨recordField 1 line, parseIngredients (recordField 2 line), prep_time, price,
                  parseCuisineType (recordField 5 line)⟩,
                parseServingStyle (variantToken 0 line), spiciness_level,
                decide (variantToken 2 line = "true")⟩))
        else if recordField 0 line = "MAINCOURSE" then
          Except.ok (some (DishObject.mainCourse
            ⟨⟨recordField 1 line, parseIngredients (recordField 2 line), prep_time, price,
                parseCuisineType (recordField 5 line)⟩,
              parseCookingMethod (variantToken 0 line), variantToken 1 line,
              parseSideDishes (variantToken 2 line), decide (variantToken 3 line = "true")⟩))
        else if recordField 0 line = "DESSERT" then
          match stoi (variantToken 1 line) with
          | Except.error e => Except.error e
          | Except.ok sweetness_level =>
            Except.ok (some (DishObject.dessert
              ⟨⟨recordField 1 line, parseIngredients (recordField 2 line), prep_time, price,
                  parseCuisineType (recordField 5 line)⟩,
                parseFlavorProfile (variantToken 0 line), sweetness_level,
                decide (variantToken 2 line = "true")⟩))
        else Except.ok none := by
  obtain ⟨f0, f1, f2, f3, f4, f5, f6⟩ := getline_record line
  obtain ⟨v0, v1, v2, v3⟩ := getline_tokens ';' (variantFields line)
  unfold decodeLine
  simp only [f0, f1, f2, f3, f4, f5, f6, v0, v1, v2, v3]
  rfl

/-! ### Decoding one record line -/

theorem readLine_of_error {Bag : Type} (add : Bag → DishObject → Bag × Bool)
    (stod : String → Except StdException Double) (bag : Bag) (line : String)
    (e : StdException) (h : decodeLine stod line = Except.error e) :
    Kitchen.readLine add stod bag line = Except.error e := by
  simp [Kitchen.readLine, h]

theorem readLine_of_none {Bag : Type} (add : Bag → DishObject → Bag × Bool)
    (stod : String → Except StdException Double) (bag : Bag) (line : String)
    (h : decodeLine stod line = Except.ok none) :
    Kitchen.readLine add stod bag line = Except.ok bag := by
  simp [Kitchen.readLine, h]

theorem readLine_of_some {Bag : Type} (add : Bag → DishObject → Bag × Bool)
    (stod : String → Except StdException Double) (bag : Bag) (line : String)
    (dish : DishObject) (h : decodeLine stod line = Except.ok (some dish)) :
    Kitchen.readLine add stod bag line = Except.ok (add bag dish).1 := by
  simp [Kitchen.readLine, h]

theorem decodeLine_of_prep_error (stod : String → Except StdException Double)
    (line : String) (e : StdException)
    (h : stoi (recordField 3 line) = Except.error e) :
    decodeLine stod line = Except.error e := by
  rw [decodeLine_eq, h]

theorem decodeLine_of_price_error (stod : String → Except StdException Double)
    (line : String) (prep_time : Int) (e : StdException)
    (hp : stoi (recordField 3 line) = Except.ok prep_time)
    (h : stod (recordField 4 line) = Except.error e) :
    decodeLine stod line = Except.error e := by
  rw [decodeLine_eq, hp, h]

/-- C7, as stated, fails: the line below has the unknown dish type SALAD and a
preparation-time token that is no number; the conversion of that token runs
before the dish type is looked at, so decoding the line raises
`std::invalid_argument`, whatever `std::stod` does. -/
theorem unknown_dish_type_line_raises :
    recordField 0 "SALAD,Caesar,Lettuce;Croutons,abc,8.50,OTHER,x" = "SALAD" ∧
    recordField 3 "SALAD,Caesar,Lettuce;Croutons,abc,8.50,OTHER,x" = "abc" ∧
    (∀ stod : String → Except StdException Double,
      decodeLine stod "SALAD,Caesar,Lettuce;Croutons,abc,8.50,OTHER,x"
        = Except.error StdException.invalid_argument) ∧
    (∀ (stod : String → Except StdException Double)
        (add : List DishObject → DishObject → List DishObject × Bool)
        (bag : List DishObject),
      Kitchen.readLine add stod bag "SALAD,Caesar,Lettuce;Croutons,abc,8.50,OTHER,x"
        = Except.error StdException.invalid_argument) :=
  ⟨rfl, rfl, fun _ => rfl, fun _ _ _ => rfl⟩

/-- C7 (amended): a record line whose dish type is none of APPETIZER,
MAINCOURSE and DESSERT, and whose preparation-time and price tokens parse as
numbers, adds no dish to the store and raises nothing, whatever its other
fields contain. When one of the two tokens does not parse, decoding the line
raises the conversion's exception, and no dish is added either. -/
theorem unknown_dish_type_adds_nothing {Bag : Type} (add : Bag → DishObject → Bag × Bool)
    (stod : String → Except StdException Double) (bag : Bag) (line : String)
    (h1 : recordField 0 line ≠ "APPETIZER") (h2 : recordField 0 line ≠ "MAINCOURSE")
    (h3 : recordField 0 line ≠ "DESSERT") :
    (∀ prep_time price, stoi (recordField 3 line) = Except.ok prep_time →
      stod (recordField 4 line) = Except.ok price →
      decodeLine stod line = Except.ok none ∧
      Kitchen.readLine add stod bag line = Except.ok bag) ∧
    (∀ e, stoi (recordField 3 line) = Except.error e →
      Kitchen.readLine add stod bag line = Except.error e) ∧
    (∀ prep_time e, stoi (recordField 3 line) = Except.ok prep_time →
      stod (recordField 4 line) = Except.error e →
      Kitchen.readLine add stod bag line = Except.error e) := by
  refine ⟨?_, ?_, ?_⟩
  · intro prep_time price hp hq
    have h : decodeLine stod line = Except.ok none := by
      rw [decodeLine_eq, hp, hq]
      simp only [if_neg h1, if_neg h2, if_neg h3]
    exact ⟨h, readLine_of_none add stod bag line h⟩
  · intro e he
    exact readLine_of_error add stod bag line e (decodeLine_of_prep_error stod line e he)
  · intro prep_time e hp he
    exact readLine_of_error add stod bag line e
      (decodeLine_of_price_error stod line prep_time e hp he)

theorem unknown_dish_type_adds_nothing_witness :
    Kitchen.readLine (fun (bag : List DishObject) dish => (bag ++ [dish], true))
      (fun s => if s = "8.50" then Except.ok ⟨4620974692658839552⟩
        else Except.error StdException.invalid_argument)
      [] "SALAD,Caesar,Lettuce;Croutons,10,8.50,OTHER,x" = Except.ok [] :=
  ((unknown_dish_type_adds_nothing (fun (bag : List DishObject) dish => (bag ++ [dish], true))
      (fun s => if s = "8.50" then Except.ok ⟨4620974692658839552⟩
        else Except.error StdException.invalid_argument)
      [] "SALAD,Caesar,Lettuce;Croutons,10,8.50,OTHER,x"
      (by decide) (by decide) (by decide)).1 10 ⟨4620974692658839552⟩ rfl rfl).2

/-! ### Numeric tokens -/

theorem parseCuisineType_label (v : CuisineType) : parseCuisineType v.label = v := by
  cases v <;> rfl

theorem parseCuisineType_default (tok : String) (h : ∀ v : CuisineType, tok ≠ v.label) :
    parseCuisineType tok = CuisineType.OTHER := by
  have h1 := h CuisineType.ITALIAN
  have h2 := h CuisineType.MEXICAN
  have h3 := h CuisineType.CHINESE
  have h4 := h CuisineType.INDIAN
  have h5 := h CuisineType.AMERICAN
  have h6 := h CuisineType.FRENCH
  simp only [CuisineType.label] at h1 h2 h3 h4 h5 h6
  simp only [parseCuisineType, if_neg h1, if_neg h2, if_neg h3, if_neg h4, if_neg h5, if_neg h6]

theorem parseServingStyle_label (v : ServingStyle) : parseServingStyle v.label = v := by
  cases v <;> rfl

theorem parseServingStyle_default (tok : String) (h : ∀ v : ServingStyle, tok ≠ v.label) :
    parseServingStyle tok = ServingStyle.PLATED := by
  have h1 := h ServingStyle.PLATED
  have h2 := h ServingStyle.FAMILY_STYLE
  have h3 := h ServingStyle.BUFFET
  simp only [ServingStyle.label] at h1 h2 h3
  simp only [parseServingStyle, if_neg h1, if_neg h2, if_neg h3]

theorem parseCookingMethod_label (v : CookingMethod) : parseCookingMethod v.label = v := by
  cases v <;> rfl

theorem parseCookingMethod_default (tok : String) (h : ∀ v : CookingMethod, tok ≠ v.label) :
    parseCookingMethod tok = CookingMethod.GRILLED := by
  have h1 := h CookingMethod.GRILLED
  have h2 := h CookingMethod.BAKED
  have h3 := h CookingMethod.BOILED
  have h4 := h CookingMethod.FRIED
  have h5 := h CookingMethod.STEAMED
  have h6 := h CookingMethod.RAW
  simp only [CookingMethod.label] at h1 h2 h3 h4 h5 h6
  simp only [parseCookingMethod, if_neg h1, if_neg h2, if_neg h3, if_neg h4, if_neg h5,
    if_neg h6]

theorem parseFlavorProfile_label (v : FlavorProfile) : parseFlavorProfile v.label = v := by
  cases v <;> rfl

theorem parseFlavorProfile_default (tok : String) (h : ∀ v : FlavorProfile, tok ≠ v.label) :
    parseFlavorProfile tok = FlavorProfile.SWEET := by
  have h1 := h FlavorProfile.SWEET
  have h2 := h FlavorProfile.BITTER
  have h3 := h FlavorProfile.SOUR
  have h4 := h FlavorProfile.SALTY
  have h5 := h FlavorProfile.UMAMI
  simp only [FlavorProfile.label] at h1 h2 h3 h4 h5
  simp only [parseFlavorProfile, if_neg h1, if_neg h2, if_neg h3, if_neg h4, if_neg h5]

/-- The enumeration members of a decoded object are the readings of the cuisine
field and of the first variant token. -/
theorem decodeLine_enums (stod : String → Except StdException Double) (line : String)
    (dish : DishObject) (h : decodeLine stod line = Except.ok (some dish)) :
    dish.base.cuisine_type_ = parseCuisineType (recordField 5 line) ∧
    (∀ a, dish = DishObject.appetizer a →
      a.serving_style_ = parseServingStyle (variantToken 0 line)) ∧
    (∀ m, dish = DishObject.mainCourse m →
      m.cooking_method_ = parseCookingMethod (variantToken 0 line)) ∧
    (∀ d, dish = DishObject.dessert d →
      d.flavor_profile_ = parseFlavorProfile (variantToken 0 line)) := by
  rw [decodeLine_eq] at h
  cases hp : stoi (recordField 3 line) with
  | error e => rw [hp] at h; cases h
  | ok prep_time =>
    cases hq : stod (recordField 4 line) with
    | error e => rw [hp, hq] at h; cases h
    | ok price =>
      rw [hp, hq] at h
      simp only at h
      by_cases hA : recordField 0 line = "APPETIZER"
      · simp only [if_pos hA] at h
        cases hs : stoi (variantToken 1 line) with
        | error e => rw [hs] at h; cases h
        | ok level =>
          rw [hs] at h
          simp only [Except.ok.injEq, Option.some.injEq] at h
          subst h
          refine ⟨rfl, fun a ha => ?_, fun m hm => ?_, fun d hd => ?_⟩
          · cases ha; rfl
          · cases hm
          · cases hd
      · simp only [if_neg hA] at h
        by_cases hM : recordField 0 line = "MAINCOURSE"
        · simp only [if_pos hM, Except.ok.injEq, Option.some.injEq] at h
          subst h
          refine ⟨rfl, fun a ha => ?_, fun m hm => ?_, fun d hd => ?_⟩
          · cases ha
          · cases hm; rfl
          · cases hd
        · simp only [if_neg hM] at h
          by_cases hD : recordField 0 line = "DESSERT"
          · simp only [if_pos hD] at h
            cases hs : stoi (variantToken 1 line) with
            | error e => rw [hs] at h; cases h
            | ok level =>
              rw [hs] at h
              simp only [Except.ok.injEq, Option.some.injEq] at h
              subst h
              refine ⟨rfl, fun a ha => ?_, fun m hm => ?_, fun d hd => ?_⟩
              · cases ha
              · cases hm
              · cases hd; rfl
          · simp only [if_neg hD] at h
            cases h

/-- Decoding raises only what a numeric conversion raises. -/
theorem decodeLine_error_source (stod : String → Except StdException Double)
    (line : String) (e : StdException) (h : decodeLine stod line = Except.error e) :
    stoi (recordField 3 line) = Except.error e ∨
    stod (recordField 4 line) = Except.error e ∨
    ((recordField 0 line = "APPETIZER" ∨ recordField 0 line = "DESSERT") ∧
      stoi (variantToken 1 line) = Except.error e) := by
  rw [decodeLine_eq] at h
  cases hp : stoi (recordField 3 line) with
  | error e1 =>
    rw [hp] at h
    simp only [Except.error.injEq] at h
    exact Or.inl (by rw [h])
  | ok prep_time =>
    cases hq : stod (recordField 4 line) with
    | error e1 =>
      rw [hp, hq] at h
      simp only [Except.error.injEq] at h
      exact Or.inr (Or.inl (by rw [h]))
    | ok price =>
      rw [hp, hq] at h
      simp only at h
      by_cases hA : recordField 0 line = "APPETIZER"
      · simp only [if_pos hA] at h
        cases hs : stoi (variantToken 1 line) with
        | error e1 =>
          rw [hs] at h
          simp only [Except.error.injEq] at h
          exact Or.inr (Or.inr ⟨Or.inl hA, by rw [h]⟩)
        | ok level => rw [hs] at h; cases h
      · simp only [if_neg hA] at h
        by_cases hM : recordField 0 line = "MAINCOURSE"
        · simp only [if_pos hM] at h
          cases h
        · simp only [if_neg hM] at h
          by_cases hD : recordField 0 line = "DESSERT"
          · simp only [if_pos hD] at h
            cases hs : stoi (variantToken 1 line) with
            | error e1 =>
              rw [hs] at h
              simp only [Except.error.injEq] at h
              exact Or.inr (Or.inr ⟨Or.inr hD, by rw [h]⟩)
            | ok level => rw [hs] at h; cases h
          · simp only [if_neg hD] at h
            cases h

/-- C9: the cuisine, serving-style, cooking-method and flavor-profile tokens
are matched case-sensitively against the upper-case labels: a label decodes to
its value, every other token (such as "italian" or the empty string) to the
default OTHER, PLATED, GRILLED, SWEET. The decoded object carries the reading
of the cuisine field and of the first variant token, and decoding raises only
what a numeric conversion raises, never because of an enumeration token. -/
theorem enum_tokens_lenient (stod : String → Except StdException Double) (line : String) :
    ((∀ v : CuisineType, parseCuisineType v.label = v) ∧
      (∀ tok, (∀ v : CuisineType, tok ≠ v.label) → parseCuisineType tok = CuisineType.OTHER)) ∧
    ((∀ v : ServingStyle, parseServingStyle v.label = v) ∧
      (∀ tok, (∀ v : ServingStyle, tok ≠ v.label) →
        parseServingStyle tok = ServingStyle.PLATED)) ∧
    ((∀ v : CookingMethod, parseCookingMethod v.label = v) ∧
      (∀ tok, (∀ v : CookingMethod, tok ≠ v.label) →
        parseCookingMethod tok = CookingMethod.GRILLED)) ∧
    ((∀ v : FlavorProfile, parseFlavorProfile v.label = v) ∧
      (∀ tok, (∀ v : FlavorProfile, tok ≠ v.label) →
        parseFlavorProfile tok = FlavorProfile.SWEET)) ∧
    (parseCuisineType "italian" = CuisineType.OTHER ∧ parseCuisineType "" = CuisineType.OTHER) ∧
    (∀ dish, decodeLine stod line = Except.ok (some dish) →
      dish.base.cuisine_type_ = parseCuisineType (recordField 5 line) ∧
      (∀ a, dish = DishObject.appetizer a →
        a.serving_style_ = parseServingStyle (variantToken 0 line)) ∧
      (∀ m, dish = DishObject.mainCourse m →
        m.cooking_method_ = parseCookingMethod (variantToken 0 line)) ∧
      (∀ d, dish = DishObject.dessert d →
        d.flavor_profile_ = parseFlavorProfile (variantToken 0 line))) ∧
    (∀ e, decodeLine stod line = Except.error e →
      stoi (recordField 3 line) = Except.error e ∨
      stod (recordField 4 line) = Except.error e ∨
      ((recordField 0 line = "APPETIZER" ∨ recordField 0 line = "DESSERT") ∧
        stoi (variantToken 1 line) = Except.error e)) :=
  ⟨⟨parseCuisineType_label, parseCuisineType_default⟩,
   ⟨parseServingStyle_label, parseServingStyle_default⟩,
   ⟨parseCookingMethod_label, parseCookingMethod_default⟩,
   ⟨parseFlavorProfile_label, parseFlavorProfile_default⟩,
   ⟨by decide, by decide⟩,
   decodeLine_enums stod line,
   decodeLine_error_source stod line⟩

theorem enum_tokens_lenient_witness :
    decodeLine (fun s => if s = "8.50" then Except.ok ⟨4620974692658839552⟩
        else Except.error StdException.invalid_argument)
      "APPETIZER,Wings,Chicken,20,8.50,italian,Buffet;3;true"
      = Except.ok (some (DishObject.appetizer
          ⟨⟨"Wings", ["Chicken"], 20, ⟨4620974692658839552⟩, CuisineType.OTHER⟩,
            ServingStyle.PLATED, 3, true⟩)) ∧
    CuisineType.OTHER = parseCuisineType
      (recordField 5 "APPETIZER,Wings,Chicken,20,8.50,italian,Buffet;3;true") ∧
    ServingStyle.PLATED = parseServingStyle
      (variantToken 0 "APPETIZER,Wings,Chicken,20,8.50,italian,Buffet;3;true") :=
  have h := (enum_tokens_lenient
    (fun s => if s = "8.50" then Except.ok ⟨4620974692658839552⟩
      else Except.error StdException.invalid_argument)
    "APPETIZER,Wings,Chicken,20,8.50,italian,Buffet;3;true").2.2.2.2.2.1
    (DishObject.appetizer
      ⟨⟨"Wings", ["Chicken"], 20, ⟨4620974692658839552⟩, CuisineType.OTHER⟩,
        ServingStyle.PLATED, 3, true⟩) rfl
  ⟨rfl, h.1, h.2.1 _ rfl⟩

/-- C10: a record line whose dish type is APPETIZER, MAINCOURSE or DESSERT and
whose numeric tokens convert yields exactly one object, of the Appetizer,
MainCourse or Dessert class respectively, which is the one handed to `add`;
its name is the line's second field, its preparation time the value of the
fourth field and its cuisine the reading of the sixth field. -/
theorem known_dish_type_decodes_one_dish (stod : String → Except StdException Double)
    (line : String) (prep_time : Int) (price : Double)
    (hprep : stoi (recordField 3 line) = Except.ok prep_time)
    (hprice : stod (recordField 4 line) = Except.ok price) :
    (recordField 0 line = "APPETIZER" →
      ∀ level, stoi (variantToken 1 line) = Except.ok level →
      ∃ a : Appetizer,
        decodeLine stod line = Except.ok (some (DishObject.appetizer a)) ∧
        (∀ (Bag : Type) (add : Bag → DishObject → Bag × Bool) (bag : Bag),
          Kitchen.readLine add stod bag line
            = Except.ok (add bag (DishObject.appetizer a)).1) ∧
        a.name_ = recordField 1 line ∧ a.prep_time_ = prep_time ∧
        a.cuisine_type_ = parseCuisineType (recordField 5 line)) ∧
    (recordField 0 line = "MAINCOURSE" →
      ∃ m : MainCourse,
        decodeLine stod line = Except.ok (some (DishObject.mainCourse m)) ∧
        (∀ (Bag : Type) (add : Bag → DishObject → Bag × Bool) (bag : Bag),
          Kitchen.readLine add stod bag line
            = Except.ok (add bag (DishObject.mainCourse m)).1) ∧
        m.name_ = recordField 1 line ∧ m.prep_time_ = prep_time ∧
        m.cuisine_type_ = parseCuisineType (recordField 5 line)) ∧
    (recordField 0 line = "DESSERT" →
      ∀ level, stoi (variantToken 1 line) = Except.ok level →
      ∃ d : Dessert,
        decodeLine stod line = Except.ok (some (DishObject.dessert d)) ∧
        (∀ (Bag : Type) (add : Bag → DishObject → Bag × Bool) (bag : Bag),
          Kitchen.readLine add stod bag line
            = Except.ok (add bag (DishObject.dessert d)).1) ∧
        d.name_ = recordField 1 line ∧ d.prep_time_ = prep_time ∧
        d.cuisine_type_ = parseCuisineType (recordField 5 line)) := by
  refine ⟨?_, ?_, ?_⟩
  · intro ht level hl
    have h : decodeLine stod line = Except.ok (some (DishObject.appetizer
        ⟨⟨recordField 1 line, parseIngredients (recordField 2 line), prep_time, price,
            parseCuisineType (recordField 5 line)⟩,
          parseServingStyle (variantToken 0 line), level,
          decide (variantToken 2 line = "true")⟩)) := by
      rw [decodeLine_eq, hprep, hprice]
      simp only [if_pos ht, hl]
    exact ⟨_, h, fun _ add bag => readLine_of_some add stod bag line _ h, rfl, rfl, rfl⟩
  · intro ht
    have hA : recordField 0 line ≠ "APPETIZER" := by rw [ht]; decide
    have h : decodeLine stod line = Except.ok (some (DishObject.mainCourse
        ⟨⟨recordField 1 line, parseIngredients (recordField 2 line), prep_time, price,
            parseCuisineType (recordField 5 line)⟩,
          parseCookingMethod (variantToken 0 line), variantToken 1 line,
          parseSideDishes (variantToken 2 line), decide (variantToken 3 line = "true")⟩)) := by
      rw [decodeLine_eq, hprep, hprice]
      simp only [if_neg hA, if_pos ht]
    exact ⟨_, h, fun _ add bag => readLine_of_some add stod bag line _ h, rfl, rfl, rfl⟩
  · intro ht level hl
    have hA : recordField 0 line ≠ "APPETIZER" := by rw [ht]; decide
    have hM : recordField 0 line ≠ "MAINCOURSE" := by rw [ht]; decide
    have h : decodeLine stod line = Except.ok (some (DishObject.dessert
        ⟨⟨recordField 1 line, parseIngredients (recordField 2 line), prep_time, price,
            parseCuisineType (recordField 5 line)⟩,
          parseFlavorProfile (variantToken 0 line), level,
          decide (variantToken 2 line = "true")⟩)) := by
      rw [decodeLine_eq, hprep, hprice]
      simp only [if_neg hA, if_neg hM, if_pos ht, hl]
    exact ⟨_, h, fun _ add bag => readLine_of_some add stod bag line _ h, rfl, rfl, rfl⟩

theorem known_dish_type_decodes_one_dish_witness :
    ∃ m : MainCourse,
      decodeLine (fun s => if s = "28.50" then Except.ok ⟨4628715254518382592⟩
          else Except.error StdException.invalid_argument)
        "MAINCOURSE,Steak,Beef;Salt,45,28.50,FRENCH,GRILLED;Beef;Rice:GRAIN|Salad:SALAD;true"
        = Except.ok (some (DishObject.mainCourse m)) ∧
      m.name_ = "Steak" ∧ m.prep_time_ = 45 ∧ m.cuisine_type_ = CuisineType.FRENCH :=
  have h := (known_dish_type_decodes_one_dish
    (fun s => if s = "28.50" then Except.ok ⟨4628715254518382592⟩
      else Except.error StdException.invalid_argument)
    "MAINCOURSE,Steak,Beef;Salt,45,28.50,FRENCH,GRILLED;Beef;Rice:GRAIN|Salad:SALAD;true"
    45 ⟨4628715254518382592⟩ rfl rfl).2.1 rfl
  h.elim fun m hm => ⟨m, hm.1, hm.2.2.1.trans rfl, hm.2.2.2.1, hm.2.2.2.2.trans rfl⟩

/-! ### The array bag -/

theorem searchFrom_some (items : Nat → DishPtr) (target : DishPtr) (remaining i f : Nat)
    (h : ArrayBag.searchFrom items target remaining i = some f) :
    i ≤ f ∧ f < i + remaining ∧ items f = target ∧ ∀ j, i ≤ j → j < f → items j ≠ target := by
  induction remaining generalizing i with
  | zero => simp [ArrayBag.searchFrom] at h
  | succ r ih =>
    by_cases hi : items i = target
    · simp only [ArrayBag.searchFrom, if_pos hi, Option.some.injEq] at h
      subst h
      exact ⟨le_refl _, by omega, hi, fun j h1 h2 => by omega⟩
    · simp only [ArrayBag.searchFrom, if_neg hi] at h
      obtain ⟨h1, h2, h3, h4⟩ := ih (i + 1) h
      refine ⟨by omega, by omega, h3, fun j hj1 hj2 => ?_⟩
      by_cases hji : j = i
      · rw [hji]; exact hi
      · exact h4 j (by omega) hj2

theorem searchFrom_none (items : Nat → DishPtr) (target : DishPtr) (remaining i : Nat)
    (h : ArrayBag.searchFrom items target remaining i = none) :
    ∀ j, i ≤ j → j < i + remaining → items j ≠ target := by
  induction remaining generalizing i with
  | zero => intro j h1 h2; omega
  | succ r ih =>
    by_cases hi : items i = target
    · simp [ArrayBag.searchFrom, hi] at h
    · simp only [ArrayBag.searchFrom, if_neg hi] at h
      intro j h1 h2
      by_cases hji : j = i
      · rw [hji]; exact hi
      · exact ih (i + 1) h j (by omega) (by omega)

theorem members_length (b : ArrayBag) : b.members.length = b.item_count_ := by
  simp [ArrayBag.members]

theorem mem_members (b : ArrayBag) (p : DishPtr) :
    p ∈ b.members ↔ ∃ j, j < b.item_count_ ∧ b.items_ j = p := by
  simp [ArrayBag.members]

theorem getIndexOf_some (b : ArrayBag) (p : DishPtr) (f : Nat)
    (h : b.getIndexOf p = some f) :
    f < b.item_count_ ∧ b.items_ f = p ∧ ∀ j, j < f → b.items_ j ≠ p := by
  obtain ⟨_, h2, h3, h4⟩ := searchFrom_some b.items_ p b.item_count_ 0 f h
  exact ⟨by omega, h3, fun j hj => h4 j (Nat.zero_le _) hj⟩

theorem getIndexOf_none (b : ArrayBag) (p : DishPtr) (h : b.getIndexOf p = none) :
    p ∉ b.members := by
  rw [mem_members]
  rintro ⟨j, hj, hp⟩
  exact searchFrom_none b.items_ p b.item_count_ 0 h j (Nat.zero_le _) (by omega) hp

theorem getIndexOf_of_mem (b : ArrayBag) (p : DishPtr) (h : p ∈ b.members) :
    ∃ f, b.getIndexOf p = some f := by
  cases hf : b.getIndexOf p with
  | none => exact absurd h (getIndexOf_none b p hf)
  | some f => exact ⟨f, rfl⟩

theorem range_split (n f : Nat) (hf : f < n) :
    List.range n = List.range f ++ f :: List.range' (f + 1) (n - f - 1) := by
  rw [List.range_eq_range', List.range_eq_range']
  have h1 : n = (n - f) + f := by omega
  conv_lhs => rw [h1, ← List.range'_append 0 f (n - f) 1]
  have h2 : n - f = (n - f - 1) + 1 := by omega
  simp only [Nat.zero_add, Nat.one_mul]
  rw [h2, List.range'_succ]
  simp

theorem map_update_range (items : Nat → DishPtr) (f : Nat) (v : DishPtr) (m : Nat)
    (h : m ≤ f) :
    (List.range m).map (Function.update items f v) = (List.range m).map items := by
  apply List.map_congr_left
  intro j hj
  have : j < m := List.mem_range.mp hj
  exact Function.update_noteq (by omega) _ _

theorem map_update_rangeFrom (items : Nat → DishPtr) (f : Nat) (v : DishPtr) (s m : Nat)
    (h : f < s) :
    (List.range' s m).map (Function.update items f v) = (List.range' s m).map items := by
  apply List.map_congr_left
  intro j hj
  have := (List.mem_range'_1.mp hj).1
  exact Function.update_noteq (by omega) _ _

/-- After a successful `remove` the members are the old members without one
instance of the entry, in some order. -/
theorem remove_members_perm (b : ArrayBag) (p : DishPtr) (f : Nat)
    (h : b.getIndexOf p = some f) :
    (b.remove p).1.members.Perm (b.members.erase p) := by
  obtain ⟨hf, hp, hfirst⟩ := getIndexOf_some b p f h
  have hnot : p ∉ (List.range f).map b.items_ := by
    simp only [List.mem_map, List.mem_range, not_exists, not_and]
    intro j hj
    exact hfirst j hj
  have hold : b.members.erase p
      = (List.range f).map b.items_ ++ (List.range' (f + 1) (b.item_count_ - f - 1)).map b.items_ := by
    rw [ArrayBag.members, range_split b.item_count_ f hf, List.map_append, List.map_cons, hp,
      List.erase_append_right _ hnot, List.erase_cons_head]
  have hnew : (b.remove p).1.members
      = (List.range (b.item_count_ - 1)).map
          (Function.update b.items_ f (b.items_ (b.item_count_ - 1))) := by
    simp [ArrayBag.remove, h, ArrayBag.members]
  rw [hold, hnew]
  by_cases hlast : f = b.item_count_ - 1
  · have h0 : b.item_count_ - f - 1 = 0 := by omega
    rw [h0, ← hlast, map_update_range _ _ _ _ (le_refl _)]
    simp
  · have hf2 : f < b.item_count_ - 1 := by omega
    rw [range_split (b.item_count_ - 1) f hf2, List.map_append, List.map_cons,
      Function.update_same, map_update_range _ _ _ _ (le_refl _),
      map_update_rangeFrom _ _ _ _ _ (Nat.lt_succ_self f)]
    have h3 : b.item_count_ - f - 1 = (b.item_count_ - 1 - f - 1) + 1 := by omega
    have h4 : List.range' (f + 1) (b.item_count_ - f - 1)
        = List.range' (f + 1) (b.item_count_ - 1 - f - 1) ++ [b.item_count_ - 1] := by
      rw [h3, List.range'_concat]
      simp
      omega
    rw [h4, List.map_append, List.map_singleton]
    apply List.Perm.append_left
    exact (List.perm_append_singleton _ _).symm

theorem add_members (accepts : ArrayBag → DishPtr → Bool) (b : ArrayBag) (x : DishPtr)
    (h : accepts b x = true) : (b.add accepts x).1.members = b.members ++ [x] := by
  simp only [ArrayBag.add, h, if_true, ArrayBag.members, List.range_succ, List.map_append,
    List.map_singleton, Function.update_same]
  rw [map_update_range _ _ _ _ (le_refl _)]

theorem add_snd (accepts : ArrayBag → DishPtr → Bool) (b : ArrayBag) (x : DishPtr) :
    (b.add accepts x).2 = accepts b x := by
  cases h : accepts b x <;> simp [ArrayBag.add, h]

theorem add_rejected (accepts : ArrayBag → DishPtr → Bool) (b : ArrayBag) (x : DishPtr)
    (h : accepts b x = false) : (b.add accepts x).1 = b := by
  simp [ArrayBag.add, h]

theorem remove_snd (b : ArrayBag) (p : DishPtr) :
    (b.remove p).2 = decide (p ∈ b.members) := by
  cases h : b.getIndexOf p with
  | none => simp [ArrayBag.remove, h, getIndexOf_none b p h]
  | some f =>
    have hm : p ∈ b.members := by
      obtain ⟨h1, h2, _⟩ := getIndexOf_some b p f h
      exact (mem_members b p).mpr ⟨f, h1, h2⟩
    simp [ArrayBag.remove, h, hm]

theorem remove_absent (b : ArrayBag) (p : DishPtr) (h : p ∉ b.members) :
    (b.remove p).1 = b := by
  cases hf : b.getIndexOf p with
  | none => simp [ArrayBag.remove, hf]
  | some f =>
    obtain ⟨h1, h2, _⟩ := getIndexOf_some b p f hf
    exact absurd ((mem_members b p).mpr ⟨f, h1, h2⟩) h

theorem remove_present (b : ArrayBag) (p : DishPtr) (h : p ∈ b.members) :
    (b.remove p).1.members.Perm (b.members.erase p) ∧
    (b.remove p).1.item_count_ = b.item_count_ - 1 := by
  obtain ⟨f, hf⟩ := getIndexOf_of_mem b p h
  refine ⟨remove_members_perm b p f hf, ?_⟩
  simp [ArrayBag.remove, hf]

/-- The bag part of `serveDish` is `ArrayBag::remove`, also on an empty store,
where `remove` finds nothing. -/
theorem serveDish_toArrayBag (mem : Memory) (k : Kitchen) (p : DishPtr) :
    (k.serveDish mem p).1.toArrayBag = (k.toArrayBag.remove p).1 := by
  by_cases h0 : k.getCurrentSize = 0
  · have hm : p ∉ k.members := by
      have : k.members.length = 0 := by rw [members_length]; exact h0
      rw [List.length_eq_zero] at this
      rw [this]; simp
    rw [remove_absent _ p hm]
    simp [Kitchen.serveDish, h0]
  · by_cases hr : (k.toArrayBag.remove p).2 = true
    · simp [Kitchen.serveDish, h0, hr]
    · simp [Kitchen.serveDish, h0, hr]

theorem serveDish_snd (mem : Memory) (k : Kitchen) (p : DishPtr) :
    (k.serveDish mem p).2 = decide (p ∈ k.members) := by
  by_cases h0 : k.getCurrentSize = 0
  · have hm : p ∉ k.members := by
      have : k.members.length = 0 := by rw [members_length]; exact h0
      rw [List.length_eq_zero] at this
      rw [this]; simp
    simp [Kitchen.serveDish, h0, hm]
  · have := remove_snd k.toArrayBag p
    by_cases hr : (k.toArrayBag.remove p).2 = true
    · simp [Kitchen.serveDish, h0, hr]
      rw [hr] at this
      simpa using this.symm
    · simp [Kitchen.serveDish, h0, hr]
      simp only [Bool.not_eq_true] at hr
      rw [hr] at this
      simpa using this.symm

theorem serveDish_absent (mem : Memory) (k : Kitchen) (p : DishPtr) (h : p ∉ k.members) :
    k.serveDish mem p = (k, false) := by
  by_cases h0 : k.getCurrentSize = 0
  · simp [Kitchen.serveDish, h0]
  · have h1 := remove_snd k.toArrayBag p
    have h2 := remove_absent k.toArrayBag p h
    simp only [h, decide_False] at h1
    simp [Kitchen.serveDish, h0, h1, h2]

theorem serveDish_present (mem : Memory) (k : Kitchen) (p : DishPtr) (h : p ∈ k.members) :
    k.serveDish mem p =
      ({ toArrayBag := (k.toArrayBag.remove p).1
         total_prep_time_ := wrapInt (k.total_prep_time_ - getPrepTime mem p)
         count_elaborate_ :=
           if isElaborate mem p then wrapInt (k.count_elaborate_ - 1)
           else k.count_elaborate_ }, true) := by
  have h0 : k.getCurrentSize ≠ 0 := by
    intro h0
    have : k.members.length = 0 := by rw [members_length]; exact h0
    rw [List.length_eq_zero] at this
    rw [this] at h; simp at h
  have h1 := remove_snd k.toArrayBag p
  simp only [h, decide_True] at h1
  simp [Kitchen.serveDish, h0, h1]

/-! ### Aggregates of the store -/

theorem wrapInt_wrapInt_add (a b : Int) : wrapInt (wrapInt a + b) = wrapInt (a + b) := by
  unfold wrapInt; omega

theorem wrapInt_wrapInt_sub (a b : Int) : wrapInt (wrapInt a - b) = wrapInt (a - b) := by
  unfold wrapInt; omega

theorem prepTimeTotal_append (mem : Memory) (l : List DishPtr) (x : DishPtr) :
    prepTimeTotal mem (l ++ [x]) = prepTimeTotal mem l + getPrepTime mem x := by
  simp [prepTimeTotal]

theorem elaborateTotal_append (mem : Memory) (l : List DishPtr) (x : DishPtr) :
    elaborateTotal mem (l ++ [x])
      = elaborateTotal mem l + (if isElaborate mem x then 1 else 0) := by
  simp [elaborateTotal, List.countP_append, List.countP_cons]

theorem prepTimeTotal_erase (mem : Memory) (l : List DishPtr) (x : DishPtr) (h : x ∈ l) :
    prepTimeTotal mem (l.erase x) = prepTimeTotal mem l - getPrepTime mem x := by
  have := List.sum_map_erase (getPrepTime mem) h
  unfold prepTimeTotal
  omega

theorem elaborateTotal_erase (mem : Memory) (l : List DishPtr) (x : DishPtr) (h : x ∈ l) :
    (elaborateTotal mem (l.erase x) : Int)
      = elaborateTotal mem l - (if isElaborate mem x then 1 else 0) := by
  unfold elaborateTotal
  have hp := (List.perm_cons_erase h).countP_eq (isElaborate mem)
  rw [hp, List.countP_cons]
  by_cases he : isElaborate mem x = true
  · simp [he]
  · simp [he]

theorem prepTimeTotal_perm (mem : Memory) (l₁ l₂ : List DishPtr) (h : l₁.Perm l₂) :
    prepTimeTotal mem l₁ = prepTimeTotal mem l₂ :=
  (h.map (getPrepTime mem)).sum_eq

theorem elaborateTotal_perm (mem : Memory) (l₁ l₂ : List DishPtr) (h : l₁.Perm l₂) :
    elaborateTotal mem l₁ = elaborateTotal mem l₂ :=
  h.countP_eq _

/-- `newOrder` keeps the aggregates consistent with the members. -/
theorem newOrder_consistent (accepts : ArrayBag → DishPtr → Bool) (mem : Memory)
    (k : Kitchen) (d : DishPtr) (h : k.Consistent mem) :
    (k.newOrder accepts mem d).1.Consistent mem := by
  cases ha : accepts k.toArrayBag d with
  | false =>
    have h1 := add_snd accepts k.toArrayBag d
    have h2 := add_rejected accepts k.toArrayBag d ha
    rw [ha] at h1
    simpa [Kitchen.newOrder, h1, h2] using h
  | true =>
    have h1 := add_snd accepts k.toArrayBag d
    have h2 := add_members accepts k.toArrayBag d ha
    rw [ha] at h1
    obtain ⟨ht, hc⟩ := h
    simp only [Kitchen.newOrder, h1, if_true, Kitchen.Consistent, h2, prepTimeTotal_append,
      elaborateTotal_append]
    constructor
    · rw [ht, wrapInt_wrapInt_add]
    · by_cases he : isElaborate mem d = true
      · simp only [he, if_true, hc]
        rw [wrapInt_wrapInt_add]
        push_cast
        rfl
      · simp only [he, if_false, hc]
        simp

/-- `serveDish` keeps the aggregates consistent with the members. -/
theorem serveDish_consistent (mem : Memory) (k : Kitchen) (d : DishPtr)
    (h : k.Consistent mem) : (k.serveDish mem d).1.Consistent mem := by
  by_cases hm : d ∈ k.members
  · obtain ⟨ht, hc⟩ := h
    have hp := (remove_present k.toArrayBag d hm).1
    rw [serveDish_present mem k d hm]
    simp only [Kitchen.Consistent]
    rw [prepTimeTotal_perm mem _ _ hp, elaborateTotal_perm mem _ _ hp,
      prepTimeTotal_erase mem _ _ hm, elaborateTotal_erase mem _ _ hm]
    constructor
    · rw [ht, wrapInt_wrapInt_sub]
    · by_cases he : isElaborate mem d = true
      · simp only [he, if_true, hc]
        rw [wrapInt_wrapInt_sub]
      · simp only [he, if_false, hc]
        simp
  · rw [serveDish_absent mem k d hm]
    exact h

theorem isElaborate_iff (mem : Memory) (d : DishPtr) :
    isElaborate mem d = true
      ↔ 5 ≤ (mem d).base.ingredients_.length ∧ 60 ≤ (mem d).base.prep_time_ := by
  simp [isElaborate, getPrepTime]

theorem wrapInt_of_InIntRange (x : Int) (h : InIntRange x) : wrapInt x = x :=
  wrapInt_of_inRange x h.1 h.2

theorem default_consistent (mem : Memory) (items : Nat → DishPtr) :
    (Kitchen.default items).Consistent mem := by
  simp [Kitchen.Consistent, Kitchen.default, ArrayBag.members, prepTimeTotal, elaborateTotal,
    wrapInt]

theorem call_consistent (accepts : ArrayBag → DishPtr → Bool) (mem : Memory) (k : Kitchen)
    (c : StoreCall) (h : k.Consistent mem) : (k.call accepts mem c).Consistent mem := by
  cases c with
  | newOrder d => exact newOrder_consistent accepts mem k d h
  | serveDish d => exact serveDish_consistent mem k d h

theorem calls_consistent (accepts : ArrayBag → DishPtr → Bool) (mem : Memory)
    (calls : List StoreCall) (k : Kitchen) (h : k.Consistent mem) :
    (calls.foldl (Kitchen.call accepts mem) k).Consistent mem := by
  induction calls generalizing k with
  | nil => exact h
  | cons c rest ih => exact ih _ (call_consistent accepts mem k c h)

/-- C15: in every store state reached from the default-constructed store by
newOrder and serveDish calls, total_prep_time_ is the sum of the members'
preparation times and count_elaborate_ is the number of members with at least
5 ingredients and a preparation time of at least 60, both as `int` values: the
equalities hold modulo 2^32, and exactly when the sum (the number) fits an
`int`. -/
theorem aggregates_invariant (accepts : ArrayBag → DishPtr → Bool) (mem : Memory)
    (items : Nat → DishPtr) (calls : List StoreCall) :
    (calls.foldl (Kitchen.call accepts mem) (Kitchen.default items)).total_prep_time_
      = wrapInt (((calls.foldl (Kitchen.call accepts mem) (Kitchen.default items)).members.map
          (fun d => (mem d).base.prep_time_)).sum) ∧
    (calls.foldl (Kitchen.call accepts mem) (Kitchen.default items)).count_elaborate_
      = wrapInt ((calls.foldl (Kitchen.call accepts mem) (Kitchen.default items)).members.countP
          (fun d => decide (5 ≤ (mem d).base.ingredients_.length ∧
            60 ≤ (mem d).base.prep_time_))) ∧
    (InIntRange (((calls.foldl (Kitchen.call accepts mem)
        (Kitchen.default items)).members.map (fun d => (mem d).base.prep_time_)).sum) →
      (calls.foldl (Kitchen.call accepts mem) (Kitchen.default items)).total_prep_time_
        = ((calls.foldl (Kitchen.call accepts mem) (Kitchen.default items)).members.map
            (fun d => (mem d).base.prep_time_)).sum) ∧
    (InIntRange ((calls.foldl (Kitchen.call accepts mem) (Kitchen.default items)).members.countP
        (fun d => decide (5 ≤ (mem d).base.ingredients_.length ∧
          60 ≤ (mem d).base.prep_time_))) →
      (calls.foldl (Kitchen.call accepts mem) (Kitchen.default items)).count_elaborate_
        = (calls.foldl (Kitchen.call accepts mem) (Kitchen.default items)).members.countP
            (fun d => decide (5 ≤ (mem d).base.ingredients_.length ∧
              60 ≤ (mem d).base.prep_time_))) := by
  have h := calls_consistent accepts mem calls _ (default_consistent mem items)
  have hpred : (fun d => decide (5 ≤ (mem d).base.ingredients_.length ∧
      60 ≤ (mem d).base.prep_time_)) = isElaborate mem := by
    funext d
    simp [isElaborate, getPrepTime]
  rw [hpred]
  obtain ⟨h1, h2⟩ := h
  refine ⟨h1, h2, fun hr => ?_, fun hr => ?_⟩
  · rw [h1]; exact wrapInt_of_InIntRange _ hr
  · rw [h2]; exact wrapInt_of_InIntRange _ hr

theorem aggregates_invariant_witness :
    (([StoreCall.newOrder 0, StoreCall.newOrder 1, StoreCall.serveDish 0,
        StoreCall.newOrder 2].foldl
      (Kitchen.call (fun _ _ => true)
        (exampleMemory [exampleDish 30 ["a"] CuisineType.OTHER,
          exampleDish 60 ["a", "b", "c", "d", "e"] CuisineType.OTHER,
          exampleDish 90 ["a", "b", "c", "d", "e", "f"] CuisineType.OTHER]))
      (Kitchen.default (fun _ => 0))).total_prep_time_ = 150) ∧
    (([StoreCall.newOrder 0, StoreCall.newOrder 1, StoreCall.serveDish 0,
        StoreCall.newOrder 2].foldl
      (Kitchen.call (fun _ _ => true)
        (exampleMemory [exampleDish 30 ["a"] CuisineType.OTHER,
          exampleDish 60 ["a", "b", "c", "d", "e"] CuisineType.OTHER,
          exampleDish 90 ["a", "b", "c", "d", "e", "f"] CuisineType.OTHER]))
      (Kitchen.default (fun _ => 0))).count_elaborate_ = 2) :=
  have h := aggregates_invariant (fun _ _ => true)
    (exampleMemory [exampleDish 30 ["a"] CuisineType.OTHER,
      exampleDish 60 ["a", "b", "c", "d", "e"] CuisineType.OTHER,
      exampleDish 90 ["a", "b", "c", "d", "e", "f"] CuisineType.OTHER])
    (fun _ => 0)
    [StoreCall.newOrder 0, StoreCall.newOrder 1, StoreCall.serveDish 0, StoreCall.newOrder 2]
  ⟨(h.2.2.1 ⟨by decide, by decide⟩).trans (by decide),
   (h.2.2.2 ⟨by decide, by decide⟩).trans (by decide)⟩

/-- C16: serveDish(d) returns false and changes nothing when the store is
empty or holds no instance of d; otherwise it returns true, removes exactly one
instance of d, subtracts d's preparation time from total_prep_time_ and
decrements count_elaborate_ exactly when d has at least 5 ingredients and a
preparation time of at least 60 (`int` arithmetic: exact whenever the result
fits an `int`). -/
theorem serveDish_contract (mem : Memory) (k : Kitchen) (d : DishPtr) :
    (k.getCurrentSize = 0 ∨ d ∉ k.members → k.serveDish mem d = (k, false)) ∧
    (d ∈ k.members →
      (k.serveDish mem d).2 = true ∧
      (k.serveDish mem d).1.members.Perm (k.members.erase d) ∧
      (k.serveDish mem d).1.getCurrentSize = k.getCurrentSize - 1 ∧
      (k.serveDish mem d).1.total_prep_time_
        = wrapInt (k.total_prep_time_ - (mem d).base.prep_time_) ∧
      (InIntRange (k.total_prep_time_ - (mem d).base.prep_time_) →
        (k.serveDish mem d).1.total_prep_time_
          = k.total_prep_time_ - (mem d).base.prep_time_) ∧
      (5 ≤ (mem d).base.ingredients_.length ∧ 60 ≤ (mem d).base.prep_time_ →
        (k.serveDish mem d).1.count_elaborate_ = wrapInt (k.count_elaborate_ - 1) ∧
        (InIntRange (k.count_elaborate_ - 1) →
          (k.serveDish mem d).1.count_elaborate_ = k.count_elaborate_ - 1)) ∧
      (¬ (5 ≤ (mem d).base.ingredients_.length ∧ 60 ≤ (mem d).base.prep_time_) →
        (k.serveDish mem d).1.count_elaborate_ = k.count_elaborate_)) := by
  constructor
  · rintro (h0 | hm)
    · simp [Kitchen.serveDish, h0]
    · exact serveDish_absent mem k d hm
  · intro hm
    have hp := remove_present k.toArrayBag d hm
    rw [serveDish_present mem k d hm]
    refine ⟨rfl, hp.1, hp.2, rfl, fun hr => wrapInt_of_InIntRange _ hr, fun he => ?_,
      fun he => ?_⟩
    · have := (isElaborate_iff mem d).mpr he
      rw [if_pos this]
      exact ⟨rfl, fun hr => wrapInt_of_InIntRange _ hr⟩
    · have : ¬ isElaborate mem d = true := fun h => he ((isElaborate_iff mem d).mp h)
      rw [if_neg this]

theorem serveDish_contract_witness :
    ((Kitchen.ofOrders (fun _ _ => true)
        (exampleMemory [exampleDish 30 ["a"] CuisineType.OTHER,
          exampleDish 75 ["a", "b", "c", "d", "e"] CuisineType.OTHER])
        (fun _ => 0) [0, 1]).serveDish
      (exampleMemory [exampleDish 30 ["a"] CuisineType.OTHER,
        exampleDish 75 ["a", "b", "c", "d", "e"] CuisineType.OTHER]) 1).1.total_prep_time_ = 30 ∧
    ((Kitchen.ofOrders (fun _ _ => true)
        (exampleMemory [exampleDish 30 ["a"] CuisineType.OTHER,
          exampleDish 75 ["a", "b", "c", "d", "e"] CuisineType.OTHER])
        (fun _ => 0) [0, 1]).serveDish
      (exampleMemory [exampleDish 30 ["a"] CuisineType.OTHER,
        exampleDish 75 ["a", "b", "c", "d", "e"] CuisineType.OTHER]) 1).1.count_elaborate_ = 0 :=
  have h := (serveDish_contract
    (exampleMemory [exampleDish 30 ["a"] CuisineType.OTHER,
      exampleDish 75 ["a", "b", "c", "d", "e"] CuisineType.OTHER])
    (Kitchen.ofOrders (fun _ _ => true)
      (exampleMemory [exampleDish 30 ["a"] CuisineType.OTHER,
        exampleDish 75 ["a", "b", "c", "d", "e"] CuisineType.OTHER])
      (fun _ => 0) [0, 1]) 1).2 (by decide)
  ⟨(h.2.2.2.2.1 ⟨by decide, by decide⟩).trans (by decide),
   ((h.2.2.2.2.2.1 (by decide)).2 ⟨by decide, by decide⟩).trans (by decide)⟩

/-- C17: newOrder(d) returns what the bag insertion returns. When that is true
the store holds d as its newest member, total_prep_time_ has grown by d's
preparation time, and count_elaborate_ has grown by 1 if d has at least 5
ingredients and a preparation time of at least 60 (5 and 60 included) and is
unchanged otherwise (`int` arithmetic: exact whenever the result fits an
`int`); when it is false nothing has changed. -/
theorem newOrder_contract (accepts : ArrayBag → DishPtr → Bool) (mem : Memory)
    (k : Kitchen) (d : DishPtr) :
    (k.newOrder accepts mem d).2 = (k.toArrayBag.add accepts d).2 ∧
    ((k.newOrder accepts mem d).2 = true →
      (k.newOrder accepts mem d).1.members = k.members ++ [d] ∧
      (k.newOrder accepts mem d).1.total_prep_time_
        = wrapInt (k.total_prep_time_ + (mem d).base.prep_time_) ∧
      (InIntRange (k.total_prep_time_ + (mem d).base.prep_time_) →
        (k.newOrder accepts mem d).1.total_prep_time_
          = k.total_prep_time_ + (mem d).base.prep_time_) ∧
      (5 ≤ (mem d).base.ingredients_.length ∧ 60 ≤ (mem d).base.prep_time_ →
        (k.newOrder accepts mem d).1.count_elaborate_ = wrapInt (k.count_elaborate_ + 1) ∧
        (InIntRange (k.count_elaborate_ + 1) →
          (k.newOrder accepts mem d).1.count_elaborate_ = k.count_elaborate_ + 1)) ∧
      (¬ (5 ≤ (mem d).base.ingredients_.length ∧ 60 ≤ (mem d).base.prep_time_) →
        (k.newOrder accepts mem d).1.count_elaborate_ = k.count_elaborate_)) ∧
    ((k.newOrder accepts mem d).2 = false → (k.newOrder accepts mem d).1 = k) := by
  have h1 := add_snd accepts k.toArrayBag d
  cases ha : accepts k.toArrayBag d with
  | false =>
    rw [ha] at h1
    have h2 := add_rejected accepts k.toArrayBag d ha
    refine ⟨by simp [Kitchen.newOrder, h1], fun h => ?_, fun _ => ?_⟩
    · simp [Kitchen.newOrder, h1] at h
    · simp [Kitchen.newOrder, h1, h2]
  | true =>
    rw [ha] at h1
    have h2 := add_members accepts k.toArrayBag d ha
    refine ⟨by simp [Kitchen.newOrder, h1], fun _ => ?_, fun h => ?_⟩
    · simp only [Kitchen.newOrder, h1, if_true]
      refine ⟨h2, rfl, fun hr => wrapInt_of_InIntRange _ hr, fun he => ?_, fun he => ?_⟩
      · have := (isElaborate_iff mem d).mpr he
        rw [if_pos this]
        exact ⟨rfl, fun hr => wrapInt_of_InIntRange _ hr⟩
      · have : ¬ isElaborate mem d = true := fun h => he ((isElaborate_iff mem d).mp h)
        rw [if_neg this]
    · simp [Kitchen.newOrder, h1] at h

theorem newOrder_contract_witness :
    ((Kitchen.default (fun _ => 0)).newOrder (fun _ _ => true)
      (exampleMemory [exampleDish 60 ["a", "b", "c", "d", "e"] CuisineType.OTHER]) 0).1.members
      = [0] ∧
    ((Kitchen.default (fun _ => 0)).newOrder (fun _ _ => true)
      (exampleMemory [exampleDish 60 ["a", "b", "c", "d", "e"] CuisineType.OTHER])
      0).1.total_prep_time_ = 60 ∧
    ((Kitchen.default (fun _ => 0)).newOrder (fun _ _ => true)
      (exampleMemory [exampleDish 60 ["a", "b", "c", "d", "e"] CuisineType.OTHER])
      0).1.count_elaborate_ = 1 :=
  have h := (newOrder_contract (fun _ _ => true)
    (exampleMemory [exampleDish 60 ["a", "b", "c", "d", "e"] CuisineType.OTHER])
    (Kitchen.default (fun _ => 0)) 0).2.1 rfl
  ⟨h.1, (h.2.2.1 ⟨by decide, by decide⟩).trans (by decide),
   ((h.2.2.2.1 (by decide)).2 ⟨by decide, by decide⟩).trans (by decide)⟩

/-! ### Releasing dishes -/

theorem releaseBelowLoop_consistent (mem : Memory) (prep_time : Int) (remaining i : Nat)
    (k : Kitchen) (count : Nat) (h : k.Consistent mem) :
    (Kitchen.releaseBelowLoop mem prep_time remaining i k count).1.Consistent mem := by
  induction remaining generalizing i k count with
  | zero => exact h
  | succ r ih =>
    simp only [Kitchen.releaseBelowLoop]
    split
    · exact ih _ _ _ (serveDish_consistent mem k _ h)
    · exact ih _ _ _ h

/-- The slot `remove` overwrites is not after any slot that holds the entry. -/
theorem getIndexOf_le (b : ArrayBag) (p : DishPtr) (f i : Nat)
    (h : b.getIndexOf p = some f) (hi : b.items_ i = p) : f ≤ i := by
  by_contra hlt
  exact (getIndexOf_some b p f h).2.2 i (by omega) hi

/-- `serveDish` leaves alone every slot after one that holds the dish. -/
theorem serveDish_items_after (mem : Memory) (k : Kitchen) (i j : Nat) (hj : i < j) :
    (k.serveDish mem (k.items_ i)).1.items_ j = k.items_ j := by
  have h := serveDish_toArrayBag mem k (k.items_ i)
  have h2 : (k.serveDish mem (k.items_ i)).1.items_ = (k.toArrayBag.remove (k.items_ i)).1.items_ := by
    rw [← h]
  rw [h2]
  cases hf : k.toArrayBag.getIndexOf (k.items_ i) with
  | none => simp [ArrayBag.remove, hf]
  | some f =>
    have hle := getIndexOf_le k.toArrayBag (k.items_ i) f i hf rfl
    simp only [ArrayBag.remove, hf]
    exact Function.update_noteq (by omega) _ _

/-- The sweep of `releaseDishesBelowPrepTime`, from index `i` with `remaining`
iterations to go: when the slots from `i` on still hold their original
pointers and the members are the kept ones among the first `i` originals
together with the originals from `i` on, the sweep ends with exactly the kept
originals as members, and has counted the others. -/
theorem releaseBelowLoop_spec (mem : Memory) (prep_time : Int) (items0 : Nat → DishPtr)
    (remaining i : Nat) (k : Kitchen) (count : Nat)
    (hslots : ∀ j, i ≤ j → k.items_ j = items0 j)
    (hmem : k.members.Perm
      (((List.range i).map items0).filter (fun d => decide (prep_time ≤ getPrepTime mem d))
        ++ (List.range' i remaining).map items0)) :
    (Kitchen.releaseBelowLoop mem prep_time remaining i k count).1.members.Perm
      (((List.range (i + remaining)).map items0).filter
        (fun d => decide (prep_time ≤ getPrepTime mem d))) ∧
    (Kitchen.releaseBelowLoop mem prep_time remaining i k count).2
      = count + ((List.range' i remaining).map items0).countP
          (fun d => decide (getPrepTime mem d < prep_time)) := by
  induction remaining generalizing i k count with
  | zero =>
    simp only [List.range'_zero, List.map_nil, List.append_nil] at hmem
    exact ⟨hmem, by simp [Kitchen.releaseBelowLoop]⟩
  | succ r ih =>
    have hp : k.items_ i = items0 i := hslots i (le_refl _)
    rw [List.range'_succ, List.map_cons] at hmem
    have hsum : i + (r + 1) = (i + 1) + r := by omega
    rw [hsum, List.range'_succ, List.map_cons, List.countP_cons]
    simp only [Kitchen.releaseBelowLoop]
    by_cases hlt : getPrepTime mem (k.items_ i) < prep_time
    · rw [if_pos hlt]
      have hlt0 : getPrepTime mem (items0 i) < prep_time := by rw [← hp]; exact hlt
      have hin : k.items_ i ∈ k.members := by
        rw [hmem.mem_iff, hp]
        simp
      have hnotA : items0 i ∉ ((List.range i).map items0).filter
          (fun d => decide (prep_time ≤ getPrepTime mem d)) := by
        intro hA
        have := (List.mem_filter.mp hA).2
        simp only [decide_eq_true_eq] at this
        omega
      have hperm : (k.serveDish mem (k.items_ i)).1.members.Perm
          (((List.range (i + 1)).map items0).filter
              (fun d => decide (prep_time ≤ getPrepTime mem d))
            ++ (List.range' (i + 1) r).map items0) := by
        have h1 : (k.serveDish mem (k.items_ i)).1.members
            = (k.toArrayBag.remove (k.items_ i)).1.members := by
          rw [← serveDish_toArrayBag mem k (k.items_ i)]
        rw [h1]
        refine (remove_present k.toArrayBag _ hin).1.trans ?_
        rw [hp]
        refine (hmem.erase (items0 i)).trans ?_
        rw [List.erase_append_right _ hnotA, List.erase_cons_head, List.range_succ,
          List.map_append, List.filter_append]
        have : ¬ prep_time ≤ getPrepTime mem (items0 i) := by omega
        simp [this]
      have hslots2 : ∀ j, i + 1 ≤ j → (k.serveDish mem (k.items_ i)).1.items_ j = items0 j := by
        intro j hj
        rw [serveDish_items_after mem k i j (by omega)]
        exact hslots j (by omega)
      obtain ⟨r1, r2⟩ := ih (i + 1) _ (count + 1) hslots2 hperm
      refine ⟨r1, ?_⟩
      rw [r2]
      simp [hlt0]
      omega
    · rw [if_neg hlt]
      have hge0 : prep_time ≤ getPrepTime mem (items0 i) := by rw [← hp]; omega
      have hperm : k.members.Perm
          (((List.range (i + 1)).map items0).filter
              (fun d => decide (prep_time ≤ getPrepTime mem d))
            ++ (List.range' (i + 1) r).map items0) := by
        refine hmem.trans ?_
        rw [List.range_succ, List.map_append, List.filter_append]
        simp [hge0]
      obtain ⟨r1, r2⟩ := ih (i + 1) k count (fun j hj => hslots j (by omega)) hperm
      refine ⟨r1, ?_⟩
      rw [r2]
      have : ¬ getPrepTime mem (items0 i) < prep_time := by omega
      simp [this]

/-- What `releaseDishesBelowPrepTime` leaves and returns, for any store. -/
theorem releaseDishesBelowPrepTime_spec (mem : Memory) (k : Kitchen) (prep_time : Int) :
    (k.releaseDishesBelowPrepTime mem prep_time).1.members.Perm
      (k.members.filter (fun d => decide (prep_time ≤ getPrepTime mem d))) ∧
    (k.releaseDishesBelowPrepTime mem prep_time).2
      = k.members.countP (fun d => decide (getPrepTime mem d < prep_time)) := by
  have h := releaseBelowLoop_spec mem prep_time k.items_ k.item_count_ 0 k 0
    (fun _ _ => rfl) (by simp [ArrayBag.members, List.range_eq_range'])
  simp only [Nat.zero_add] at h
  simpa [Kitchen.releaseDishesBelowPrepTime, ArrayBag.getCurrentSize, ArrayBag.members,
    List.range_eq_range'] using h

theorem below_add_kept (mem : Memory) (t : Int) (l : List DishPtr) :
    l.countP (fun d => decide ((mem d).base.prep_time_ < t))
      + (l.filter (fun d => decide (t ≤ (mem d).base.prep_time_))).length = l.length := by
  induction l with
  | nil => rfl
  | cons x rest ih =>
    by_cases hx : t ≤ (mem x).base.prep_time_
    · have hn : ¬ (mem x).base.prep_time_ < t := by omega
      simp only [List.countP_cons, List.filter_cons, hx, hn, decide_True, decide_False,
        if_true, List.length_cons]
      simp only [Bool.false_eq_true, if_false]
      omega
    · have hn : (mem x).base.prep_time_ < t := by omega
      simp only [List.countP_cons, List.filter_cons, hx, hn, decide_True, decide_False,
        if_true, List.length_cons]
      simp only [Bool.false_eq_true, if_false]
      omega

/-- C11: releaseDishesBelowPrepTime(t) removes every member whose preparation
time is strictly less than t, leaves every member whose preparation time is at
least t (one of exactly t stays), and returns the number of members it removed.
This holds for every store, so for those built from the empty store by
newOrder calls. On preparation times 30, 60, 90 with t = 60 it removes only
the 30-minute dish and returns 1. -/
theorem releaseDishesBelowPrepTime_removes (mem : Memory) (k : Kitchen) (t : Int) :
    (k.releaseDishesBelowPrepTime mem t).1.members.Perm
      (k.members.filter (fun d => decide (t ≤ (mem d).base.prep_time_))) ∧
    (k.releaseDishesBelowPrepTime mem t).2
      = k.members.countP (fun d => decide ((mem d).base.prep_time_ < t)) ∧
    (k.releaseDishesBelowPrepTime mem t).2 + (k.releaseDishesBelowPrepTime mem t).1.getCurrentSize
      = k.getCurrentSize ∧
    ((Kitchen.ofOrders (fun _ _ => true)
        (exampleMemory [exampleDish 30 [] CuisineType.OTHER, exampleDish 60 [] CuisineType.OTHER,
          exampleDish 90 [] CuisineType.OTHER])
        (fun _ => 0) [0, 1, 2]).releaseDishesBelowPrepTime
      (exampleMemory [exampleDish 30 [] CuisineType.OTHER, exampleDish 60 [] CuisineType.OTHER,
        exampleDish 90 [] CuisineType.OTHER]) 60).1.members = [2, 1] ∧
    ((Kitchen.ofOrders (fun _ _ => true)
        (exampleMemory [exampleDish 30 [] CuisineType.OTHER, exampleDish 60 [] CuisineType.OTHER,
          exampleDish 90 [] CuisineType.OTHER])
        (fun _ => 0) [0, 1, 2]).releaseDishesBelowPrepTime
      (exampleMemory [exampleDish 30 [] CuisineType.OTHER, exampleDish 60 [] CuisineType.OTHER,
        exampleDish 90 [] CuisineType.OTHER]) 60).2 = 1 := by
  obtain ⟨h1, h2⟩ := releaseDishesBelowPrepTime_spec mem k t
  refine ⟨h1, h2, ?_, by decide, by decide⟩
  have hlen := h1.length_eq
  rw [members_length] at hlen
  have hsplit := below_add_kept mem t k.members
  rw [members_length] at hsplit
  have h2b : (k.releaseDishesBelowPrepTime mem t).2
      = List.countP (fun d => decide ((mem d).base.prep_time_ < t)) k.members := h2
  have hlenb : (k.releaseDishesBelowPrepTime mem t).1.item_count_
      = (List.filter (fun d => decide (t ≤ (mem d).base.prep_time_)) k.members).length := hlen
  simp only [ArrayBag.getCurrentSize]
  omega

theorem getPrepTimeSum_of_consistent (mem : Memory) (k : Kitchen) (h : k.Consistent mem) :
    k.getPrepTimeSum = wrapInt (prepTimeTotal mem k.members) := by
  by_cases h0 : k.getCurrentSize = 0
  · have : k.members = [] := by
      apply List.length_eq_zero.mp
      rw [members_length]; exact h0
    simp [Kitchen.getPrepTimeSum, h0, this, prepTimeTotal, wrapInt]
  · simp only [Kitchen.getPrepTimeSum, if_neg h0]
    exact h.1

theorem elaborateDishCount_of_consistent (mem : Memory) (k : Kitchen)
    (h : k.Consistent mem) :
    k.elaborateDishCount = wrapInt (elaborateTotal mem k.members) := by
  by_cases h0 : k.getCurrentSize = 0
  · have : k.members = [] := by
      apply List.length_eq_zero.mp
      rw [members_length]; exact h0
    simp [Kitchen.elaborateDishCount, h0, this, elaborateTotal, wrapInt]
  · by_cases hc : k.count_elaborate_ = 0
    · simp only [Kitchen.elaborateDishCount, hc, or_true, if_true]
      rw [← h.2, hc]
    · simp only [Kitchen.elaborateDishCount, h0, hc, or_self, if_false]
      exact h.2

/-- C12: when the aggregates of a store are consistent with its members, they
still are after releaseDishesBelowPrepTime(t): getPrepTimeSum() is the sum of
the preparation times of the members that remain and elaborateDishCount() the
number of remaining elaborate members, as `int` values (exactly, whenever the
sum and the number fit an `int`). -/
theorem releaseDishesBelowPrepTime_consistent (mem : Memory) (k : Kitchen) (t : Int)
    (h : k.Consistent mem) :
    (k.releaseDishesBelowPrepTime mem t).1.Consistent mem ∧
    (k.releaseDishesBelowPrepTime mem t).1.getPrepTimeSum
      = wrapInt (prepTimeTotal mem (k.releaseDishesBelowPrepTime mem t).1.members) ∧
    (k.releaseDishesBelowPrepTime mem t).1.elaborateDishCount
      = wrapInt (elaborateTotal mem (k.releaseDishesBelowPrepTime mem t).1.members) ∧
    (InIntRange (prepTimeTotal mem (k.releaseDishesBelowPrepTime mem t).1.members) →
      (k.releaseDishesBelowPrepTime mem t).1.getPrepTimeSum
        = prepTimeTotal mem (k.releaseDishesBelowPrepTime mem t).1.members) ∧
    (InIntRange (elaborateTotal mem (k.releaseDishesBelowPrepTime mem t).1.members) →
      (k.releaseDishesBelowPrepTime mem t).1.elaborateDishCount
        = elaborateTotal mem (k.releaseDishesBelowPrepTime mem t).1.members) := by
  have hc : (k.releaseDishesBelowPrepTime mem t).1.Consistent mem :=
    releaseBelowLoop_consistent mem t _ 0 k 0 h
  have h1 := getPrepTimeSum_of_consistent mem _ hc
  have h2 := elaborateDishCount_of_consistent mem _ hc
  exact ⟨hc, h1, h2, fun hr => h1.trans (wrapInt_of_InIntRange _ hr),
    fun hr => h2.trans (wrapInt_of_InIntRange _ hr)⟩

theorem releaseDishesBelowPrepTime_consistent_witness :
    ((Kitchen.ofOrders (fun _ _ => true)
        (exampleMemory [exampleDish 30 [] CuisineType.OTHER, exampleDish 60 [] CuisineType.OTHER,
          exampleDish 90 [] CuisineType.OTHER])
        (fun _ => 0) [0, 1, 2]).releaseDishesBelowPrepTime
      (exampleMemory [exampleDish 30 [] CuisineType.OTHER, exampleDish 60 [] CuisineType.OTHER,
        exampleDish 90 [] CuisineType.OTHER]) 60).1.getPrepTimeSum = 150 :=
  ((releaseDishesBelowPrepTime_consistent
    (exampleMemory [exampleDish 30 [] CuisineType.OTHER, exampleDish 60 [] CuisineType.OTHER,
      exampleDish 90 [] CuisineType.OTHER])
    (Kitchen.ofOrders (fun _ _ => true)
      (exampleMemory [exampleDish 30 [] CuisineType.OTHER, exampleDish 60 [] CuisineType.OTHER,
        exampleDish 90 [] CuisineType.OTHER])
      (fun _ => 0) [0, 1, 2]) 60 ⟨by decide, by decide⟩).2.2.2.1
    ⟨by decide, by decide⟩).trans (by decide)

theorem remove_item_count_le (b : ArrayBag) (p : DishPtr) :
    (b.remove p).1.item_count_ ≤ b.item_count_ := by
  cases hf : b.getIndexOf p with
  | none => simp [ArrayBag.remove, hf]
  | some f => simp [ArrayBag.remove, hf]

theorem serveDish_size_le (mem : Memory) (k : Kitchen) (p : DishPtr) :
    (k.serveDish mem p).1.getCurrentSize ≤ k.getCurrentSize := by
  have h := serveDish_toArrayBag mem k p
  have h2 : (k.serveDish mem p).1.item_count_ = (k.toArrayBag.remove p).1.item_count_ := by
    rw [← h]
  simp only [ArrayBag.getCurrentSize, h2]
  exact remove_item_count_le _ _

/-- The loop of `releaseDishesOfCuisineType` stops by its own condition: any
fuel that covers the distance from the index to the size gives the same
result. -/
theorem releaseCuisineLoop_fuel (mem : Memory) (cuisine_type : String) (fuel1 fuel2 i : Nat)
    (k : Kitchen) (count : Nat) (h1 : k.getCurrentSize ≤ i + fuel1)
    (h2 : k.getCurrentSize ≤ i + fuel2) :
    Kitchen.releaseCuisineLoop mem cuisine_type fuel1 i k count
      = Kitchen.releaseCuisineLoop mem cuisine_type fuel2 i k count := by
  induction fuel1 generalizing fuel2 i k count with
  | zero =>
    cases fuel2 with
    | zero => rfl
    | succ f2 =>
      have : ¬ i < k.getCurrentSize := by omega
      simp [Kitchen.releaseCuisineLoop, this]
  | succ f1 ih =>
    cases fuel2 with
    | zero =>
      have : ¬ i < k.getCurrentSize := by omega
      simp [Kitchen.releaseCuisineLoop, this]
    | succ f2 =>
      simp only [Kitchen.releaseCuisineLoop]
      by_cases hi : i < k.getCurrentSize
      · rw [if_pos hi, if_pos hi]
        by_cases hc : getCuisineType mem (k.items_ i) = cuisine_type
        · rw [if_pos hc, if_pos hc]
          have := serveDish_size_le mem k (k.items_ i)
          exact ih f2 (i + 1) _ _ (by omega) (by omega)
        · rw [if_neg hc, if_neg hc]
          exact ih f2 (i + 1) _ _ (by omega) (by omega)
      · rw [if_neg hi, if_neg hi]

/-- C13 fails on the code: in a store of two ITALIAN dishes,
releaseDishesOfCuisineType("ITALIAN") removes the first dish, which moves the
second into slot 0; the loop index goes to 1, the size is now 1, and the loop
stops. One ITALIAN dish is left: the call returns 1 and tallyCuisineTypes
still gives 1. More fuel changes nothing. -/
theorem releaseDishesOfCuisineType_leaves_one :
    (Kitchen.ofOrders (fun _ _ => true)
        (exampleMemory [exampleDish 30 [] CuisineType.ITALIAN,
          exampleDish 45 [] CuisineType.ITALIAN])
        (fun _ => 0) [0, 1]).tallyCuisineTypes
      (exampleMemory [exampleDish 30 [] CuisineType.ITALIAN,
        exampleDish 45 [] CuisineType.ITALIAN]) "ITALIAN" = 2 ∧
    ((Kitchen.ofOrders (fun _ _ => true)
        (exampleMemory [exampleDish 30 [] CuisineType.ITALIAN,
          exampleDish 45 [] CuisineType.ITALIAN])
        (fun _ => 0) [0, 1]).releaseDishesOfCuisineType
      (exampleMemory [exampleDish 30 [] CuisineType.ITALIAN,
        exampleDish 45 [] CuisineType.ITALIAN]) "ITALIAN").2 = 1 ∧
    ((Kitchen.ofOrders (fun _ _ => true)
        (exampleMemory [exampleDish 30 [] CuisineType.ITALIAN,
          exampleDish 45 [] CuisineType.ITALIAN])
        (fun _ => 0) [0, 1]).releaseDishesOfCuisineType
      (exampleMemory [exampleDish 30 [] CuisineType.ITALIAN,
        exampleDish 45 [] CuisineType.ITALIAN]) "ITALIAN").1.members = [1] ∧
    (((Kitchen.ofOrders (fun _ _ => true)
        (exampleMemory [exampleDish 30 [] CuisineType.ITALIAN,
          exampleDish 45 [] CuisineType.ITALIAN])
        (fun _ => 0) [0, 1]).releaseDishesOfCuisineType
      (exampleMemory [exampleDish 30 [] CuisineType.ITALIAN,
        exampleDish 45 [] CuisineType.ITALIAN]) "ITALIAN").1.tallyCuisineTypes
      (exampleMemory [exampleDish 30 [] CuisineType.ITALIAN,
        exampleDish 45 [] CuisineType.ITALIAN]) "ITALIAN") = 1 ∧
    (∀ fuel, 2 ≤ fuel →
      Kitchen.releaseCuisineLoop
        (exampleMemory [exampleDish 30 [] CuisineType.ITALIAN,
          exampleDish 45 [] CuisineType.ITALIAN]) "ITALIAN" fuel 0
        (Kitchen.ofOrders (fun _ _ => true)
          (exampleMemory [exampleDish 30 [] CuisineType.ITALIAN,
            exampleDish 45 [] CuisineType.ITALIAN])
          (fun _ => 0) [0, 1]) 0
      = (Kitchen.ofOrders (fun _ _ => true)
          (exampleMemory [exampleDish 30 [] CuisineType.ITALIAN,
            exampleDish 45 [] CuisineType.ITALIAN])
          (fun _ => 0) [0, 1]).releaseDishesOfCuisineType
        (exampleMemory [exampleDish 30 [] CuisineType.ITALIAN,
          exampleDish 45 [] CuisineType.ITALIAN]) "ITALIAN") := by
  refine ⟨by decide, by decide, by decide, by decide, fun fuel hf => ?_⟩
  exact releaseCuisineLoop_fuel _ _ fuel _ 0 _ 0
    (by simp only [Nat.zero_add]; exact hf) (le_refl _)

/-! ### MainCourse: protein and the vegan rule -/

/-- C19: after dietaryAccommodations the protein type of a MainCourse is
"Tofu" if the request has vegetarian or vegan set, and the original protein
type otherwise. -/
theorem mainCourse_protein_type (m : MainCourse) (request : DietaryRequest) :
    (m.dietaryAccommodations request).protein_type_
      = if request.vegetarian = true ∨ request.vegan = true then "Tofu"
        else m.protein_type_ := by
  cases hv : request.vegetarian <;> cases hg : request.vegan <;>
    simp [MainCourse.dietaryAccommodations, hv, hg]

theorem non_veg_not_dairy :
    ∀ x ∈ non_veg_ingredients, x ∉ dairy_eggs ∧ x ≠ "" := by decide

/-- C20: for a MainCourse and a request with vegan set and vegetarian unset the
meat substitution is not applied: the non-vegetarian ingredients are all still
in the list, unreplaced and in their original order, the numbers of "Beans"
and "Mushrooms" entries are unchanged, and no dairy or egg ingredient
remains. -/
theorem mainCourse_vegan_only (m : MainCourse) (request : DietaryRequest)
    (hvegan : request.vegan = true) (hveg : request.vegetarian = false) :
    (m.dietaryAccommodations request).ingredients_.filter
        (fun x => decide (x ∈ non_veg_ingredients))
      = m.ingredients_.filter (fun x => decide (x ∈ non_veg_ingredients)) ∧
    (m.dietaryAccommodations request).ingredients_.count "Beans"
      = m.ingredients_.count "Beans" ∧
    (m.dietaryAccommodations request).ingredients_.count "Mushrooms"
      = m.ingredients_.count "Mushrooms" ∧
    (∀ x ∈ (m.dietaryAccommodations request).ingredients_, x ∉ dairy_eggs) := by
  have key : (m.dietaryAccommodations request).ingredients_
      = m.ingredients_.filter (fun x => decide (x ∉ dairy_eggs ∧ x ≠ "")) := by
    simp only [MainCourse.dietaryAccommodations, hvegan, hveg, if_true, if_false,
      Bool.false_eq_true]
    exact eraseRemove_blankListed dairy_eggs m.ingredients_
  rw [key]
  refine ⟨?_, ?_, ?_, ?_⟩
  · rw [List.filter_filter]
    apply List.filter_congr
    intro x _
    by_cases hx : x ∈ non_veg_ingredients
    · have := non_veg_not_dairy x hx
      simp [hx, this.1, this.2]
    · simp [hx]
  · exact List.count_filter (by decide)
  · exact List.count_filter (by decide)
  · intro x hx
    have := (List.mem_filter.mp hx).2
    simp only [decide_eq_true_eq] at this
    exact this.1

theorem mainCourse_vegan_only_witness :
    ((MainCourse.mk ⟨"Carbonara", ["Bacon", "Eggs", "Beans", "Cheese", "Pork", "Pasta"], 30,
        ⟨0⟩, CuisineType.ITALIAN⟩ CookingMethod.BOILED "Pork" [] false).dietaryAccommodations
      ⟨false, true, false, false, false, false⟩).ingredients_
      = ["Bacon", "Beans", "Pork", "Pasta"] ∧
    ((MainCourse.mk ⟨"Carbonara", ["Bacon", "Eggs", "Beans", "Cheese", "Pork", "Pasta"], 30,
        ⟨0⟩, CuisineType.ITALIAN⟩ CookingMethod.BOILED "Pork" [] false).dietaryAccommodations
      ⟨false, true, false, false, false, false⟩).ingredients_.filter
        (fun x => decide (x ∈ non_veg_ingredients)) = ["Bacon", "Pork"] :=
  ⟨by decide,
   (mainCourse_vegan_only
    (MainCourse.mk ⟨"Carbonara", ["Bacon", "Eggs", "Beans", "Cheese", "Pork", "Pasta"], 30,
      ⟨0⟩, CuisineType.ITALIAN⟩ CookingMethod.BOILED "Pork" [] false)
    ⟨false, true, false, false, false, false⟩ rfl rfl).1.trans (by decide)⟩

/-! ### The loading constructor -/

theorem addNew_aggregates (accepts : ArrayBag → DishPtr → Bool) (st : LoadState)
    (dish : DishObject) :
    (Kitchen.addNew accepts st dish).1.kitchen.total_prep_time_ = st.kitchen.total_prep_time_ ∧
    (Kitchen.addNew accepts st dish).1.kitchen.count_elaborate_ = st.kitchen.count_elaborate_ :=
  ⟨rfl, rfl⟩

theorem readLine_aggregates (accepts : ArrayBag → DishPtr → Bool)
    (stod : String → Except StdException Double) (st st1 : LoadState) (line : String)
    (h : Kitchen.readLine (Kitchen.addNew accepts) stod st line = Except.ok st1) :
    st1.kitchen.total_prep_time_ = st.kitchen.total_prep_time_ ∧
    st1.kitchen.count_elaborate_ = st.kitchen.count_elaborate_ := by
  unfold Kitchen.readLine at h
  split at h
  · cases h
  · simp only [Except.ok.injEq] at h
    subst h
    exact ⟨rfl, rfl⟩
  · simp only [Except.ok.injEq] at h
    subst h
    exact addNew_aggregates accepts st _

theorem readLines_aggregates (accepts : ArrayBag → DishPtr → Bool)
    (stod : String → Except StdException Double) (lines : List String) (st st1 : LoadState)
    (h : Kitchen.readLines accepts stod lines st = Except.ok st1) :
    st1.kitchen.total_prep_time_ = st.kitchen.total_prep_time_ ∧
    st1.kitchen.count_elaborate_ = st.kitchen.count_elaborate_ := by
  induction lines generalizing st with
  | nil =>
    simp only [Kitchen.readLines, Except.ok.injEq] at h
    subst h
    exact ⟨rfl, rfl⟩
  | cons line rest ih =>
    simp only [Kitchen.readLines] at h
    cases hr : Kitchen.readLine (Kitchen.addNew accepts) stod st line with
    | error e => rw [hr] at h; cases h
    | ok st2 =>
      rw [hr] at h
      have h1 := readLine_aggregates accepts stod st st2 line hr
      have h2 := ih st2 h
      exact ⟨h2.1.trans h1.1, h2.2.trans h1.2⟩

set_option maxRecDepth 100000 in
/-- C18 fails on the code: the loading constructor never writes the two
aggregates. Whatever the file holds, they keep the indeterminate values the
members started with; the dishes go through `add`, not through `newOrder`.
For a file of one 20-minute Appetizer and one elaborate 75-minute Dessert, and
members that happened to start at 0, getPrepTimeSum() is 0 where the dishes
sum to 95, and elaborateDishCount() is 0 where one dish is elaborate. -/
theorem fromFile_aggregates_unset :
    (∀ (accepts : ArrayBag → DishPtr → Bool) (stod : String → Except StdException Double)
        (mem : Memory) (next : DishPtr) (items : Nat → DishPtr) (total0 count0 : Int)
        (content : String) (st : LoadState),
      Kitchen.fromFile accepts stod mem next items total0 count0 content = Except.ok st →
      st.kitchen.total_prep_time_ = total0 ∧ st.kitchen.count_elaborate_ = count0) ∧
    (Kitchen.fromFile (fun _ _ => true)
        (fun s => if s = "8.50" then Except.ok ⟨4620974692658839552⟩
          else Except.error StdException.invalid_argument)
        (exampleMemory []) 0 (fun _ => 0) 0 0
        "Type,Name,Ingredients,Prep,Price,Cuisine,More\nAPPETIZER,Wings,Chicken;Sauce,20,8.50,AMERICAN,PLATED;3;false\nDESSERT,Cake,Flour;Sugar;Eggs;Butter;Cocoa,75,8.50,FRENCH,SWEET;8;false").map
      (fun st => (st.kitchen.members, prepTimeTotal st.mem st.kitchen.members,
        st.kitchen.getPrepTimeSum, elaborateTotal st.mem st.kitchen.members,
        st.kitchen.elaborateDishCount))
      = Except.ok ([0, 1], 95, 0, 1, 0) := by
  constructor
  · intro accepts stod mem next items total0 count0 content st h
    exact readLines_aggregates accepts stod _ _ st h
  · rfl

/-! ### Further properties of the dietary accommodations -/

/-- C21, as stated, fails: the gluten-free pass also deletes an empty-string
ingredient, which is none of the eight gluten ingredients. From "", Flour,
Salt it leaves Salt alone. -/
theorem appetizer_gluten_free_drops_empty :
    ((Appetizer.mk ⟨"Toast", ["", "Flour", "Salt"], 10, ⟨0⟩, CuisineType.FRENCH⟩
        ServingStyle.PLATED 1 false).dietaryAccommodations
      ⟨false, false, true, false, false, false⟩).ingredients_ = ["Salt"] ∧
    ["", "Flour", "Salt"].filter (fun x => decide (x ∉ gluten_ingredients)) = ["", "Salt"] ∧
    ((Appetizer.mk ⟨"Toast", ["", "Flour", "Salt"], 10, ⟨0⟩, CuisineType.FRENCH⟩
        ServingStyle.PLATED 1 false).dietaryAccommodations
      ⟨false, false, true, false, false, false⟩).ingredients_
      ≠ ["", "Flour", "Salt"].filter (fun x => decide (x ∉ gluten_ingredients)) := by
  refine ⟨by decide, by decide, by decide⟩

/-- C21 (amended): for an Appetizer and a request with gluten_free set and
vegetarian unset, the resulting ingredient list is the original list with the
ingredients equal to one of the eight gluten ingredients or to the empty
string deleted; every other ingredient is kept, in its original order. For a
list without an empty string only the gluten ingredients are deleted. -/
theorem appetizer_gluten_free_removal (a : Appetizer) (request : DietaryRequest)
    (hgf : request.gluten_free = true) (hveg : request.vegetarian = false) :
    (a.dietaryAccommodations request).ingredients_
      = a.ingredients_.filter (fun x => decide (x ∉ gluten_ingredients ∧ x ≠ "")) ∧
    ("" ∉ a.ingredients_ →
      (a.dietaryAccommodations request).ingredients_
        = a.ingredients_.filter (fun x => decide (x ∉ gluten_ingredients))) := by
  have key : (a.dietaryAccommodations request).ingredients_
      = a.ingredients_.filter (fun x => decide (x ∉ gluten_ingredients ∧ x ≠ "")) := by
    simp only [Appetizer.dietaryAccommodations, hgf, hveg, if_true, if_false,
      Bool.false_eq_true]
    exact eraseRemove_blankListed gluten_ingredients a.ingredients_
  refine ⟨key, fun hempty => ?_⟩
  rw [key]
  apply List.filter_congr
  intro x hx
  have hne : x ≠ "" := fun e => hempty (e ▸ hx)
  simp [hne]

theorem appetizer_gluten_free_removal_witness :
    ((Appetizer.mk ⟨"Crostini", ["Bread", "Tomato", "Oats", "Basil"], 12, ⟨0⟩,
        CuisineType.ITALIAN⟩ ServingStyle.PLATED 1 true).dietaryAccommodations
      ⟨false, true, true, false, true, false⟩).ingredients_ = ["Tomato", "Basil"] :=
  ((appetizer_gluten_free_removal
    (Appetizer.mk ⟨"Crostini", ["Bread", "Tomato", "Oats", "Basil"], 12, ⟨0⟩,
      CuisineType.ITALIAN⟩ ServingStyle.PLATED 1 true)
    ⟨false, true, true, false, true, false⟩ rfl rfl).2 (by decide)).trans (by decide)

theorem not_mem_eraseRemove_self (value : String) (v : List String) :
    value ∉ eraseRemove value v := by
  simp [eraseRemove]

theorem not_mem_removeEach_of_not_mem (listed v : List String) (x : String) (h : x ∉ v) :
    x ∉ removeEach listed v := by
  rw [removeEach_eq_filter]
  exact fun hx => h (List.mem_filter.mp hx).1

/-- C26: dietaryAccommodations leaves no empty placeholder in the ingredient
list of a dish of any variant: a list that held no empty string before the
call holds none after it. -/
theorem dietaryAccommodations_no_placeholder (dish : DishObject) (request : DietaryRequest)
    (h : "" ∉ dish.base.ingredients_) :
    "" ∉ (dish.dietaryAccommodations request).base.ingredients_ := by
  cases dish with
  | appetizer a =>
    have h0 : "" ∉ a.ingredients_ := h
    show "" ∉ (a.dietaryAccommodations request).ingredients_
    cases hv : request.vegetarian <;> cases hg : request.gluten_free <;>
      simp only [Appetizer.dietaryAccommodations, hv, hg, if_true, if_false,
        Bool.false_eq_true]
    · exact h0
    · exact not_mem_eraseRemove_self _ _
    · exact not_mem_eraseRemove_self _ _
    · exact not_mem_eraseRemove_self _ _
  | mainCourse m =>
    have h0 : "" ∉ m.ingredients_ := h
    show "" ∉ (m.dietaryAccommodations request).ingredients_
    cases hv : request.vegetarian <;> cases hg : request.vegan <;>
      simp only [MainCourse.dietaryAccommodations, hv, hg, if_true, if_false,
        Bool.false_eq_true]
    · exact h0
    · exact not_mem_eraseRemove_self _ _
    · exact not_mem_eraseRemove_self _ _
    · exact not_mem_eraseRemove_self _ _
  | dessert d =>
    have h0 : "" ∉ d.ingredients_ := h
    show "" ∉ (d.dietaryAccommodations request).ingredients_
    cases hv : request.nut_free <;> cases hg : request.vegan <;>
      simp only [Dessert.dietaryAccommodations, hv, hg, if_true, if_false,
        Bool.false_eq_true]
    · exact h0
    · exact not_mem_removeEach_of_not_mem _ _ _ h0
    · exact not_mem_removeEach_of_not_mem _ _ _ h0
    · exact not_mem_removeEach_of_not_mem _ _ _ (not_mem_removeEach_of_not_mem _ _ _ h0)

theorem dietaryAccommodations_no_placeholder_witness :
    "" ∉ ((DishObject.dessert (Dessert.mk ⟨"Tart", ["Butter", "Pecans", "Apple"], 50, ⟨0⟩,
        CuisineType.FRENCH⟩ FlavorProfile.SWEET 6 true)).dietaryAccommodations
      ⟨false, true, false, true, false, false⟩).base.ingredients_ :=
  dietaryAccommodations_no_placeholder
    (DishObject.dessert (Dessert.mk ⟨"Tart", ["Butter", "Pecans", "Apple"], 50, ⟨0⟩,
      CuisineType.FRENCH⟩ FlavorProfile.SWEET 6 true))
    ⟨false, true, false, true, false, false⟩ (by decide)

/-- C29: dietaryAccommodations leaves unchanged the name, the preparation
time, the price and the cuisine type of a dish of any variant, and also the
serving style of an Appetizer, the cooking method of a MainCourse and the
flavor profile of a Dessert. -/
theorem dietaryAccommodations_frame (request : DietaryRequest) :
    (∀ dish : DishObject,
      (dish.dietaryAccommodations request).base.name_ = dish.base.name_ ∧
      (dish.dietaryAccommodations request).base.prep_time_ = dish.base.prep_time_ ∧
      (dish.dietaryAccommodations request).base.price_ = dish.base.price_ ∧
      (dish.dietaryAccommodations request).base.cuisine_type_ = dish.base.cuisine_type_) ∧
    (∀ a : Appetizer, (a.dietaryAccommodations request).serving_style_ = a.serving_style_) ∧
    (∀ m : MainCourse, (m.dietaryAccommodations request).cooking_method_ = m.cooking_method_) ∧
    (∀ d : Dessert, (d.dietaryAccommodations request).flavor_profile_ = d.flavor_profile_) := by
  refine ⟨fun dish => ?_, fun _ => rfl, fun _ => rfl, fun _ => rfl⟩
  cases dish <;> exact ⟨rfl, rfl, rfl, rfl⟩

/-! ### Delimited lists: ingredients and side dishes -/

theorem splitAtDelim_no_delim (delim : Char) (t : List Char) (h : delim ∉ t) :
    splitAtDelim delim t = (t, none) := by
  induction t with
  | nil => rfl
  | cons c rest ih =>
    have hc : c ≠ delim := fun e => h (by simp [e])
    have hr : delim ∉ rest := fun e => h (by simp [e])
    simp [splitAtDelim, hc, ih hr]

theorem splitAtDelim_append (delim : Char) (t r : List Char) (h : delim ∉ t) :
    splitAtDelim delim (t ++ delim :: r) = (t, some r) := by
  induction t with
  | nil => simp [splitAtDelim]
  | cons c rest ih =>
    have hc : c ≠ delim := fun e => h (by simp [e])
    have hr : delim ∉ rest := fun e => h (by simp [e])
    simp [splitAtDelim, hc, ih hr]

theorem joinWith_length_cons (delim : Char) (t u : List Char) (rest : List (List Char)) :
    (joinWith delim (t :: u :: rest)).length
      = t.length + 1 + (joinWith delim (u :: rest)).length := by
  simp [joinWith]
  omega

/-- The loop of `getline` calls over texts joined by the delimiter yields the
texts, when none of them holds the delimiter and the last one is not empty. -/
theorem getlineAll_joinWith (delim : Char) (ts : List (List Char)) (fuel : Nat) (str : String)
    (hfuel : (joinWith delim ts).length + 1 ≤ fuel)
    (hdelim : ∀ t ∈ ts, delim ∉ t)
    (hlast : ∀ t, ts.getLast? = some t → t ≠ []) :
    getlineAll delim fuel ⟨joinWith delim ts, true⟩ str = ts.map String.mk := by
  induction ts generalizing fuel str with
  | nil =>
    cases fuel with
    | zero => rfl
    | succ f => simp [getlineAll, getline, joinWith, splitAtDelim]
  | cons t rest ih =>
    cases rest with
    | nil =>
      have ht : t ≠ [] := hlast t rfl
      have hd : delim ∉ t := hdelim t (by simp)
      cases fuel with
      | zero => simp at hfuel
      | succ f =>
        have hne : t.isEmpty = false := by
          cases t with
          | nil => exact absurd rfl ht
          | cons _ _ => rfl
        have e : getline ⟨joinWith delim [t], true⟩ str delim
            = (⟨[], false⟩, String.mk t, true) := by
          simp [getline, joinWith, splitAtDelim_no_delim delim t hd, hne]
        simp only [getlineAll, e, if_true, List.map_cons, List.map_nil]
        cases f with
        | zero => rfl
        | succ g => simp [getlineAll, getline_not_good]
    | cons u rest2 =>
      have hd : delim ∉ t := hdelim t (by simp)
      cases fuel with
      | zero => simp at hfuel
      | succ f =>
        have e : getline ⟨joinWith delim (t :: u :: rest2), true⟩ str delim
            = (⟨joinWith delim (u :: rest2), true⟩, String.mk t, true) := by
          simp [getline, joinWith, splitAtDelim_append delim t _ hd]
        rw [joinWith_length_cons] at hfuel
        simp only [getlineAll, e, if_true, List.map_cons]
        rw [ih f (String.mk t) (by omega) (fun x hx => hdelim x (by simp [hx]))
          (fun x hx => hlast x (by simpa [List.getLast?_cons_cons] using hx))]
        simp

/-- C25: for ingredient names none of which holds a ',' or a ';' and the last
of which is not empty, decoding the ingredients field that joins them with ';'
yields exactly the names, in the same order and number (empty names inside the
list are kept); it is the ingredient list of the dish decoded from a record
with that field. -/
theorem ingredients_roundtrip (names : List String)
    (hchars : ∀ name ∈ names, ',' ∉ name.data ∧ ';' ∉ name.data)
    (hlast : ∀ name, names.getLast? = some name → name ≠ "") :
    parseIngredients (ingredientsField names) = names ∧
    (parseIngredients (ingredientsField names)).length = names.length ∧
    (∀ (stod : String → Except StdException Double) (line : String) (dish : DishObject),
      recordField 2 line = ingredientsField names →
      decodeLine stod line = Except.ok (some dish) →
      dish.base.ingredients_ = names) := by
  have key : parseIngredients (ingredientsField names) = names := by
    unfold parseIngredients ingredientsField IStream.ofString
    rw [getlineAll_joinWith ';' _ _ _ (le_refl _)]
    · simp [List.map_map]
      have : (String.mk ∘ String.data) = id := by funext s; rfl
      rw [this]; simp
    · intro t ht
      obtain ⟨name, hn, rfl⟩ := List.mem_map.mp ht
      exact (hchars name hn).2
    · intro t ht
      rw [List.getLast?_map] at ht
      cases hl : names.getLast? with
      | none => rw [hl] at ht; simp at ht
      | some name =>
        rw [hl] at ht
        simp only [Option.map_some', Option.some.injEq] at ht
        subst ht
        intro hempty
        exact hlast name hl (by cases name; simp_all)
  refine ⟨key, by rw [key], ?_⟩
  intro stod line dish hfield hdec
  rw [decodeLine_eq] at hdec
  cases hp : stoi (recordField 3 line) with
  | error e => rw [hp] at hdec; cases hdec
  | ok prep_time =>
    cases hq : stod (recordField 4 line) with
    | error e => rw [hp, hq] at hdec; cases hdec
    | ok price =>
      rw [hp, hq, hfield, key] at hdec
      simp only at hdec
      split at hdec
      · split at hdec
        · cases hdec
        · simp only [Except.ok.injEq, Option.some.injEq] at hdec
          subst hdec; rfl
      · split at hdec
        · simp only [Except.ok.injEq, Option.some.injEq] at hdec
          subst hdec; rfl
        · split at hdec
          · split at hdec
            · cases hdec
            · simp only [Except.ok.injEq, Option.some.injEq] at hdec
              subst hdec; rfl
          · cases hdec

theorem ingredients_roundtrip_witness :
    parseIngredients "Flour;;Sugar;Cocoa" = ["Flour", "", "Sugar", "Cocoa"] :=
  (ingredients_roundtrip ["Flour", "", "Sugar", "Cocoa"] (by decide) (by decide)).1

theorem parseCategory_label (v : Category) : parseCategory v.label = v := by
  cases v <;> rfl

theorem category_label_chars (v : Category) :
    '|' ∉ v.label.data ∧ ':' ∉ v.label.data ∧ v.label.data ≠ [] := by
  cases v <;> decide

theorem parseSideDish_entry (side : SideDish) (h : ':' ∉ side.name.data) :
    parseSideDish (String.mk (sideDishEntry side)) = side := by
  have hl := category_label_chars side.category
  have hne : side.category.label.data.isEmpty = false := by
    cases hd : side.category.label.data with
    | nil => exact absurd hd hl.2.2
    | cons _ _ => rfl
  have e1 : getline (IStream.ofString (String.mk (sideDishEntry side))) "" ':'
      = (⟨side.category.label.data, true⟩, String.mk side.name.data, true) := by
    simp [getline, IStream.ofString, sideDishEntry, splitAtDelim_append ':' _ _ h]
  have e2 : getline ⟨side.category.label.data, true⟩ "" ':'
      = (⟨[], false⟩, String.mk side.category.label.data, true) := by
    simp [getline, splitAtDelim_no_delim ':' _ hl.2.1, hne]
  simp only [parseSideDish, e1, e2]
  have : parseCategory (String.mk side.category.label.data) = side.category :=
    parseCategory_label side.category
  rw [this]

/-- C24: for side dishes whose names hold none of the characters , ; | : the
side-dish field that joins the entries `name:CATEGORY` with '|' decodes to
exactly those (name, category) pairs, in the same order; they are the side
dishes of the MainCourse decoded from a MAINCOURSE record with that field. -/
theorem side_dishes_roundtrip (sides : List SideDish)
    (hchars : ∀ side ∈ sides, ',' ∉ side.name.data ∧ ';' ∉ side.name.data ∧
      '|' ∉ side.name.data ∧ ':' ∉ side.name.data) :
    parseSideDishes (sideDishesField sides) = sides ∧
    (∀ (stod : String → Except StdException Double) (line : String) (dish : DishObject),
      recordField 0 line = "MAINCOURSE" →
      variantToken 2 line = sideDishesField sides →
      decodeLine stod line = Except.ok (some dish) →
      ∃ m : MainCourse, dish = DishObject.mainCourse m ∧ m.side_dishes_ = sides) := by
  have key : parseSideDishes (sideDishesField sides) = sides := by
    unfold parseSideDishes sideDishesField IStream.ofString
    rw [getlineAll_joinWith '|' _ _ _ (le_refl _)]
    · rw [List.map_map, List.map_map]
      conv_rhs => rw [← List.map_id sides]
      apply List.map_congr_left
      intro side hs
      exact parseSideDish_entry side (hchars side hs).2.2.2
    · intro t ht
      obtain ⟨side, hs, rfl⟩ := List.mem_map.mp ht
      have h1 := (hchars side hs).2.2.1
      have h2 := (category_label_chars side.category).1
      simp only [sideDishEntry, List.mem_append, List.mem_cons, not_or]
      exact ⟨h1, by decide, h2⟩
    · intro t ht
      rw [List.getLast?_map] at ht
      cases hl : sides.getLast? with
      | none => rw [hl] at ht; simp at ht
      | some side =>
        rw [hl] at ht
        simp only [Option.map_some', Option.some.injEq] at ht
        subst ht
        simp [sideDishEntry]
  refine ⟨key, ?_⟩
  intro stod line dish htype hfield hdec
  rw [decodeLine_eq] at hdec
  have hA : recordField 0 line ≠ "APPETIZER" := by rw [htype]; decide
  cases hp : stoi (recordField 3 line) with
  | error e => rw [hp] at hdec; cases hdec
  | ok prep_time =>
    cases hq : stod (recordField 4 line) with
    | error e => rw [hp, hq] at hdec; cases hdec
    | ok price =>
      rw [hp, hq, hfield, key] at hdec
      simp only [if_neg hA, if_pos htype, Except.ok.injEq, Option.some.injEq] at hdec
      exact ⟨_, hdec.symm, rfl⟩

theorem side_dishes_roundtrip_witness :
    parseSideDishes "Rice:GRAIN|Garden Salad:SALAD|:SOUP"
      = [⟨"Rice", Category.GRAIN⟩, ⟨"Garden Salad", Category.SALAD⟩, ⟨"", Category.SOUP⟩] :=
  (side_dishes_roundtrip
    [⟨"Rice", Category.GRAIN⟩, ⟨"Garden Salad", Category.SALAD⟩, ⟨"", Category.SOUP⟩]
    (by decide)).1

/-! ### Bulk dietary adjustment -/

/-- Rewriting the objects at the listed addresses, one call per entry: an
object is rewritten once for each time its address is listed. -/
theorem adjust_fold (request : DietaryRequest) (l : List DishPtr) (mem : Memory)
    (q : DishPtr) :
    (l.foldl (fun m p => Function.update m p ((m p).dietaryAccommodations request)) mem) q
      = (DishObject.dietaryAccommodations request)^[l.count q] (mem q) := by
  induction l generalizing mem with
  | nil => rfl
  | cons p rest ih =>
    rw [List.foldl_cons, ih]
    by_cases hq : p = q
    · subst hq
      rw [Function.update_same, List.count_cons_self, Function.iterate_succ_apply]
    · rw [Function.update_noteq (Ne.symm hq), List.count_cons_of_ne (Ne.symm hq)]

theorem dietaryAdjustment_apply (request : DietaryRequest) (k : Kitchen) (mem : Memory)
    (q : DishPtr) :
    (k.dietaryAdjustment request mem) q
      = (DishObject.dietaryAccommodations request)^[k.members.count q] (mem q) := by
  have h := adjust_fold request k.members mem q
  rw [ArrayBag.members, List.foldl_map] at h
  exact h

/-- C23: dietaryAdjustment(request) calls dietaryAccommodations(request) once
for each member slot, on the object the slot points to: a dish held in one
slot is replaced by the result of its own dietaryAccommodations(request) (a
dish whose pointer sits in several slots is rewritten once per slot, other
objects are untouched). The number of members, total_prep_time_ and
count_elaborate_ are left as they were. -/
theorem dietaryAdjustment_effect (accepts : ArrayBag → DishPtr → Bool)
    (request : DietaryRequest) (k : Kitchen) (mem : Memory) :
    (∀ q, (k.dietaryAdjustment request mem) q
      = (DishObject.dietaryAccommodations request)^[k.members.count q] (mem q)) ∧
    (∀ q, k.members.count q = 1 →
      (k.dietaryAdjustment request mem) q = (mem q).dietaryAccommodations request) ∧
    (k.members.Nodup → ∀ q ∈ k.members,
      (k.dietaryAdjustment request mem) q = (mem q).dietaryAccommodations request) ∧
    (∀ q, q ∉ k.members → (k.dietaryAdjustment request mem) q = mem q) ∧
    (Kitchen.callInMemory accepts (mem, k) (MenuCall.dietaryAdjustment request)).2.members
      = k.members ∧
    (Kitchen.callInMemory accepts (mem, k)
      (MenuCall.dietaryAdjustment request)).2.getCurrentSize = k.getCurrentSize ∧
    (Kitchen.callInMemory accepts (mem, k)
      (MenuCall.dietaryAdjustment request)).2.total_prep_time_ = k.total_prep_time_ ∧
    (Kitchen.callInMemory accepts (mem, k)
      (MenuCall.dietaryAdjustment request)).2.count_elaborate_ = k.count_elaborate_ := by
  refine ⟨dietaryAdjustment_apply request k mem, fun q hq => ?_, fun hnd q hq => ?_,
    fun q hq => ?_, rfl, rfl, rfl, rfl⟩
  · rw [dietaryAdjustment_apply, hq]; rfl
  · rw [dietaryAdjustment_apply, List.count_eq_one_of_mem hnd hq]; rfl
  · rw [dietaryAdjustment_apply, List.count_eq_zero_of_not_mem hq]; rfl

theorem dietaryAdjustment_effect_witness :
    (Kitchen.dietaryAdjustment ⟨true, false, true, false, false, false⟩
      (Kitchen.ofOrders (fun _ _ => true)
        (exampleMemory [exampleDish 20 ["Chicken", "Bread"] CuisineType.AMERICAN,
          exampleDish 40 ["Pasta", "Pork"] CuisineType.ITALIAN])
        (fun _ => 0) [0, 1])
      (exampleMemory [exampleDish 20 ["Chicken", "Bread"] CuisineType.AMERICAN,
        exampleDish 40 ["Pasta", "Pork"] CuisineType.ITALIAN])) 1
      = DishObject.appetizer
          ⟨⟨"Dish", ["Beans"], 40, ⟨0⟩, CuisineType.ITALIAN⟩, ServingStyle.PLATED, 0, true⟩ :=
  ((dietaryAdjustment_effect (fun _ _ => true) ⟨true, false, true, false, false, false⟩
    (Kitchen.ofOrders (fun _ _ => true)
      (exampleMemory [exampleDish 20 ["Chicken", "Bread"] CuisineType.AMERICAN,
        exampleDish 40 ["Pasta", "Pork"] CuisineType.ITALIAN])
      (fun _ => 0) [0, 1])
    (exampleMemory [exampleDish 20 ["Chicken", "Bread"] CuisineType.AMERICAN,
      exampleDish 40 ["Pasta", "Pork"] CuisineType.ITALIAN])).2.1 1 (by decide)).trans
    (by decide)

/-- C28: there are a store with consistent aggregates and a request after
which count_elaborate_ and elaborateDishCount() differ from the number of
elaborate members. The store holds one Appetizer of 5 ingredients, one of them
"Flour", and preparation time 60; a gluten_free adjustment leaves it 4
ingredients, so no member is elaborate any more, and the count is still 1. -/
theorem dietaryAdjustment_breaks_count :
    (Kitchen.ofOrders (fun _ _ => true)
      (exampleMemory [exampleDish 60 ["Flour", "Egg", "Salt", "Oil", "Herbs"] CuisineType.FRENCH])
      (fun _ => 0) [0]).Consistent
      (exampleMemory
        [exampleDish 60 ["Flour", "Egg", "Salt", "Oil", "Herbs"] CuisineType.FRENCH]) ∧
    (Kitchen.ofOrders (fun _ _ => true)
      (exampleMemory [exampleDish 60 ["Flour", "Egg", "Salt", "Oil", "Herbs"] CuisineType.FRENCH])
      (fun _ => 0) [0]).count_elaborate_ = 1 ∧
    (Kitchen.ofOrders (fun _ _ => true)
      (exampleMemory [exampleDish 60 ["Flour", "Egg", "Salt", "Oil", "Herbs"] CuisineType.FRENCH])
      (fun _ => 0) [0]).elaborateDishCount = 1 ∧
    (Kitchen.ofOrders (fun _ _ => true)
      (exampleMemory [exampleDish 60 ["Flour", "Egg", "Salt", "Oil", "Herbs"] CuisineType.FRENCH])
      (fun _ => 0) [0]).members.countP
      (fun d => decide
        (5 ≤ ((Kitchen.dietaryAdjustment ⟨false, false, true, false, false, false⟩
            (Kitchen.ofOrders (fun _ _ => true)
              (exampleMemory
                [exampleDish 60 ["Flour", "Egg", "Salt", "Oil", "Herbs"] CuisineType.FRENCH])
              (fun _ => 0) [0])
            (exampleMemory
              [exampleDish 60 ["Flour", "Egg", "Salt", "Oil", "Herbs"] CuisineType.FRENCH]))
            d).base.ingredients_.length ∧
         60 ≤ ((Kitchen.dietaryAdjustment ⟨false, false, true, false, false, false⟩
            (Kitchen.ofOrders (fun _ _ => true)
              (exampleMemory
                [exampleDish 60 ["Flour", "Egg", "Salt", "Oil", "Herbs"] CuisineType.FRENCH])
              (fun _ => 0) [0])
            (exampleMemory
              [exampleDish 60 ["Flour", "Egg", "Salt", "Oil", "Herbs"] CuisineType.FRENCH]))
            d).base.prep_time_)) = 0 ∧
    (∃ (mem : Memory) (k : Kitchen) (request : DietaryRequest),
      k.Consistent mem ∧
      k.count_elaborate_ ≠ elaborateTotal (k.dietaryAdjustment request mem) k.members ∧
      k.elaborateDishCount ≠ elaborateTotal (k.dietaryAdjustment request mem) k.members) := by
  refine ⟨⟨by decide, by decide⟩, by decide, by decide, by decide, ?_⟩
  exact ⟨exampleMemory
      [exampleDish 60 ["Flour", "Egg", "Salt", "Oil", "Herbs"] CuisineType.FRENCH],
    Kitchen.ofOrders (fun _ _ => true)
      (exampleMemory [exampleDish 60 ["Flour", "Egg", "Salt", "Oil", "Herbs"] CuisineType.FRENCH])
      (fun _ => 0) [0],
    ⟨false, false, true, false, false, false⟩, ⟨by decide, by decide⟩, by decide, by decide⟩

theorem replaceNonVeg_length (c : Nat) (xs : List String) :
    (replaceNonVeg c xs).length = xs.length := by
  induction xs generalizing c with
  | nil => rfl
  | cons x rest ih =>
    by_cases hm : x ∈ non_veg_ingredients
    · simp only [replaceNonVeg, if_pos hm, List.length_cons, ih]
    · simp only [replaceNonVeg, if_neg hm, List.length_cons, ih]

theorem eraseRemove_length_le (value : String) (v : List String) :
    (eraseRemove value v).length ≤ v.length :=
  List.length_filter_le _ _

theorem vegetarian_pass_length_le (xs : List String) :
    (eraseRemove "" (replaceNonVeg 0 xs)).length ≤ xs.length :=
  (eraseRemove_length_le _ _).trans (le_of_eq (replaceNonVeg_length 0 xs))

theorem blank_pass_length_le (listed xs : List String) :
    (eraseRemove "" (blankListed listed xs)).length ≤ xs.length := by
  rw [eraseRemove_blankListed]
  exact List.length_filter_le _ _

theorem removeEach_length_le (listed xs : List String) :
    (removeEach listed xs).length ≤ xs.length := by
  rw [removeEach_eq_filter]
  exact List.length_filter_le _ _

/-- dietaryAccommodations never lengthens the ingredient list. -/
theorem dietaryAccommodations_length_le (request : DietaryRequest) (dish : DishObject) :
    (dish.dietaryAccommodations request).base.ingredients_.length
      ≤ dish.base.ingredients_.length := by
  cases dish with
  | appetizer a =>
    show (a.dietaryAccommodations request).ingredients_.length ≤ a.ingredients_.length
    cases hv : request.vegetarian <;> cases hg : request.gluten_free <;>
      simp only [Appetizer.dietaryAccommodations, hv, hg, if_true, if_false,
        Bool.false_eq_true]
    · exact le_refl _
    · exact blank_pass_length_le _ _
    · exact vegetarian_pass_length_le _
    · exact (blank_pass_length_le _ _).trans (vegetarian_pass_length_le _)
  | mainCourse m =>
    show (m.dietaryAccommodations request).ingredients_.length ≤ m.ingredients_.length
    cases hv : request.vegetarian <;> cases hg : request.vegan <;>
      simp only [MainCourse.dietaryAccommodations, hv, hg, if_true, if_false,
        Bool.false_eq_true]
    · exact le_refl _
    · exact blank_pass_length_le _ _
    · exact vegetarian_pass_length_le _
    · exact (blank_pass_length_le _ _).trans (vegetarian_pass_length_le _)
  | dessert d =>
    show (d.dietaryAccommodations request).ingredients_.length ≤ d.ingredients_.length
    cases hv : request.nut_free <;> cases hg : request.vegan <;>
      simp only [Dessert.dietaryAccommodations, hv, hg, if_true, if_false,
        Bool.false_eq_true]
    · exact le_refl _
    · exact removeEach_length_le _ _
    · exact removeEach_length_le _ _
    · exact (removeEach_length_le _ _).trans (removeEach_length_le _ _)

theorem dietaryAccommodations_prep_time (request : DietaryRequest) (dish : DishObject) :
    (dish.dietaryAccommodations request).base.prep_time_ = dish.base.prep_time_ := by
  cases dish <;> rfl

theorem iterate_length_le (request : DietaryRequest) (n : Nat) (dish : DishObject) :
    ((DishObject.dietaryAccommodations request)^[n] dish).base.ingredients_.length
        ≤ dish.base.ingredients_.length ∧
    ((DishObject.dietaryAccommodations request)^[n] dish).base.prep_time_
        = dish.base.prep_time_ := by
  induction n with
  | zero => exact ⟨le_refl _, rfl⟩
  | succ m ih =>
    rw [Function.iterate_succ_apply']
    exact ⟨(dietaryAccommodations_length_le request _).trans ih.1,
      (dietaryAccommodations_prep_time request _).trans ih.2⟩

/-- A dish that is elaborate after a bulk adjustment was elaborate before it. -/
theorem isElaborate_of_adjusted (request : DietaryRequest) (k : Kitchen) (mem : Memory)
    (q : DishPtr) (h : isElaborate (k.dietaryAdjustment request mem) q = true) :
    isElaborate mem q = true := by
  rw [isElaborate_iff] at h ⊢
  rw [dietaryAdjustment_apply] at h
  have := iterate_length_le request (k.members.count q) (mem q)
  exact ⟨h.1.trans this.1, by rw [← this.2]; exact h.2⟩

theorem elaborateTotal_adjusted_le (request : DietaryRequest) (k : Kitchen) (mem : Memory)
    (l : List DishPtr) :
    elaborateTotal (k.dietaryAdjustment request mem) l ≤ elaborateTotal mem l :=
  List.countP_mono_left (fun q _ h => isElaborate_of_adjusted request k mem q h)

theorem newOrder_rejected (accepts : ArrayBag → DishPtr → Bool) (mem : Memory)
    (k : Kitchen) (d : DishPtr) (h : accepts k.toArrayBag d = false) :
    k.newOrder accepts mem d = (k, false) := by
  have h1 := add_snd accepts k.toArrayBag d
  have h2 := add_rejected accepts k.toArrayBag d h
  rw [h] at h1
  simp [Kitchen.newOrder, h1, h2]

theorem newOrder_accepted (accepts : ArrayBag → DishPtr → Bool) (mem : Memory)
    (k : Kitchen) (d : DishPtr) (h : accepts k.toArrayBag d = true) :
    k.newOrder accepts mem d =
      ({ toArrayBag := (k.toArrayBag.add accepts d).1
         total_prep_time_ := wrapInt (k.total_prep_time_ + getPrepTime mem d)
         count_elaborate_ :=
           if isElaborate mem d then wrapInt (k.count_elaborate_ + 1)
           else k.count_elaborate_ }, true) := by
  have h1 := add_snd accepts k.toArrayBag d
  rw [h] at h1
  simp [Kitchen.newOrder, h1]

/-- One call keeps count_elaborate_ between the number of elaborate members and
the number of calls made, as long as that number fits an `int`. -/
theorem callInMemory_bound (accepts : ArrayBag → DishPtr → Bool) (st : Memory × Kitchen)
    (c : MenuCall) (n : Nat)
    (hlow : (elaborateTotal st.1 st.2.members : Int) ≤ st.2.count_elaborate_)
    (hhigh : st.2.count_elaborate_ ≤ n) (hn : (n : Int) + 1 ≤ INT_MAX) :
    (elaborateTotal (Kitchen.callInMemory accepts st c).1
        (Kitchen.callInMemory accepts st c).2.members : Int)
      ≤ (Kitchen.callInMemory accepts st c).2.count_elaborate_ ∧
    (Kitchen.callInMemory accepts st c).2.count_elaborate_ ≤ (n : Int) + 1 := by
  have h0 : (0 : Int) ≤ st.2.count_elaborate_ :=
    le_trans (Int.ofNat_nonneg _) hlow
  cases c with
  | newOrder d =>
    simp only [Kitchen.callInMemory]
    cases ha : accepts st.2.toArrayBag d with
    | false =>
      rw [newOrder_rejected accepts st.1 st.2 d ha]
      exact ⟨hlow, le_trans hhigh (by omega)⟩
    | true =>
      rw [newOrder_accepted accepts st.1 st.2 d ha]
      have hm : (st.2.toArrayBag.add accepts d).1.members = st.2.members ++ [d] :=
        add_members accepts st.2.toArrayBag d ha
      show (elaborateTotal st.1 (st.2.toArrayBag.add accepts d).1.members : Int)
          ≤ (if isElaborate st.1 d then wrapInt (st.2.count_elaborate_ + 1)
              else st.2.count_elaborate_) ∧
        (if isElaborate st.1 d then wrapInt (st.2.count_elaborate_ + 1)
              else st.2.count_elaborate_) ≤ (n : Int) + 1
      rw [hm, elaborateTotal_append]
      by_cases hel : isElaborate st.1 d = true
      · rw [if_pos hel, if_pos hel,
          wrapInt_of_inRange _ (by unfold INT_MIN; omega) (by omega)]
        push_cast
        omega
      · rw [if_neg hel, if_neg hel]
        push_cast
        omega
  | serveDish d =>
    simp only [Kitchen.callInMemory]
    by_cases hm : d ∈ st.2.members
    · rw [serveDish_present st.1 st.2 d hm]
      have hp := (remove_present st.2.toArrayBag d hm).1
      show (elaborateTotal st.1 (st.2.toArrayBag.remove d).1.members : Int)
          ≤ (if isElaborate st.1 d then wrapInt (st.2.count_elaborate_ - 1)
              else st.2.count_elaborate_) ∧
        (if isElaborate st.1 d then wrapInt (st.2.count_elaborate_ - 1)
              else st.2.count_elaborate_) ≤ (n : Int) + 1
      rw [elaborateTotal_perm st.1 _ _ hp, elaborateTotal_erase st.1 _ _ hm]
      by_cases hel : isElaborate st.1 d = true
      · have hpos : 0 < elaborateTotal st.1 st.2.members :=
          List.countP_pos_iff.mpr ⟨d, hm, hel⟩
        rw [if_pos hel, if_pos hel,
          wrapInt_of_inRange _ (by unfold INT_MIN; omega) (by unfold INT_MAX at hn ⊢; omega)]
        omega
      · rw [if_neg hel, if_neg hel]
        omega
    · rw [serveDish_absent st.1 st.2 d hm]
      exact ⟨hlow, le_trans hhigh (by omega)⟩
  | dietaryAdjustment request =>
    simp only [Kitchen.callInMemory]
    have := elaborateTotal_adjusted_le request st.2 st.1 st.2.members
    exact ⟨by omega, by omega⟩

theorem calls_bound (accepts : ArrayBag → DishPtr → Bool) (calls : List MenuCall)
    (st : Memory × Kitchen) (n : Nat)
    (hlow : (elaborateTotal st.1 st.2.members : Int) ≤ st.2.count_elaborate_)
    (hhigh : st.2.count_elaborate_ ≤ n) (hn : (n : Int) + calls.length ≤ INT_MAX) :
    (elaborateTotal (calls.foldl (Kitchen.callInMemory accepts) st).1
        (calls.foldl (Kitchen.callInMemory accepts) st).2.members : Int)
      ≤ (calls.foldl (Kitchen.callInMemory accepts) st).2.count_elaborate_ := by
  induction calls generalizing st n with
  | nil => exact hlow
  | cons c rest ih =>
    simp only [List.length_cons, Nat.cast_add, Nat.cast_one] at hn
    have h := callInMemory_bound accepts st c n hlow hhigh (by omega)
    rw [List.foldl_cons]
    exact ih _ (n + 1) h.1 (by push_cast; exact h.2) (by push_cast; omega)

/-- C30: in every state reached from the default-constructed store by newOrder,
serveDish and dietaryAdjustment calls (fewer than 2^31 of them, so that the
`int` counter cannot overflow), count_elaborate_ is at least the number of
members that have at least 5 ingredients and a preparation time of at least
60; in particular it is not negative. -/
theorem count_elaborate_lower_bound (accepts : ArrayBag → DishPtr → Bool) (mem : Memory)
    (items : Nat → DishPtr) (calls : List MenuCall) (hcalls : (calls.length : Int) ≤ INT_MAX) :
    (((calls.foldl (Kitchen.callInMemory accepts) (mem, Kitchen.default items)).2.members.countP
        (fun d => decide
          (5 ≤ ((calls.foldl (Kitchen.callInMemory accepts)
              (mem, Kitchen.default items)).1 d).base.ingredients_.length ∧
           60 ≤ ((calls.foldl (Kitchen.callInMemory accepts)
              (mem, Kitchen.default items)).1 d).base.prep_time_)) : Nat) : Int)
      ≤ (calls.foldl (Kitchen.callInMemory accepts)
          (mem, Kitchen.default items)).2.count_elaborate_ ∧
    0 ≤ (calls.foldl (Kitchen.callInMemory accepts)
          (mem, Kitchen.default items)).2.count_elaborate_ := by
  have h := calls_bound accepts calls (mem, Kitchen.default items) 0
    (by simp [Kitchen.default, ArrayBag.members, elaborateTotal])
    (by simp [Kitchen.default]) (by simpa using hcalls)
  have hpred : (fun d => decide
      (5 ≤ ((calls.foldl (Kitchen.callInMemory accepts)
          (mem, Kitchen.default items)).1 d).base.ingredients_.length ∧
       60 ≤ ((calls.foldl (Kitchen.callInMemory accepts)
          (mem, Kitchen.default items)).1 d).base.prep_time_))
      = isElaborate (calls.foldl (Kitchen.callInMemory accepts)
          (mem, Kitchen.default items)).1 := by
    funext d
    simp [isElaborate, getPrepTime]
  rw [hpred]
  exact ⟨h, le_trans (Int.ofNat_nonneg _) h⟩

theorem count_elaborate_lower_bound_witness :
    ([MenuCall.newOrder 0, MenuCall.dietaryAdjustment ⟨false, false, true, false, false, false⟩,
        MenuCall.serveDish 0].foldl
      (Kitchen.callInMemory (fun _ _ => true))
      (exampleMemory [exampleDish 60 ["Flour", "Egg", "Salt", "Oil", "Herbs"] CuisineType.FRENCH],
        Kitchen.default (fun _ => 0))).2.members = [] ∧
    0 ≤ ([MenuCall.newOrder 0,
        MenuCall.dietaryAdjustment ⟨false, false, true, false, false, false⟩,
        MenuCall.serveDish 0].foldl
      (Kitchen.callInMemory (fun _ _ => true))
      (exampleMemory [exampleDish 60 ["Flour", "Egg", "Salt", "Oil", "Herbs"] CuisineType.FRENCH],
        Kitchen.default (fun _ => 0))).2.count_elaborate_ :=
  ⟨by decide,
   (count_elaborate_lower_bound (fun _ _ => true)
    (exampleMemory [exampleDish 60 ["Flour", "Egg", "Salt", "Oil", "Herbs"] CuisineType.FRENCH])
    (fun _ => 0)
    [MenuCall.newOrder 0, MenuCall.dietaryAdjustment ⟨false, false, true, false, false, false⟩,
      MenuCall.serveDish 0] (by decide)).2⟩

/-! ### The slots read by the release sweep -/

theorem releaseBelowReads_slots (mem : Memory) (prep_time : Int) (items0 : Nat → DishPtr)
    (remaining i : Nat) (k : Kitchen) (hslots : ∀ j, i ≤ j → k.items_ j = items0 j) :
    (Kitchen.releaseBelowReads mem prep_time remaining i k).map (fun r => (r.1, r.2.1))
      = (List.range' i remaining).map (fun j => (j, items0 j)) := by
  induction remaining generalizing i k with
  | zero => rfl
  | succ r ih =>
    simp only [Kitchen.releaseBelowReads, List.range'_succ, List.map_cons]
    have hp := hslots i (le_refl _)
    rw [hp]
    congr 1
    split
    · apply ih
      intro j hj
      rw [← hp, serveDish_items_after mem k i j (by omega)]
      exact hslots j (by omega)
    · exact ih (i + 1) k (fun j hj => hslots j (by omega))

theorem releaseBelowReads_sizes (mem : Memory) (prep_time : Int) (remaining i : Nat)
    (k : Kitchen) :
    ∀ r ∈ Kitchen.releaseBelowReads mem prep_time remaining i k,
      r.2.2 ≤ k.getCurrentSize := by
  induction remaining generalizing i k with
  | zero => intro r hr; simp [Kitchen.releaseBelowReads] at hr
  | succ m ih =>
    intro r hr
    simp only [Kitchen.releaseBelowReads, List.mem_cons] at hr
    rcases hr with rfl | hr
    · exact le_refl _
    · split at hr
      · exact (ih _ _ r hr).trans (serveDish_size_le mem k _)
      · exact ih _ _ r hr

/-- C27, as stated, fails: in a store with preparation times 30 and 90 the
sweep for t = 60 removes the first dish, so the size is 1 when the loop reads
`items_[1]`: that slot is no longer the slot of a member. -/
theorem releaseDishesBelowPrepTime_reads_past_size :
    Kitchen.releaseBelowReads
        (exampleMemory [exampleDish 30 [] CuisineType.OTHER, exampleDish 90 [] CuisineType.OTHER])
        60 2 0
        (Kitchen.ofOrders (fun _ _ => true)
          (exampleMemory [exampleDish 30 [] CuisineType.OTHER,
            exampleDish 90 [] CuisineType.OTHER])
          (fun _ => 0) [0, 1])
      = [(0, 0, 2), (1, 1, 1)] ∧
    (Kitchen.ofOrders (fun _ _ => true)
        (exampleMemory [exampleDish 30 [] CuisineType.OTHER, exampleDish 90 [] CuisineType.OTHER])
        (fun _ => 0) [0, 1]).getCurrentSize = 2 ∧
    ¬ ∀ r ∈ Kitchen.releaseBelowReads
        (exampleMemory [exampleDish 30 [] CuisineType.OTHER, exampleDish 90 [] CuisineType.OTHER])
        60 2 0
        (Kitchen.ofOrders (fun _ _ => true)
          (exampleMemory [exampleDish 30 [] CuisineType.OTHER,
            exampleDish 90 [] CuisineType.OTHER])
          (fun _ => 0) [0, 1]),
      r.1 < r.2.2 := by
  refine ⟨by decide, by decide, by decide⟩

/-- C27 (amended): releaseDishesBelowPrepTime sweeps the slots that held the
members when the call started: it reads the slots 0, 1, ... up to the starting
size, each once, and finds in each the pointer the slot held at the start, so
every dish that was a member is examined exactly once. The size at the moment
of a read is at most the starting size; the index read can be at or beyond
it. -/
theorem releaseDishesBelowPrepTime_reads (mem : Memory) (k : Kitchen) (t : Int) :
    (Kitchen.releaseBelowReads mem t k.getCurrentSize 0 k).map (fun r => r.2.1) = k.members ∧
    (Kitchen.releaseBelowReads mem t k.getCurrentSize 0 k).map (fun r => r.1)
      = List.range k.getCurrentSize ∧
    (∀ r ∈ Kitchen.releaseBelowReads mem t k.getCurrentSize 0 k,
      r.1 < k.getCurrentSize ∧ r.2.1 = k.items_ r.1 ∧ r.2.2 ≤ k.getCurrentSize) := by
  have h := releaseBelowReads_slots mem t k.items_ k.getCurrentSize 0 k (fun _ _ => rfl)
  have h1 : (Kitchen.releaseBelowReads mem t k.getCurrentSize 0 k).map (fun r => r.2.1)
      = k.members := by
    have := congrArg (List.map Prod.snd) h
    simpa [List.map_map, Function.comp_def, ArrayBag.members, ArrayBag.getCurrentSize,
      List.range_eq_range'] using this
  have h2 : (Kitchen.releaseBelowReads mem t k.getCurrentSize 0 k).map (fun r => r.1)
      = List.range k.getCurrentSize := by
    have := congrArg (List.map Prod.fst) h
    simpa [List.map_map, Function.comp_def, List.range_eq_range'] using this
  refine ⟨h1, h2, fun r hr => ?_⟩
  have hmem : (r.1, r.2.1) ∈ (List.range' 0 k.getCurrentSize).map (fun j => (j, k.items_ j)) := by
    rw [← h]
    exact List.mem_map.mpr ⟨r, hr, rfl⟩
  obtain ⟨j, hj, he⟩ := List.mem_map.mp hmem
  have hj2 := (List.mem_range'_1.mp hj).2
  simp only [Prod.mk.injEq] at he
  refine ⟨by omega, ?_, releaseBelowReads_sizes mem t _ 0 k r hr⟩
  rw [← he.1, he.2]

/-! ### Side dishes with an unknown category -/

theorem parseCategory_default (tok : String) (h : ∀ v : Category, tok ≠ v.label) :
    parseCategory tok = Category.GRAIN := by
  have h1 := h Category.GRAIN
  have h2 := h Category.PASTA
  have h3 := h Category.LEGUME
  have h4 := h Category.BREAD
  have h5 := h Category.SALAD
  have h6 := h Category.SOUP
  have h7 := h Category.STARCHES
  have h8 := h Category.VEGETABLE
  simp only [Category.label] at h1 h2 h3 h4 h5 h6 h7 h8
  simp only [parseCategory, if_neg h1, if_neg h2, if_neg h3, if_neg h4, if_neg h5, if_neg h6,
    if_neg h7, if_neg h8]

/-- The body of the side-dish loop in terms of the entry's layout: the name is
what stands before the first ':', the category token what stands between the
first ':' and the second. -/
theorem parseSideDish_eq (entry : String) :
    parseSideDish entry
      = ⟨String.mk (nthField ':' 0 entry.data),
          parseCategory (String.mk (nthField ':' 1 entry.data))⟩ := by
  obtain ⟨t0, t1, _, _⟩ := getline_tokens ':' entry
  simp only [parseSideDish, t0, t1]

theorem nthField_one_of_no_delim (delim : Char) (cs : List Char) (h : delim ∉ cs) :
    nthField delim 1 cs = [] := by
  have hd : cs.dropWhile (fun c => decide (c ≠ delim)) = [] := by
    rw [List.dropWhile_eq_nil_iff]
    intro c hc
    have : c ≠ delim := fun e => h (e ▸ hc)
    simpa using this
  show nthField delim 0 (cs.dropWhile (fun c => decide (c ≠ delim))).tail = []
  rw [hd]
  rfl

/-- A MainCourse comes only from a MAINCOURSE record, and its side dishes are
those of variant token 2. -/
theorem decodeLine_mainCourse (stod : String → Except StdException Double) (line : String)
    (m : MainCourse) (hdec : decodeLine stod line = Except.ok (some (DishObject.mainCourse m))) :
    recordField 0 line = "MAINCOURSE" ∧
    m.side_dishes_ = parseSideDishes (variantToken 2 line) := by
  rw [decodeLine_eq] at hdec
  cases hp : stoi (recordField 3 line) with
  | error e => rw [hp] at hdec; cases hdec
  | ok prep_time =>
    cases hq : stod (recordField 4 line) with
    | error e => rw [hp, hq] at hdec; cases hdec
    | ok price =>
      rw [hp, hq] at hdec
      by_cases hA : recordField 0 line = "APPETIZER"
      · simp only [if_pos hA] at hdec
        cases hs : stoi (variantToken 1 line) with
        | error e => rw [hs] at hdec; cases hdec
        | ok level => rw [hs] at hdec; simp at hdec
      · by_cases hM : recordField 0 line = "MAINCOURSE"
        · simp only [if_neg hA, if_pos hM, Except.ok.injEq, Option.some.injEq,
            DishObject.mainCourse.injEq] at hdec
          exact ⟨hM, by rw [← hdec]⟩
        · by_cases hD : recordField 0 line = "DESSERT"
          · simp only [if_neg hA, if_neg hM, if_pos hD] at hdec
            cases hs : stoi (variantToken 1 line) with
            | error e => rw [hs] at hdec; cases hdec
            | ok level => rw [hs] at hdec; simp at hdec
          · simp only [if_neg hA, if_neg hM, if_neg hD] at hdec
            simp at hdec

/-- C31: in a MAINCOURSE record whose side-dish field joins the given entries
with '|', every entry is decoded to one side dish, in order; an entry whose
category token (the text between its first ':' and its second, empty when the
entry has no ':') is none of the eight category labels is decoded with its name
and the category GRAIN, and a gluten_free request applied to the decoded
MainCourse removes that side dish. -/
theorem unknown_category_decodes_grain
    (stod : String → Except StdException Double) (line : String) (m : MainCourse)
    (entries : List (List Char)) (request : DietaryRequest)
    (hdec : decodeLine stod line = Except.ok (some (DishObject.mainCourse m)))
    (hfield : variantToken 2 line = String.mk (joinWith '|' entries))
    (hbar : ∀ e ∈ entries, '|' ∉ e)
    (hlast : ∀ e, entries.getLast? = some e → e ≠ [])
    (hgf : request.gluten_free = true) :
    recordField 0 line = "MAINCOURSE" ∧
    m.side_dishes_ = entries.map (fun e => parseSideDish (String.mk e)) ∧
    (∀ e ∈ entries, ':' ∉ e → ∀ v : Category, String.mk (nthField ':' 1 e) ≠ v.label) ∧
    (∀ e ∈ entries, (∀ v : Category, String.mk (nthField ':' 1 e) ≠ v.label) →
      parseSideDish (String.mk e) = ⟨String.mk (nthField ':' 0 e), Category.GRAIN⟩ ∧
      parseSideDish (String.mk e) ∈ m.side_dishes_ ∧
      parseSideDish (String.mk e) ∉ (m.dietaryAccommodations request).side_dishes_) := by
  obtain ⟨htype, hsides⟩ := decodeLine_mainCourse stod line m hdec
  have hmap : m.side_dishes_ = entries.map (fun e => parseSideDish (String.mk e)) := by
    rw [hsides, hfield]
    unfold parseSideDishes IStream.ofString
    rw [getlineAll_joinWith '|' _ _ _ (le_refl _) hbar hlast, List.map_map]
    rfl
  refine ⟨htype, hmap, ?_, ?_⟩
  · intro e _ hcolon v
    rw [nthField_one_of_no_delim ':' e hcolon]
    cases v <;> decide
  · intro e he htok
    have hcat : parseSideDish (String.mk e)
        = ⟨String.mk (nthField ':' 0 e), Category.GRAIN⟩ := by
      rw [parseSideDish_eq, parseCategory_default _ htok]
    refine ⟨hcat, ?_, ?_⟩
    · rw [hmap]
      exact List.mem_map.mpr ⟨e, he, rfl⟩
    · simp only [MainCourse.dietaryAccommodations, hgf, if_true]
      intro hmem
      have := (List.mem_filter.mp hmem).2
      rw [hcat] at this
      simp [gluten_categories] at this

set_option maxRecDepth 100000 in
theorem unknown_category_decodes_grain_witness :
    decodeLine (fun _ => Except.ok ⟨0⟩)
        "MAINCOURSE,Steak,Beef;Salt,45,28.50,FRENCH,GRILLED;Beef;Rice:grain|Fries|Salad:SALAD;true"
      = Except.ok (some (DishObject.mainCourse
          (MainCourse.mk ⟨"Steak", ["Beef", "Salt"], 45, ⟨0⟩, CuisineType.FRENCH⟩
            CookingMethod.GRILLED "Beef"
            [⟨"Rice", Category.GRAIN⟩, ⟨"Fries", Category.GRAIN⟩, ⟨"Salad", Category.SALAD⟩]
            true))) ∧
    parseSideDish "Fries" = ⟨"Fries", Category.GRAIN⟩ ∧
    parseSideDish "Fries" ∉
      ((MainCourse.mk ⟨"Steak", ["Beef", "Salt"], 45, ⟨0⟩, CuisineType.FRENCH⟩
          CookingMethod.GRILLED "Beef"
          [⟨"Rice", Category.GRAIN⟩, ⟨"Fries", Category.GRAIN⟩, ⟨"Salad", Category.SALAD⟩]
          true).dietaryAccommodations ⟨false, false, true, false, false, false⟩).side_dishes_ :=
  have h := (unknown_category_decodes_grain (fun _ => Except.ok ⟨0⟩)
    "MAINCOURSE,Steak,Beef;Salt,45,28.50,FRENCH,GRILLED;Beef;Rice:grain|Fries|Salad:SALAD;true"
    (MainCourse.mk ⟨"Steak", ["Beef", "Salt"], 45, ⟨0⟩, CuisineType.FRENCH⟩
      CookingMethod.GRILLED "Beef"
      [⟨"Rice", Category.GRAIN⟩, ⟨"Fries", Category.GRAIN⟩, ⟨"Salad", Category.SALAD⟩] true)
    ["Rice:grain".data, "Fries".data, "Salad:SALAD".data]
    ⟨false, false, true, false, false, false⟩ rfl rfl (by decide) (by decide) rfl).2.2.2
    "Fries".data (by decide) (fun v => by cases v <;> decide)
  ⟨rfl, h.1, h.2.2⟩

/-! ### Splitting a request in two -/

/-- The vegetarian pass commutes with a deletion pass that keeps the
non-vegetarian ingredients and the two substitutes and deletes empty
entries. -/
theorem vegetarian_pass_filter_comm (p : String → Bool)
    (hnon : ∀ x ∈ non_veg_ingredients, p x = true)
    (hbeans : p "Beans" = true) (hmush : p "Mushrooms" = true) (hempty : p "" = false)
    (c : Nat) (xs : List String) :
    eraseRemove "" (replaceNonVeg c (xs.filter p))
      = (eraseRemove "" (replaceNonVeg c xs)).filter p := by
  induction xs generalizing c with
  | nil => rfl
  | cons x rest ih =>
    by_cases hx : x ∈ non_veg_ingredients
    · have hpx := hnon x hx
      rw [List.filter_cons_of_pos hpx]
      simp only [replaceNonVeg, if_pos hx]
      by_cases h0 : c = 0
      · simp only [if_pos h0]
        rw [eraseRemove_cons_ne (by decide), eraseRemove_cons_ne (by decide),
          List.filter_cons_of_pos hbeans, ih]
      · by_cases h1 : c = 1
        · simp only [if_neg h0, if_pos h1]
          rw [eraseRemove_cons_ne (by decide), eraseRemove_cons_ne (by decide),
            List.filter_cons_of_pos hmush, ih]
        · simp only [if_neg h0, if_neg h1]
          rw [eraseRemove_cons_self, eraseRemove_cons_self, ih]
    · by_cases hpx : p x = true
      · have hne : x ≠ "" := fun e => by rw [e, hempty] at hpx; cases hpx
        rw [List.filter_cons_of_pos hpx]
        simp only [replaceNonVeg, if_neg hx]
        rw [eraseRemove_cons_ne hne, eraseRemove_cons_ne hne, List.filter_cons_of_pos hpx, ih]
      · rw [List.filter_cons_of_neg hpx]
        simp only [replaceNonVeg, if_neg hx]
        by_cases hne : x = ""
        · subst hne
          rw [eraseRemove_cons_self, ih]
        · rw [eraseRemove_cons_ne hne, List.filter_cons_of_neg hpx, ih]

theorem vegetarian_pass_gluten_comm (xs : List String) :
    eraseRemove "" (replaceNonVeg 0 (eraseRemove "" (blankListed gluten_ingredients xs)))
      = eraseRemove "" (blankListed gluten_ingredients (eraseRemove "" (replaceNonVeg 0 xs))) := by
  rw [eraseRemove_blankListed, eraseRemove_blankListed]
  exact vegetarian_pass_filter_comm _ (by decide) (by decide) (by decide) (by decide) 0 xs

theorem vegetarian_pass_dairy_comm (xs : List String) :
    eraseRemove "" (replaceNonVeg 0 (eraseRemove "" (blankListed dairy_eggs xs)))
      = eraseRemove "" (blankListed dairy_eggs (eraseRemove "" (replaceNonVeg 0 xs))) := by
  rw [eraseRemove_blankListed, eraseRemove_blankListed]
  exact vegetarian_pass_filter_comm _ (by decide) (by decide) (by decide) (by decide) 0 xs

theorem removeEach_comm (l1 l2 xs : List String) :
    removeEach l1 (removeEach l2 xs) = removeEach l2 (removeEach l1 xs) := by
  simp only [removeEach_eq_filter, List.filter_filter]
  apply List.filter_congr
  intro x _
  exact Bool.and_comm _ _

theorem merge_comm (r1 r2 : DietaryRequest) : r1.merge r2 = r2.merge r1 := by
  simp only [DietaryRequest.merge, Bool.or_comm]

theorem noCommonToggle_symm (r1 r2 : DietaryRequest) (h : r1.NoCommonToggle r2) :
    r2.NoCommonToggle r1 := by
  obtain ⟨h1, h2, h3, h4, h5, h6⟩ := h
  exact ⟨by rw [Bool.and_comm]; exact h1, by rw [Bool.and_comm]; exact h2,
    by rw [Bool.and_comm]; exact h3, by rw [Bool.and_comm]; exact h4,
    by rw [Bool.and_comm]; exact h5, by rw [Bool.and_comm]; exact h6⟩

/-- Two applications to an Appetizer with requests that share no toggle amount
to one application of the merged request. -/
theorem appetizer_split (a : Appetizer) (r1 r2 : DietaryRequest) (h : r1.NoCommonToggle r2) :
    (a.dietaryAccommodations r1).dietaryAccommodations r2
      = a.dietaryAccommodations (r1.merge r2) := by
  obtain ⟨hv, -, hg, -, hs, -⟩ := h
  apply appetizer_eq_of_fields
  · refine dish_eq_of_fields rfl ?_ rfl rfl rfl
    cases hv1 : r1.vegetarian <;> cases hv2 : r2.vegetarian <;>
      cases hg1 : r1.gluten_free <;> cases hg2 : r2.gluten_free <;>
      simp only [hv1, hv2, hg1, hg2, Bool.and_self, Bool.true_eq_false] at hv hg <;>
      simp only [Appetizer.dietaryAccommodations, DietaryRequest.merge, hv1, hv2, hg1, hg2,
        Bool.or_true, Bool.or_false, Bool.true_or, Bool.false_or, if_true, if_false,
        Bool.false_eq_true]
    exact vegetarian_pass_gluten_comm _
  · rfl
  · cases hs1 : r1.low_sodium <;> cases hs2 : r2.low_sodium <;>
      simp only [hs1, hs2, Bool.and_self, Bool.true_eq_false] at hs <;>
      simp only [Appetizer.dietaryAccommodations, DietaryRequest.merge, hs1, hs2,
        Bool.or_true, Bool.or_false, if_true, if_false, Bool.false_eq_true]
  · cases hv1 : r1.vegetarian <;> cases hv2 : r2.vegetarian <;>
      simp only [Appetizer.dietaryAccommodations, DietaryRequest.merge, hv1, hv2,
        Bool.or_true, Bool.or_false, if_true, if_false, Bool.false_eq_true]

/-- Two applications to a MainCourse with requests that share no toggle amount
to one application of the merged request. -/
theorem mainCourse_split (m : MainCourse) (r1 r2 : DietaryRequest)
    (h : r1.NoCommonToggle r2) :
    (m.dietaryAccommodations r1).dietaryAccommodations r2
      = m.dietaryAccommodations (r1.merge r2) := by
  obtain ⟨hv, hg, hf, -, -, -⟩ := h
  apply mainCourse_eq_of_fields
  · refine dish_eq_of_fields rfl ?_ rfl rfl rfl
    cases hv1 : r1.vegetarian <;> cases hv2 : r2.vegetarian <;>
      cases hg1 : r1.vegan <;> cases hg2 : r2.vegan <;>
      simp only [hv1, hv2, hg1, hg2, Bool.and_self, Bool.true_eq_false] at hv hg <;>
      simp only [MainCourse.dietaryAccommodations, DietaryRequest.merge, hv1, hv2, hg1, hg2,
        Bool.or_true, Bool.or_false, Bool.true_or, Bool.false_or, if_true, if_false,
        Bool.false_eq_true]
    exact vegetarian_pass_dairy_comm _
  · rfl
  · cases hv1 : r1.vegetarian <;> cases hv2 : r2.vegetarian <;>
      cases hg1 : r1.vegan <;> cases hg2 : r2.vegan <;>
      simp only [MainCourse.dietaryAccommodations, DietaryRequest.merge, hv1, hv2, hg1, hg2,
        Bool.or_true, Bool.or_false, Bool.true_or, Bool.false_or, if_true, if_false,
        Bool.false_eq_true]
  · cases hf1 : r1.gluten_free <;> cases hf2 : r2.gluten_free <;>
      simp only [hf1, hf2, Bool.and_self, Bool.true_eq_false] at hf <;>
      simp only [MainCourse.dietaryAccommodations, DietaryRequest.merge, hf1, hf2,
        Bool.or_true, Bool.or_false, if_true, if_false, Bool.false_eq_true]
  · cases hf1 : r1.gluten_free <;> cases hf2 : r2.gluten_free <;>
      simp only [MainCourse.dietaryAccommodations, DietaryRequest.merge, hf1, hf2,
        Bool.or_true, Bool.or_false, if_true, if_false, Bool.false_eq_true]

/-- Two applications to a Dessert with requests that share no toggle amount to
one application of the merged request. -/
theorem dessert_split (d : Dessert) (r1 r2 : DietaryRequest) (h : r1.NoCommonToggle r2) :
    (d.dietaryAccommodations r1).dietaryAccommodations r2
      = d.dietaryAccommodations (r1.merge r2) := by
  obtain ⟨-, hg, -, hn, -, hs⟩ := h
  apply dessert_eq_of_fields
  · refine dish_eq_of_fields rfl ?_ rfl rfl rfl
    cases hn1 : r1.nut_free <;> cases hn2 : r2.nut_free <;>
      cases hg1 : r1.vegan <;> cases hg2 : r2.vegan <;>
      simp only [hn1, hn2, hg1, hg2, Bool.and_self, Bool.true_eq_false] at hn hg <;>
      simp only [Dessert.dietaryAccommodations, DietaryRequest.merge, hn1, hn2, hg1, hg2,
        Bool.or_true, Bool.or_false, Bool.true_or, Bool.false_or, if_true, if_false,
        Bool.false_eq_true]
    exact removeEach_comm _ _ _
  · rfl
  · cases hs1 : r1.low_sugar <;> cases hs2 : r2.low_sugar <;>
      simp only [hs1, hs2, Bool.and_self, Bool.true_eq_false] at hs <;>
      simp only [Dessert.dietaryAccommodations, DietaryRequest.merge, hs1, hs2,
        Bool.or_true, Bool.or_false, if_true, if_false, Bool.false_eq_true]
  · cases hn1 : r1.nut_free <;> cases hn2 : r2.nut_free <;>
      simp only [Dessert.dietaryAccommodations, DietaryRequest.merge, hn1, hn2,
        Bool.or_true, Bool.or_false, if_true, if_false, Bool.false_eq_true]

theorem dishObject_split (dish : DishObject) (r1 r2 : DietaryRequest)
    (h : r1.NoCommonToggle r2) :
    (dish.dietaryAccommodations r1).dietaryAccommodations r2
      = dish.dietaryAccommodations (r1.merge r2) := by
  cases dish with
  | appetizer a => exact congrArg DishObject.appetizer (appetizer_split a r1 r2 h)
  | mainCourse m => exact congrArg DishObject.mainCourse (mainCourse_split m r1 r2 h)
  | dessert d => exact congrArg DishObject.dessert (dessert_split d r1 r2 h)

/-- C32: for a dish of any variant and two requests with no toggle set in
common, applying dietaryAccommodations with the first and then with the second
leaves the dish in the state that one application of the merged request (its
set toggles are those of the first together with those of the second) leaves it
in; so the two orders of application give the same dish. -/
theorem dietaryAccommodations_split (dish : DishObject) (r1 r2 : DietaryRequest)
    (h : r1.NoCommonToggle r2) :
    (dish.dietaryAccommodations r1).dietaryAccommodations r2
      = dish.dietaryAccommodations (r1.merge r2) ∧
    (dish.dietaryAccommodations r1).dietaryAccommodations r2
      = (dish.dietaryAccommodations r2).dietaryAccommodations r1 := by
  refine ⟨dishObject_split dish r1 r2 h, ?_⟩
  rw [dishObject_split dish r1 r2 h, dishObject_split dish r2 r1 (noCommonToggle_symm r1 r2 h),
    merge_comm]

theorem dietaryAccommodations_split_witness :
    ((DishObject.appetizer (Appetizer.mk
        ⟨"Sliders", ["Bread", "Beef", "", "Bacon", "Flour", "Pork", "Salt"], 20, ⟨0⟩,
          CuisineType.AMERICAN⟩ ServingStyle.PLATED 5 false)).dietaryAccommodations
        ⟨false, false, true, false, true, false⟩).dietaryAccommodations
        ⟨true, false, false, false, false, false⟩
      = DishObject.appetizer (Appetizer.mk
        ⟨"Sliders", ["Beans", "Mushrooms", "Salt"], 20, ⟨0⟩, CuisineType.AMERICAN⟩
        ServingStyle.PLATED 3 true) ∧
    ((DishObject.appetizer (Appetizer.mk
        ⟨"Sliders", ["Bread", "Beef", "", "Bacon", "Flour", "Pork", "Salt"], 20, ⟨0⟩,
          CuisineType.AMERICAN⟩ ServingStyle.PLATED 5 false)).dietaryAccommodations
        ⟨true, false, false, false, false, false⟩).dietaryAccommodations
        ⟨false, false, true, false, true, false⟩
      = DishObject.appetizer (Appetizer.mk
        ⟨"Sliders", ["Beans", "Mushrooms", "Salt"], 20, ⟨0⟩, CuisineType.AMERICAN⟩
        ServingStyle.PLATED 3 true) :=
  have h := dietaryAccommodations_split
    (DishObject.appetizer (Appetizer.mk
      ⟨"Sliders", ["Bread", "Beef", "", "Bacon", "Flour", "Pork", "Salt"], 20, ⟨0⟩,
        CuisineType.AMERICAN⟩ ServingStyle.PLATED 5 false))
    ⟨false, false, true, false, true, false⟩ ⟨true, false, false, false, false, false⟩
    ⟨rfl, rfl, rfl, rfl, rfl, rfl⟩
  ⟨h.1.trans (by decide), (h.2.symm.trans h.1).trans (by decide)⟩

end Menu
